import Mathlib

/-!
# Audio packet conversion engine (`libAvKys/Lib/src/akaudiopacket.cpp`)

A shallow embedding of `AkAudioPacket` and of the private helpers of
`AkAudioPacketPrivate`, followed by the properties proved about them.

Conventions of the embedding

* A sample held in a C++ variable of type `T` is the natural number below
  `2 ^ (8 * sizeof T)` formed by its bits; `CType.toInt` reads it as the
  integer it denotes (two's complement for the signed types).
* Integer arithmetic follows the usual arithmetic conversions: operands
  narrower than `int` are promoted to `int`, and every result is reduced
  modulo `2 ^ w` into the range of its type.  Signed overflow, which the
  language leaves undefined, is taken as this two's-complement wrap-around.
* Floating-point arithmetic on sample values is not interpreted: the results
  of the computations carried out in `float`/`qreal` are fields of `Host`.
* The resampler computes sample counts and sample positions in `qreal`; this
  arithmetic is taken on exact rationals, as is the last expression of the
  three-point interpolator of the integer formats, and the divisor of the
  channel mixer, computed from the speaker positions.  The rounding of the
  `qreal` operations is not modelled: a count or a drift is the exact value of
  its expression, which the value computed in `qreal` approximates to within
  the precision of a `double`.
* A function that can run into undefined behaviour (a division by zero)
  returns an `Option`, and `none` stands for such an execution.
* A byte buffer is a list of bytes; storage obtained with
  `Qt::Uninitialized` holds the bytes given by `Host.uninitialized`.
* Sample counts are natural numbers (a descriptor never holds a negative
  count); the requested counts passed by callers are integers.
-/

namespace Webcamoid

/-! ## Numeric types -/

/-- Byte order of a multi-byte word (`Q_BYTE_ORDER` for the host). -/
inductive Endian
  | little
  | big
  deriving DecidableEq

/-- The C++ arithmetic types the sample templates are instantiated with. -/
inductive CType
  | qint8
  | quint8
  | qint16
  | quint16
  | qint32
  | quint32
  | qint64
  | quint64
  | float
  | qreal
  deriving DecidableEq

namespace CType

/-- Storage size in bytes (`sizeof`). -/
def sizeof : CType → Nat
  | qint8 => 1
  | quint8 => 1
  | qint16 => 2
  | quint16 => 2
  | qint32 => 4
  | quint32 => 4
  | qint64 => 8
  | quint64 => 8
  | float => 4
  | qreal => 8

/-- Number of value bits of the stored word. -/
def bits (t : CType) : Nat := 8 * t.sizeof

/-- Whether the type is a floating-point type. -/
def isFloat : CType → Bool
  | float => true
  | qreal => true
  | _ => false

/-- Whether the type is a signed integer type. -/
def isSigned : CType → Bool
  | qint8 => true
  | qint16 => true
  | qint32 => true
  | qint64 => true
  | _ => false

/-- The value of `std::numeric_limits<T>::min()` for an integer type `T`
(the floating types are given `0`; their limits are never read as integers). -/
def min (t : CType) : Int :=
  if t.isSigned then -(2 ^ (t.bits - 1) : Int) else 0

/-- The value of `std::numeric_limits<T>::max()` for an integer type `T`
(the floating types are given `0`; their limits are never read as integers). -/
def max (t : CType) : Int :=
  if t.isFloat then 0
  else if t.isSigned then (2 ^ (t.bits - 1) : Int) - 1 else (2 ^ t.bits : Int) - 1

/-- Integer promotion: the type in which a binary operation on two operands
of type `t` is evaluated. -/
def promote : CType → CType
  | qint8 => qint32
  | quint8 => qint32
  | qint16 => qint32
  | quint16 => qint32
  | t => t

/-- The word of type `t` holding the integer `x` reduced modulo `2 ^ bits`. -/
def ofInt (t : CType) (x : Int) : Nat := (x % (2 ^ t.bits : Int)).toNat

/-- The integer denoted by the word `w` of type `t`. -/
def toInt (t : CType) (w : Nat) : Int :=
  if t.isSigned && decide (2 ^ (t.bits - 1) ≤ w % 2 ^ t.bits) then
    ((w % 2 ^ t.bits : Nat) : Int) - (2 ^ t.bits : Int)
  else ((w % 2 ^ t.bits : Nat) : Int)

/-- Conversion of an integer result to the type `t` (wrap-around). -/
def wrap (t : CType) (x : Int) : Int := t.toInt (t.ofInt x)

end CType

/-- Reverses the order of the `n` low bytes of a word (`qbswap`). -/
def bswap : Nat → Nat → Nat
  | 0, _ => 0
  | n + 1, x => (x % 256) * 256 ^ n + bswap n (x / 256)

/-- Model of `qToLittleEndian` on a word of type `t`. -/
def qToLittleEndian (host : Endian) (t : CType) (x : Nat) : Nat :=
  match host with
  | .little => x
  | .big => bswap t.sizeof x

/-- Model of `qToBigEndian` on a word of type `t`. -/
def qToBigEndian (host : Endian) (t : CType) (x : Nat) : Nat :=
  match host with
  | .little => bswap t.sizeof x
  | .big => x

/-- Model of `qFromLittleEndian` on a word of type `t`. -/
def qFromLittleEndian (host : Endian) (t : CType) (x : Nat) : Nat :=
  match host with
  | .little => x
  | .big => bswap t.sizeof x

/-- Model of `qFromBigEndian` on a word of type `t`. -/
def qFromBigEndian (host : Endian) (t : CType) (x : Nat) : Nat :=
  match host with
  | .little => bswap t.sizeof x
  | .big => x

/-! ## Byte buffers -/

/-- One byte of a `QByteArray`. -/
abbrev Byte := Fin 256

/-- The `n` bytes found at offset `off` (a read past the end yields `0`). -/
def readBytes (buf : List Byte) (off n : Nat) : List Byte :=
  (List.range n).map fun i => buf.getD (off + i) 0

/-- Overwrites the bytes at offset `off` with `chunk`; the buffer keeps its
length (what would fall past the end is dropped). -/
def writeBytes (buf : List Byte) (off : Nat) (chunk : List Byte) : List Byte :=
  (buf.take off ++ chunk ++ buf.drop (off + chunk.length)).take buf.length

/-- Model of `memcpy(dst + dOff, src + sOff, n)`. -/
def memcpy (dst : List Byte) (dOff : Nat) (src : List Byte) (sOff n : Nat) : List Byte :=
  writeBytes dst dOff (readBytes src sOff n)

/-- The word formed by a list of bytes laid out in the given byte order. -/
def wordOfBytes : Endian → List Byte → Nat
  | .little, bs => bs.foldr (fun b acc => b.val + 256 * acc) 0
  | .big, bs => bs.foldl (fun acc b => acc * 256 + b.val) 0

/-- The `n` bytes of the word `x` in the given byte order. -/
def bytesOfWord : Endian → Nat → Nat → List Byte
  | .little, n, x => (List.range n).map fun i => Fin.ofNat (x / 256 ^ i)
  | .big, n, x => ((List.range n).map fun i => Fin.ofNat (x / 256 ^ i)).reverse

/-- Reads the element `line[i]` of an array of `t` starting at byte `off`. -/
def loadWord (host : Endian) (t : CType) (buf : List Byte) (off i : Nat) : Nat :=
  wordOfBytes host (readBytes buf (off + i * t.sizeof) t.sizeof)

/-- Writes `x` to the element `line[i]` of an array of `t` starting at byte `off`. -/
def storeWord (host : Endian) (t : CType) (buf : List Byte) (off i : Nat) (x : Nat) :
    List Byte :=
  writeBytes buf (off + i * t.sizeof) (bytesOfWord host t.sizeof x)

/-! ## Format descriptor and packet -/

/-- Modelled from the spec: the sample-format enumeration of `AkAudioCaps`
(the class is not among the sources).  It lists the 8-bit integer formats and
the little- and big-endian variants of the wider integer and floating formats,
next to the empty format `none`. -/
inductive SampleFormat
  | none
  | s8
  | u8
  | s16le
  | s16be
  | u16le
  | u16be
  | s32le
  | s32be
  | u32le
  | u32be
  | s64le
  | s64be
  | u64le
  | u64be
  | fltle
  | fltbe
  | dblle
  | dblbe
  deriving DecidableEq

namespace SampleFormat

/-- Modelled from the spec: `SampleFormat_s16`, the host-order variant of the
signed 16-bit format. -/
def s16 : Endian → SampleFormat
  | .little => s16le
  | .big => s16be

/-- Modelled from the spec: `SampleFormat_u16`, the host-order variant. -/
def u16 : Endian → SampleFormat
  | .little => u16le
  | .big => u16be

/-- Modelled from the spec: `SampleFormat_s32`, the host-order variant. -/
def s32 : Endian → SampleFormat
  | .little => s32le
  | .big => s32be

/-- Modelled from the spec: `SampleFormat_u32`, the host-order variant. -/
def u32 : Endian → SampleFormat
  | .little => u32le
  | .big => u32be

/-- Modelled from the spec: `SampleFormat_s64`, the host-order variant of the
canonical integer format. -/
def s64 : Endian → SampleFormat
  | .little => s64le
  | .big => s64be

/-- Modelled from the spec: `SampleFormat_u64`, the host-order variant. -/
def u64 : Endian → SampleFormat
  | .little => u64le
  | .big => u64be

/-- Modelled from the spec: `SampleFormat_dbl`, the host-order variant of the
double-precision format. -/
def dbl : Endian → SampleFormat
  | .little => dblle
  | .big => dblbe

/-- Modelled from the spec: bits per sample of a format (`AkAudioCaps::bps`). -/
def bps : SampleFormat → Nat
  | none => 0
  | s8 => 8
  | u8 => 8
  | s16le => 16
  | s16be => 16
  | u16le => 16
  | u16be => 16
  | s32le => 32
  | s32be => 32
  | u32le => 32
  | u32be => 32
  | s64le => 64
  | s64be => 64
  | u64le => 64
  | u64be => 64
  | fltle => 32
  | fltbe => 32
  | dblle => 64
  | dblbe => 64

end SampleFormat

/-- Modelled from the spec: the channel-layout enumeration of `AkAudioCaps`
(not among the sources): the empty layout, or a named speaker configuration
with its number of channels. -/
inductive ChannelLayout
  | none
  | layout (name : Nat) (channels : Nat)
  deriving DecidableEq

namespace ChannelLayout

/-- The mono configuration. -/
def mono : ChannelLayout := layout 0 1

/-- The stereo configuration. -/
def stereo : ChannelLayout := layout 1 2

/-- Modelled from the spec: number of channels of a layout. -/
def channels : ChannelLayout → Nat
  | none => 0
  | layout _ n => n

end ChannelLayout

/-- Modelled from the spec: the rational time base `AkFrac` (not among the
sources). -/
structure AkFrac where
  num : Int
  den : Int
  deriving DecidableEq

/-- The default-constructed `AkFrac`. -/
def AkFrac.empty : AkFrac := ⟨0, 0⟩

/-- Modelled from the spec: the format descriptor `AkAudioCaps` (not among the
sources): sample format, channel layout, planar flag, sample rate, sample
count, and the alignment boundary of the plane sizes. -/
structure AkAudioCaps where
  format : SampleFormat
  layout : ChannelLayout
  planar : Bool
  rate : Int
  samples : Nat
  align : Nat
  deriving DecidableEq

namespace AkAudioCaps

/-- The default-constructed (empty) descriptor. -/
def empty : AkAudioCaps := ⟨.none, .none, false, 0, 0, 1⟩

/-- Modelled from the spec: a descriptor is valid iff neither its format nor
its layout is empty (`operator bool`). -/
def isValid (c : AkAudioCaps) : Bool :=
  decide (c.format ≠ .none) && decide (c.layout ≠ .none)

/-- Model of `setFormat`. -/
def setFormat (c : AkAudioCaps) (format : SampleFormat) : AkAudioCaps :=
  { c with format := format }

/-- Model of `setLayout`. -/
def setLayout (c : AkAudioCaps) (layout : ChannelLayout) : AkAudioCaps :=
  { c with layout := layout }

/-- Model of `setSamples`. -/
def setSamples (c : AkAudioCaps) (samples : Nat) : AkAudioCaps :=
  { c with samples := samples }

/-- Model of `setRate`. -/
def setRate (c : AkAudioCaps) (rate : Int) : AkAudioCaps :=
  { c with rate := rate }

/-- Model of `updatePlaneSize(planar)`: sets the planar flag (the plane geometry is
derived from the fields). -/
def updatePlaneSize (c : AkAudioCaps) (planar : Bool) : AkAudioCaps :=
  { c with planar := planar }

/-- Model of `realign(align)`: sets the alignment boundary. -/
def realign (c : AkAudioCaps) (align : Nat) : AkAudioCaps :=
  { c with align := align }

/-- Bits per sample. -/
def bps (c : AkAudioCaps) : Nat := c.format.bps

/-- Number of channels. -/
def channels (c : AkAudioCaps) : Nat := c.layout.channels

/-- Modelled from the spec: number of planes, `1` if interleaved and the
channel count if planar. -/
def planes (c : AkAudioCaps) : Nat := if c.planar then c.channels else 1

/-- Modelled from the spec: bytes of sample data in one plane. -/
def bytesPerPlane (c : AkAudioCaps) : Nat :=
  if c.planar then c.bps * c.samples / 8 else c.bps * c.samples / 8 * c.channels

/-- Rounds `n` up to the next multiple of `align` (no padding for `0`). -/
def alignUp (n align : Nat) : Nat :=
  if align = 0 then n else (n + align - 1) / align * align

/-- Modelled from the spec: the size of each plane, its sample bytes padded to
the alignment boundary. -/
def planeSize (c : AkAudioCaps) : List Nat :=
  List.replicate c.planes (alignUp c.bytesPerPlane c.align)

/-- Modelled from the spec: byte offset of a plane, the total size of the
planes before it. -/
def planeOffset (c : AkAudioCaps) (plane : Nat) : Nat :=
  (c.planeSize.take plane).sum

/-- Modelled from the spec: total size in bytes of the buffer of a descriptor. -/
def frameSize (c : AkAudioCaps) : Nat := c.planeSize.sum

end AkAudioCaps

/-- The audio buffer: the fields of `AkAudioPacketPrivate`. -/
structure AkAudioPacket where
  caps : AkAudioCaps
  buffer : List Byte
  pts : Int
  timeBase : AkFrac
  id : Int
  index : Int
  deriving DecidableEq

/-- The endianness argument of the macro-generated table rows: `_`, `LE` or `BE`. -/
inductive EndianTag
  | native
  | LE
  | BE
  deriving DecidableEq

/-- Symbolic bound of a scaling range. -/
inductive Bound
  | negOne
  | one
  | numericMin (t : CType)
  | numericMax (t : CType)
  deriving DecidableEq

/-- What the embedding takes from the environment: the host byte order, the
contents of uninitialised storage, the Qt version test, the speaker positions
of the channel layouts, and the results of the floating-point computations (on
the words of their operands). -/
structure Host where
  /-- Byte order of the host (`Q_BYTE_ORDER`). -/
  endian : Endian
  /-- Byte found at each offset of storage created with `Qt::Uninitialized`. -/
  uninitialized : Nat → Byte
  /-- Whether `QT_VERSION >= QT_VERSION_CHECK(5, 12, 0)`. -/
  qtAtLeast512 : Bool
  /-- Result word of the affine map of `scaleValue<I, O, Op>(value)` when it is
  evaluated in floating point, given the input word (already bounded to `[-1, 1]`
  when the input type is floating) and the four bounds. -/
  floatScale : CType → CType → CType → Nat → Bound × Bound → Bound × Bound → Nat
  /-- Result word of `scaleValue<I, O, Op>(value, minValue, maxValue)` when it
  is evaluated in floating point, given the three input words and the
  destination bounds. -/
  floatScale3 : CType → CType → CType → Nat → Nat → Nat → Bound × Bound → Nat
  /-- Modelled from the spec: `AkAudioCaps::position(channel)`, the relative
  spatial coordinate of a channel of a layout (the class is not among the
  sources). -/
  position : ChannelLayout → Nat → Rat
  /-- Result word of `SumType(qreal(x) / k)` in `mixChannels<SampleType, SumType>`,
  given the word of `x` and the divisor `k`. -/
  attenuate : CType → CType → Nat → Rat → Nat
  /-- Sum of two floating-point words of a type. -/
  floatAdd : CType → Nat → Nat → Nat
  /-- Comparison `a < b` of two floating-point words of a type. -/
  floatLess : CType → Nat → Nat → Bool
  /-- Byte found at each offset of an uninitialised local `quint64 data`. -/
  indeterminate : Nat → Byte
  /-- Result word of the two-point `interpolate<endian><SampleType, SumType>` when
  it is evaluated in floating point, given the two decoded sample words, the
  position and the two indices. -/
  floatInterpolate : EndianTag → CType → CType → Nat → Nat → Rat → Int → Int → Nat
  /-- Result word of the three-point `interpolate<endian><SampleType, SumType>`
  when it is evaluated in floating point, given the three decoded sample words,
  the position and the three indices. -/
  floatInterpolate3 :
    EndianTag → CType → CType → Nat → Nat → Nat → Rat → Int → Int → Int → Nat
  /-- Result word of `SampleType(qbswap(value))` for a `qreal` value: the
  conversion to an integer type of the `qreal` whose bytes are those of `value`
  in reverse order. -/
  swappedRealToInt : CType → Rat → Nat

namespace AkAudioPacket

/-- The default-constructed packet, returned as `{}` by a failed operation. -/
def invalid : AkAudioPacket := ⟨AkAudioCaps.empty, [], 0, AkFrac.empty, -1, -1⟩

/-- Model of `operator bool`: a packet is valid iff its descriptor is. -/
def isValid (p : AkAudioPacket) : Bool := p.caps.isValid

/-- Model of `AkAudioPacket(const AkAudioCaps &caps)`: a packet with uninitialised
storage of the frame size and default metadata. -/
def alloc (h : Host) (caps : AkAudioCaps) : AkAudioPacket :=
  ⟨caps, (List.range caps.frameSize).map h.uninitialized, 0, AkFrac.empty, -1, -1⟩

/-- Model of `copyMetadata`. -/
def copyMetadata (p other : AkAudioPacket) : AkAudioPacket :=
  { p with pts := other.pts, timeBase := other.timeBase, index := other.index, id := other.id }

/-- Model of `constPlaneData(plane)` / `planeData(plane)`, as an offset into the buffer. -/
def planeData (p : AkAudioPacket) (plane : Nat) : Nat := p.caps.planeOffset plane

/-- Model of `constSample(channel, i)` / `sample(channel, i)` for the index of a sample of
the buffer, as an offset into the buffer.  The offset is the one the source computes as long
as the `int` products `i * bps` and `(i * channels + channel) * bps` do not overflow, which
holds for every sample of a buffer whose size in bits is below `2^31`. -/
def sample (p : AkAudioPacket) (channel i : Nat) : Nat :=
  if p.caps.planar then p.planeData channel + i * p.caps.bps / 8
  else p.planeData 0 + (i * p.caps.channels + channel) * p.caps.bps / 8

/-- Model of `setSample(channel, i, sample)`: copies `bps / 8` bytes found at offset
`sOff` of `src` to the sample location. -/
def setSample (p : AkAudioPacket) (channel i : Nat) (src : List Byte) (sOff : Nat) :
    AkAudioPacket :=
  { p with buffer := memcpy p.buffer (p.sample channel i) src sOff (p.caps.bps / 8) }

end AkAudioPacket

/-! ## Sample scaling (`AkAudioPacketPrivate::scaleValue`) -/

/-- The integer a bound stands for when the arithmetic is done on integers. -/
def Bound.toInt : Bound → Int
  | .negOne => -1
  | .one => 1
  | .numericMin t => t.min
  | .numericMax t => t.max

/-- The word of type `t` a bound stands for: the integer limits for the
integer types, the IEEE 754 encodings of `-1`, `1` and of the smallest positive
normal and largest finite values for `float` and `qreal`. -/
def Bound.toWord (t : CType) : Bound → Nat
  | .negOne =>
    match t with
    | .float => 0xBF800000
    | .qreal => 0xBFF0000000000000
    | _ => t.ofInt (-1)
  | .one =>
    match t with
    | .float => 0x3F800000
    | .qreal => 0x3FF0000000000000
    | _ => t.ofInt 1
  | .numericMin u =>
    match u with
    | .float => 0x00800000
    | .qreal => 0x0010000000000000
    | _ => t.ofInt u.min
  | .numericMax u =>
    match u with
    | .float => 0x7F7FFFFF
    | .qreal => 0x7FEFFFFFFFFFFFFF
    | _ => t.ofInt u.max

/-- The comparison `a < b` of two words of type `t`. -/
def lessThan (h : Host) (t : CType) (a b : Nat) : Bool :=
  if t.isFloat then h.floatLess t a b else decide (t.toInt a < t.toInt b)

/-- Model of `qMin(a, b)` on words of type `t`: `(a < b) ? a : b`. -/
def qMin (h : Host) (t : CType) (a b : Nat) : Nat := if lessThan h t a b then a else b

/-- Model of `qMax(a, b)` on words of type `t`: `(a < b) ? b : a`. -/
def qMax (h : Host) (t : CType) (a b : Nat) : Nat := if lessThan h t a b then b else a

/-- Model of `qBound(min, val, max)` on words of type `t`: `qMax(min, qMin(max, val))`. -/
def qBound (h : Host) (t : CType) (min val max : Nat) : Nat := qMax h t min (qMin h t max val)

/-- The source range `(xmin, xmax)` chosen by `scaleValue`. -/
def scaleValueInputRange (InputType : CType) : Bound × Bound :=
  if InputType = .float then (.negOne, .one)
  else if InputType = .qreal then (.negOne, .one)
  else (.numericMin InputType, .numericMax InputType)

/-- The destination range `(ymin, ymax)` chosen by `scaleValue`; the second
test reads `typeid(InputType) == typeid(qreal)`, as in the source. -/
def scaleValueOutputRange (InputType OutputType : CType) : Bound × Bound :=
  if OutputType = .float then (.negOne, .one)
  else if InputType = .qreal then (.negOne, .one)
  else (.numericMin OutputType, .numericMax OutputType)

/-- The return expression of `scaleValue` on integer operands:
`OutputType((OpType(value - xmin) * OpType(ymax - ymin)
+ OpType(ymin) * OpType(xmax - xmin)) / OpType(xmax - xmin))`, every
subexpression reduced to the range of its C++ type. -/
def scaleValueInt (InputType OutputType OpType : CType) (value xmin xmax ymin ymax : Int) :
    Nat :=
  let a := OpType.wrap (InputType.promote.wrap (value - xmin))
  let b := OpType.wrap (OutputType.promote.wrap (ymax - ymin))
  let c := OpType.wrap ymin
  let d := OpType.wrap (InputType.promote.wrap (xmax - xmin))
  let num := OpType.promote.wrap (OpType.promote.wrap (a * b) + OpType.promote.wrap (c * d))
  OutputType.ofInt (OpType.promote.wrap (Int.tdiv num d))

/-- Model of `scaleValue<InputType, OutputType, OpType>(value)`, on the word `value`; a
`float` or `qreal` input is first bounded to `[-1, 1]` with `qBound`. -/
def scaleValue (h : Host) (InputType OutputType OpType : CType) (value : Nat) : Nat :=
  let x := scaleValueInputRange InputType
  let y := scaleValueOutputRange InputType OutputType
  let value :=
    if InputType = .float then
      qBound h InputType (Bound.toWord InputType .negOne) value (Bound.toWord InputType .one)
    else if InputType = .qreal then
      qBound h InputType (Bound.toWord InputType .negOne) value (Bound.toWord InputType .one)
    else value
  if InputType.isFloat || OutputType.isFloat || OpType.isFloat then
    h.floatScale InputType OutputType OpType value x y % 2 ^ OutputType.bits
  else
    scaleValueInt InputType OutputType OpType (InputType.toInt value)
      x.1.toInt x.2.toInt y.1.toInt y.2.toInt

/-- Model of `scaleValueFrom_To_`. -/
def scaleValueFrom_To_ (h : Host) (InputType OutputType OpType : CType) (value : Nat) : Nat :=
  scaleValue h InputType OutputType OpType value

/-- Model of `scaleValueFrom_ToLE`. -/
def scaleValueFrom_ToLE (h : Host) (InputType OutputType OpType : CType) (value : Nat) : Nat :=
  qToLittleEndian h.endian OutputType (scaleValue h InputType OutputType OpType value)

/-- Model of `scaleValueFrom_ToBE` (it calls `qToLittleEndian`, as in the source). -/
def scaleValueFrom_ToBE (h : Host) (InputType OutputType OpType : CType) (value : Nat) : Nat :=
  qToLittleEndian h.endian OutputType (scaleValue h InputType OutputType OpType value)

/-- Model of `scaleValueFromLETo_`. -/
def scaleValueFromLETo_ (h : Host) (InputType OutputType OpType : CType) (value : Nat) : Nat :=
  scaleValue h InputType OutputType OpType (qFromLittleEndian h.endian InputType value)

/-- Model of `scaleValueFromLEToLE`. -/
def scaleValueFromLEToLE (h : Host) (InputType OutputType OpType : CType) (value : Nat) : Nat :=
  qToLittleEndian h.endian OutputType
    (scaleValue h InputType OutputType OpType (qFromLittleEndian h.endian InputType value))

/-- Model of `scaleValueFromLEToBE`. -/
def scaleValueFromLEToBE (h : Host) (InputType OutputType OpType : CType) (value : Nat) : Nat :=
  qToBigEndian h.endian OutputType
    (scaleValue h InputType OutputType OpType (qFromLittleEndian h.endian InputType value))

/-- Model of `scaleValueFromBETo_`. -/
def scaleValueFromBETo_ (h : Host) (InputType OutputType OpType : CType) (value : Nat) : Nat :=
  scaleValue h InputType OutputType OpType (qFromBigEndian h.endian InputType value)

/-- Model of `scaleValueFromBEToLE`. -/
def scaleValueFromBEToLE (h : Host) (InputType OutputType OpType : CType) (value : Nat) : Nat :=
  qToLittleEndian h.endian OutputType
    (scaleValue h InputType OutputType OpType (qFromBigEndian h.endian InputType value))

/-- Model of `scaleValueFromBEToBE`. -/
def scaleValueFromBEToBE (h : Host) (InputType OutputType OpType : CType) (value : Nat) : Nat :=
  qToBigEndian h.endian OutputType
    (scaleValue h InputType OutputType OpType (qFromBigEndian h.endian InputType value))

/-- The token pasting `scaleValueFrom##inEndian##To##outEndian`. -/
def scaleValueFrom (h : Host) (inEndian outEndian : EndianTag)
    (InputType OutputType OpType : CType) : Nat → Nat :=
  match inEndian, outEndian with
  | .native, .native => scaleValueFrom_To_ h InputType OutputType OpType
  | .native, .LE => scaleValueFrom_ToLE h InputType OutputType OpType
  | .native, .BE => scaleValueFrom_ToBE h InputType OutputType OpType
  | .LE, .native => scaleValueFromLETo_ h InputType OutputType OpType
  | .LE, .LE => scaleValueFromLEToLE h InputType OutputType OpType
  | .LE, .BE => scaleValueFromLEToBE h InputType OutputType OpType
  | .BE, .native => scaleValueFromBETo_ h InputType OutputType OpType
  | .BE, .LE => scaleValueFromBEToLE h InputType OutputType OpType
  | .BE, .BE => scaleValueFromBEToBE h InputType OutputType OpType

/-! ## Sample format conversion -/

/-- The two nested loops of `convertSampleFormat`, on the destination bytes:
for every plane, the first `samples` elements of the plane are converted. -/
def convertSampleFormatLoop (h : Host) (InputType OutputType : CType) (src : AkAudioPacket)
    (caps : AkAudioCaps) (scaleFunc : Nat → Nat) (dst : List Byte) : List Byte :=
  (List.range caps.planes).foldl (fun dst plane =>
    (List.range caps.samples).foldl (fun dst i =>
      storeWord h.endian OutputType dst (caps.planeOffset plane) i
        (scaleFunc (loadWord h.endian InputType src.buffer (src.planeData plane) i)))
      dst) dst

/-- Model of `convertSampleFormat<InputType, OutputType>(src, format, scaleFunc)`. -/
def convertSampleFormat (h : Host) (InputType OutputType : CType) (src : AkAudioPacket)
    (format : SampleFormat) (scaleFunc : Nat → Nat) : AkAudioPacket :=
  let caps := src.caps.setFormat format
  let dst := (AkAudioPacket.alloc h caps).copyMetadata src
  { dst with
    buffer := (convertSampleFormatLoop h InputType OutputType src caps scaleFunc dst.buffer) }

/-- An entry of the conversion table (`AudioSampleFormatConvert`). -/
structure AudioSampleFormatConvert where
  from_ : SampleFormat
  to_ : SampleFormat
  convert : AkAudioPacket → AkAudioPacket

/-- The two entries a row `DEFINE_SAMPLE_CONVERT_FUNCTION(...)` expands to. -/
def DEFINE_SAMPLE_CONVERT_FUNCTION (h : Host) (sitype sotype : SampleFormat)
    (itype otype optype : CType) (inEndian outEndian : EndianTag) :
    List AudioSampleFormatConvert :=
  [ { from_ := sitype
      to_ := sotype
      convert := fun src =>
        convertSampleFormat h itype otype src sotype
          (scaleValueFrom h inEndian outEndian itype otype optype) },
    { from_ := sotype
      to_ := sitype
      convert := fun src =>
        convertSampleFormat h otype itype src sitype
          (scaleValueFrom h outEndian inEndian otype itype optype) } ]

/-- The conversion table `sampleFormatConvert()`, in the order of the source. -/
def sampleFormatConvert (h : Host) : List AudioSampleFormatConvert :=
  let s64 := SampleFormat.s64 h.endian
  DEFINE_SAMPLE_CONVERT_FUNCTION h .s8 s64 .qint8 .qint64 .qint64 .native .native
  ++ DEFINE_SAMPLE_CONVERT_FUNCTION h .u8 s64 .quint8 .qint64 .qint64 .native .native
  ++ DEFINE_SAMPLE_CONVERT_FUNCTION h .s16le s64 .qint16 .qint64 .qint64 .LE .native
  ++ DEFINE_SAMPLE_CONVERT_FUNCTION h .s16be s64 .qint16 .qint64 .qint64 .BE .native
  ++ DEFINE_SAMPLE_CONVERT_FUNCTION h .u16le s64 .quint16 .qint64 .qint64 .LE .native
  ++ DEFINE_SAMPLE_CONVERT_FUNCTION h .u16be s64 .quint16 .qint64 .qint64 .BE .native
  ++ DEFINE_SAMPLE_CONVERT_FUNCTION h .s32le s64 .qint32 .qint64 .qint64 .LE .native
  ++ DEFINE_SAMPLE_CONVERT_FUNCTION h .s32be s64 .qint32 .qint64 .qint64 .BE .native
  ++ DEFINE_SAMPLE_CONVERT_FUNCTION h .u32le s64 .quint32 .qint64 .qint64 .LE .native
  ++ DEFINE_SAMPLE_CONVERT_FUNCTION h .u32be s64 .quint32 .qint64 .qint64 .BE .native
  ++ DEFINE_SAMPLE_CONVERT_FUNCTION h .s64le s64 .qint64 .qint64 .qreal .LE .native
  ++ DEFINE_SAMPLE_CONVERT_FUNCTION h .s64be s64 .qint64 .qint64 .qreal .BE .native
  ++ DEFINE_SAMPLE_CONVERT_FUNCTION h .u64le s64 .quint64 .qint64 .qreal .LE .native
  ++ DEFINE_SAMPLE_CONVERT_FUNCTION h .u64be s64 .quint64 .qint64 .qreal .BE .native
  ++ DEFINE_SAMPLE_CONVERT_FUNCTION h .fltle s64 .float .qint64 .qreal .LE .native
  ++ DEFINE_SAMPLE_CONVERT_FUNCTION h .fltbe s64 .float .qint64 .qreal .BE .native
  ++ DEFINE_SAMPLE_CONVERT_FUNCTION h .dblle s64 .qreal .qint64 .qreal .LE .native
  ++ DEFINE_SAMPLE_CONVERT_FUNCTION h .dblbe s64 .qreal .qint64 .qreal .BE .native

/-- The loop of `canConvertFormat` over the table entries, with the two flags
`fromFormat` and `toFormat`. -/
def canConvertFormatLoop (input output : SampleFormat) :
    List AudioSampleFormatConvert → Bool → Bool → Bool
  | [], _, _ => false
  | convert :: rest, fromFormat, toFormat =>
    let fromFormat := if convert.from_ = input then true else fromFormat
    let toFormat := if convert.to_ = output then true else toFormat
    if fromFormat && toFormat then true
    else canConvertFormatLoop input output rest fromFormat toFormat

/-- Model of `AkAudioPacket::canConvertFormat(input, output)`. -/
def canConvertFormat (h : Host) (input output : SampleFormat) : Bool :=
  if input = output then true
  else canConvertFormatLoop input output (sampleFormatConvert h) false false

/-- The loop of `convertFormat` over the table entries; `convertFrom` and
`convertTo` are the (possibly empty) functions remembered so far. -/
def convertFormatLoop (this : AkAudioPacket) (format : SampleFormat) :
    List AudioSampleFormatConvert →
    Option (AkAudioPacket → AkAudioPacket) → Option (AkAudioPacket → AkAudioPacket) →
    AkAudioPacket
  | [], some convertFrom, some convertTo => convertTo (convertFrom this)
  | [], _, _ => AkAudioPacket.invalid
  | convert :: rest, convertFrom, convertTo =>
    let convertFrom := if convert.from_ = this.caps.format then some convert.convert
      else convertFrom
    let convertTo := if convert.to_ = format then some convert.convert else convertTo
    if convert.from_ = this.caps.format ∧ convert.to_ = format then convert.convert this
    else convertFormatLoop this format rest convertFrom convertTo

namespace AkAudioPacket

/-- Model of `AkAudioPacket::convertFormat(format)`. -/
def convertFormat (h : Host) (this : AkAudioPacket) (format : SampleFormat) : AkAudioPacket :=
  if this.caps.format = format then this
  else convertFormatLoop this format (sampleFormatConvert h) none none

end AkAudioPacket

/-! ## Channel layout conversion -/

/-- The compound assignment `acc += v` on words of type `t`. -/
def addAssign (h : Host) (t : CType) (acc v : Nat) : Nat :=
  if t.isFloat then h.floatAdd t acc v % 2 ^ t.bits
  else t.ofInt (t.promote.wrap (t.toInt acc + t.toInt v))

/-- Model of `scaleValue<InputType, OutputType, OpType>(value, minValue, maxValue)`, on
words; the destination range is always `numeric_limits<OutputType>`. -/
def scaleValue3 (h : Host) (InputType OutputType OpType : CType)
    (value minValue maxValue : Nat) : Nat :=
  if InputType.isFloat || OutputType.isFloat || OpType.isFloat then
    h.floatScale3 InputType OutputType OpType value minValue maxValue
      (.numericMin OutputType, .numericMax OutputType) % 2 ^ OutputType.bits
  else
    scaleValueInt InputType OutputType OpType (InputType.toInt value)
      (InputType.toInt minValue) (InputType.toInt maxValue) OutputType.min OutputType.max

/-- Model of `waveBounds<SampleType>(packet, smin, smax)`: the pair `(smin, smax)`. -/
def waveBounds (h : Host) (SampleType : CType) (packet : AkAudioPacket) : Nat × Nat :=
  let init : Nat × Nat :=
    (Bound.toWord SampleType (.numericMax SampleType),
     Bound.toWord SampleType (.numericMin SampleType))
  let s := (List.range packet.caps.channels).foldl (fun s channel =>
    (List.range packet.caps.samples).foldl (fun s sample =>
      let data := loadWord h.endian SampleType packet.buffer (packet.sample channel sample) 0
      let smin := if lessThan h SampleType data s.1 then data else s.1
      let smax := if lessThan h SampleType s.2 data then data else s.2
      (smin, smax)) s) init
  let limits : Bound × Bound :=
    if SampleType = .float then (.negOne, .one)
    else if SampleType = .qreal then (.negOne, .one)
    else (.numericMin SampleType, .numericMax SampleType)
  let minValue := Bound.toWord SampleType limits.1
  let maxValue := Bound.toWord SampleType limits.2
  let smin := if lessThan h SampleType minValue s.1 then minValue else s.1
  let smax := if lessThan h SampleType s.2 maxValue then maxValue else s.2
  (smin, smax)

/-- The decoding applied to an input sample by `mixChannels<endian>`. -/
def mixChannelsFromEndian (h : Host) (endian : EndianTag) (t : CType) (x : Nat) : Nat :=
  match endian with
  | .native => x
  | .LE => qFromLittleEndian h.endian t x
  | .BE => qFromBigEndian h.endian t x

/-- The encoding applied to an output sample by `mixChannels<endian>`. -/
def mixChannelsToEndian (h : Host) (endian : EndianTag) (t : CType) (x : Nat) : Nat :=
  match endian with
  | .native => x
  | .LE => qToLittleEndian h.endian t x
  | .BE => qToBigEndian h.endian t x

/-- Modelled from the spec: the value of `oposition - iposition` for the positions of two
channels.  The position type of `AkAudioCaps` and its subtraction are not among the sources;
the spec gives the difference as the spatial distance between the two speakers,
`|position(o) - position(i)|`. -/
def positionDistance (oposition iposition : Rat) : Rat :=
  |oposition - iposition|

/-- The divisor `k` of the summing loop of `mixChannels`:
`d = 1.0 + (oposition - iposition)`, `k = d * d`. -/
def mixChannelsDivisor (oposition iposition : Rat) : Rat :=
  let d := 1 + positionDistance oposition iposition
  d * d

/-- The summing loop of `mixChannels`, on the bytes of the zero-filled
`sumPacket`. -/
def mixChannelsSum (h : Host) (endian : EndianTag) (SampleType SumType : CType)
    (src sumPacket : AkAudioPacket) : List Byte :=
  (List.range sumPacket.caps.samples).foldl (fun buf sample =>
    (List.range sumPacket.caps.channels).foldl (fun buf ochannel =>
      let oposition := h.position sumPacket.caps.layout ochannel
      (List.range src.caps.channels).foldl (fun buf ichannel =>
        let iposition := h.position src.caps.layout ichannel
        let k := mixChannelsDivisor oposition iposition
        let inSample := loadWord h.endian SampleType src.buffer (src.sample ichannel sample) 0
        let term := h.attenuate SampleType SumType
          (mixChannelsFromEndian h endian SampleType inSample) k % 2 ^ SumType.bits
        let outSample := sumPacket.sample ochannel sample
        storeWord h.endian SumType buf outSample 0
          (addAssign h SumType (loadWord h.endian SumType buf outSample 0) term))
        buf) buf) sumPacket.buffer

/-- Model of `mixChannels_`, `mixChannelsLE` and `mixChannelsBE`
`<SampleType, SumType>(sumFormat, outputLayout, src)`. -/
def mixChannels (h : Host) (endian : EndianTag) (SampleType SumType : CType)
    (sumFormat : SampleFormat) (outputLayout : ChannelLayout) (src : AkAudioPacket) :
    AkAudioPacket :=
  let caps := (src.caps.setFormat sumFormat).setLayout outputLayout
  let sumPacket : AkAudioPacket :=
    { AkAudioPacket.alloc h caps with buffer := (List.replicate caps.frameSize 0) }
  let sumPacket : AkAudioPacket :=
    { sumPacket with
      buffer := (mixChannelsSum h endian SampleType SumType src sumPacket) }
  let bounds := waveBounds h SumType sumPacket
  let caps := src.caps.setLayout outputLayout
  let dst := (AkAudioPacket.alloc h caps).copyMetadata src
  { dst with
    buffer := ((List.range dst.caps.channels).foldl (fun buf channel =>
      (List.range dst.caps.samples).foldl (fun buf sample =>
        let idata := loadWord h.endian SumType sumPacket.buffer
          (sumPacket.sample channel sample) 0
        storeWord h.endian SampleType buf (dst.sample channel sample) 0
          (mixChannelsToEndian h endian SampleType
            (scaleValue3 h SumType SampleType SumType idata bounds.1 bounds.2)))
        buf) dst.buffer) }

/-- Model of `convertChannels(outputLayout, src)`: the `switch` over the source format. -/
def convertChannels (h : Host) (outputLayout : ChannelLayout) (src : AkAudioPacket) :
    AkAudioPacket :=
  let e := h.endian
  let fLE := if h.qtAtLeast512 then EndianTag.LE else EndianTag.native
  let fBE := if h.qtAtLeast512 then EndianTag.BE else EndianTag.native
  match src.caps.format with
  | .s8 => mixChannels h .native .qint8 .qint16 (.s16 e) outputLayout src
  | .u8 => mixChannels h .native .quint8 .quint16 (.u16 e) outputLayout src
  | .s16le => mixChannels h .LE .qint16 .qint32 (.s32 e) outputLayout src
  | .s16be => mixChannels h .BE .qint16 .qint32 (.s32 e) outputLayout src
  | .u16le => mixChannels h .LE .quint16 .quint32 (.u32 e) outputLayout src
  | .u16be => mixChannels h .BE .quint16 .quint32 (.u32 e) outputLayout src
  | .s32le => mixChannels h .LE .qint32 .qint64 (.s64 e) outputLayout src
  | .s32be => mixChannels h .BE .qint32 .qint64 (.s64 e) outputLayout src
  | .u32le => mixChannels h .LE .quint32 .quint64 (.u64 e) outputLayout src
  | .u32be => mixChannels h .BE .quint32 .quint64 (.u64 e) outputLayout src
  | .s64le => mixChannels h .LE .qint64 .qreal (.dbl e) outputLayout src
  | .s64be => mixChannels h .BE .qint64 .qreal (.dbl e) outputLayout src
  | .u64le => mixChannels h .LE .quint64 .qreal (.dbl e) outputLayout src
  | .u64be => mixChannels h .BE .quint64 .qreal (.dbl e) outputLayout src
  | .fltle => mixChannels h fLE .float .qreal (.dbl e) outputLayout src
  | .fltbe => mixChannels h fBE .float .qreal (.dbl e) outputLayout src
  | .dblle => mixChannels h fLE .qreal .qreal (.dbl e) outputLayout src
  | .dblbe => mixChannels h fBE .qreal .qreal (.dbl e) outputLayout src
  | .none => AkAudioPacket.invalid

namespace AkAudioPacket

/-- Model of `AkAudioPacket::convertLayout(layout)`. -/
def convertLayout (h : Host) (this : AkAudioPacket) (layout : ChannelLayout) : AkAudioPacket :=
  if this.caps.layout = layout then this
  else convertChannels h layout this

/-- Model of `AkAudioPacket::convertPlanar(planar)`. -/
def convertPlanar (h : Host) (this : AkAudioPacket) (planar : Bool) : AkAudioPacket :=
  if this.caps.planar = planar then this
  else
    let caps := this.caps.updatePlaneSize planar
    let dst := (alloc h caps).copyMetadata this
    let byps := caps.bps / 8
    let channels := caps.channels
    if planar then
      { dst with
        buffer := ((List.range caps.planes).foldl (fun buf plane =>
          (List.range caps.samples).foldl (fun buf i =>
            memcpy buf (dst.planeData plane + byps * i)
              this.buffer (this.planeData 0 + byps * (i * channels + plane)) byps)
            buf) dst.buffer) }
    else
      { dst with
        buffer := ((List.range caps.planes).foldl (fun buf plane =>
          (List.range caps.samples).foldl (fun buf i =>
            memcpy buf (dst.planeData 0 + byps * (i * channels + plane))
              this.buffer (this.planeData plane + byps * i) byps)
            buf) dst.buffer) }

/-- Model of `AkAudioPacket::realign(align)`. -/
def realign (h : Host) (this : AkAudioPacket) (align : Nat) : AkAudioPacket :=
  let caps := this.caps.realign align
  if caps = this.caps then this
  else
    let dst := (alloc h caps).copyMetadata this
    { dst with
      buffer := ((List.range caps.planes).foldl (fun buf plane =>
        let planeSize := min (caps.planeSize.getD plane 0) (this.caps.planeSize.getD plane 0)
        memcpy buf (dst.planeData plane) this.buffer (this.planeData plane) planeSize)
        dst.buffer) }

/-- Model of `AkAudioPacket::convert(caps)`. -/
def convert (h : Host) (this : AkAudioPacket) (caps : AkAudioCaps) : AkAudioPacket :=
  let packet := this.convertFormat h caps.format
  if !packet.isValid then invalid
  else
    let packet := packet.convertLayout h caps.layout
    if !packet.isValid then invalid
    else packet.convertPlanar h caps.planar

/-- The plane loop shared by `operator +` and `operator +=`, on the bytes of
the new packet. -/
def concatLoop (this other packet : AkAudioPacket) (caps : AkAudioCaps) : List Byte :=
  (List.range caps.planes).foldl (fun buf plane =>
    let start := this.caps.bytesPerPlane
    let buf := memcpy buf (packet.planeData plane) this.buffer (this.planeData plane) start
    memcpy buf (packet.planeData plane + start)
      other.buffer (other.planeData plane) other.caps.bytesPerPlane) packet.buffer

/-- Model of `AkAudioPacket::operator +(other)`: the packet returned (`this` is not
assigned to). -/
def operator_plus (h : Host) (this other : AkAudioPacket) : AkAudioPacket :=
  let tmpPacket := other.convert h this.caps
  if !tmpPacket.isValid then this
  else
    let caps := this.caps.setSamples (this.caps.samples + tmpPacket.caps.samples)
    let packet := (alloc h caps).copyMetadata other
    { packet with buffer := (concatLoop this other packet caps) }

/-- Model of `AkAudioPacket::operator +=(other)`: the value of `this` after the call. -/
def operator_plus_assign (h : Host) (this other : AkAudioPacket) : AkAudioPacket :=
  let tmpPacket := other.convert h this.caps
  if !tmpPacket.isValid then this
  else
    let caps := this.caps.setSamples (this.caps.samples + tmpPacket.caps.samples)
    let packet := (alloc h caps).copyMetadata other
    let packet := { packet with buffer := (concatLoop this other packet caps) }
    packet

/-- The plane loop of `pop`, on the bytes of `dst` and of `tmpPacket`. -/
def popLoop (this dst tmpPacket : AkAudioPacket) : List Byte × List Byte :=
  (List.range dst.caps.planes).foldl (fun bufs plane =>
    let dataSize := dst.caps.planeSize.getD plane 0
    let dstBuf := memcpy bufs.1 (dst.planeData plane) this.buffer (this.planeData plane) dataSize
    let dataSize2 := tmpPacket.caps.planeSize.getD plane 0
    let tmpBuf :=
      if dataSize2 > 0 then
        memcpy bufs.2 (tmpPacket.planeData plane)
          this.buffer (this.planeData plane + dataSize) dataSize2
      else bufs.2
    (dstBuf, tmpBuf)) (dst.buffer, tmpPacket.buffer)

/-- Model of `AkAudioPacket::pop(samples)`: the packet returned, paired with the value
of `this` after the call. -/
def pop (h : Host) (this : AkAudioPacket) (samples : Int) : AkAudioPacket × AkAudioPacket :=
  let caps := this.caps
  let samples := min (caps.samples : Int) samples
  if samples < 1 then (invalid, this)
  else
    let caps := caps.setSamples samples.toNat
    let dst := (alloc h caps).copyMetadata this
    let caps := caps.setSamples (this.caps.samples - samples.toNat)
    let tmpPacket := (alloc h caps).copyMetadata this
    let bufs := popLoop this dst tmpPacket
    ({ dst with buffer := bufs.1 }, { tmpPacket with buffer := bufs.2 })

end AkAudioPacket

/-! ## Resampling (`scale`, `convertSampleRate`) -/

/-- The resampling methods (`AkAudioPacket::ResampleMethod`). -/
inductive ResampleMethod
  | Fast
  | Linear
  | Quadratic
  deriving DecidableEq

/-- Conversion of a `qreal` to an integer type: truncation toward zero. -/
def qrealToInt (d : Rat) : Int := if 0 ≤ d then Int.floor d else Int.ceil d

/-- Model of `qRound(qreal)` of Qt 5:
`d >= 0.0 ? int(d + 0.5) : int(d - double(int(d-1)) + 0.5) + int(d-1)`. -/
def qRound (d : Rat) : Int :=
  if 0 ≤ d then qrealToInt (d + 1 / 2)
  else qrealToInt (d - ((qrealToInt (d - 1) : Int) : Rat) + 1 / 2) + qrealToInt (d - 1)

/-- Model of `qFloor(qreal)`: `int(std::floor(v))`. -/
def qFloor (d : Rat) : Int := Int.floor d

/-- Model of `qCeil(qreal)`: `int(std::ceil(v))`. -/
def qCeil (d : Rat) : Int := Int.ceil d

/-- The `n` bytes found at the signed offset `off` (a read outside the buffer
yields `0`). -/
def readBytesAt (buf : List Byte) (off : Int) (n : Nat) : List Byte :=
  (List.range n).map fun (i : Nat) =>
    if 0 ≤ off + (i : Int) then buf.getD (off + (i : Int)).toNat 0 else 0

/-- Model of `memcpy(dst + dOff, src + sOff, n)` for a signed source offset. -/
def memcpyAt (dst : List Byte) (dOff : Nat) (src : List Byte) (sOff : Int) (n : Nat) :
    List Byte :=
  writeBytes dst dOff (readBytesAt src sOff n)

/-- Reads the `t` found at a signed byte offset (`*reinterpret_cast<const t *>(p)`). -/
def loadSample (host : Endian) (t : CType) (buf : List Byte) (off : Int) : Nat :=
  wordOfBytes host (readBytesAt buf off t.sizeof)

/-- Model of `constSample(channel, i)` for an `int` index, which the resampler
computes and which may fall outside the buffer: a signed offset into the buffer.
The products `i * bps` and `(i * channels + channel) * bps` are `int` products
and wrap to 32 bits before the division by 8. -/
def AkAudioPacket.constSample (p : AkAudioPacket) (channel : Nat) (i : Int) : Int :=
  if p.caps.planar then
    (p.planeData channel : Int) + Int.tdiv (CType.qint32.wrap (i * (p.caps.bps : Int))) 8
  else
    (p.planeData 0 : Int)
      + Int.tdiv (CType.qint32.wrap
          ((i * (p.caps.channels : Int) + (channel : Int)) * (p.caps.bps : Int))) 8

/-- Model of the two-point `interpolate_`, `interpolateLE` and `interpolateBE`
`<SampleType, SumType>(packet, channel, isample, sample1, sample2)`: the word of
the `SampleType` returned, or `none` when the division by `sample2 - sample1` is a
division by zero.  The table instantiates `SumType` with `qint64` and `qreal` only. -/
def interpolate2 (h : Host) (endian : EndianTag) (SampleType SumType : CType)
    (packet : AkAudioPacket) (channel : Nat) (isample : Rat) (sample1 sample2 : Int) :
    Option Nat :=
  let minValue := mixChannelsFromEndian h endian SampleType
    (loadSample h.endian SampleType packet.buffer (packet.constSample channel sample1))
  let maxValue := mixChannelsFromEndian h endian SampleType
    (loadSample h.endian SampleType packet.buffer (packet.constSample channel sample2))
  if SampleType.isFloat || SumType.isFloat then
    some (h.floatInterpolate endian SampleType SumType minValue maxValue isample
      sample1 sample2 % 2 ^ SampleType.bits)
  else
    let T := SumType.promote
    let a := SumType.wrap (qrealToInt (isample - (sample1 : Rat)))
    let b := SumType.wrap
      (SampleType.promote.wrap (SampleType.toInt maxValue - SampleType.toInt minValue))
    let c := SumType.wrap (SampleType.toInt minValue)
    let d := SumType.wrap (CType.qint32.wrap (sample2 - sample1))
    let num := T.wrap (T.wrap (a * b) + T.wrap (c * d))
    let den := T.wrap (CType.qint32.wrap (sample2 - sample1))
    if den = 0 then none
    else
      let value := T.ofInt (Int.tdiv num den)
      some (SampleType.ofInt (T.toInt (mixChannelsToEndian h endian T value)))

/-- The value `det` of the three-point `interpolate_`, `interpolateLE` and
`interpolateBE<SampleType, SumType>` for an integer `SumType`.  The locals
`sample21`, `sample22`, `sample23` are `int` copies of the indices in
`interpolate_` and `SumType` copies in `interpolateLE`/`interpolateBE` (they
are not squared); each integer expression is reduced once to the range of its
type, which subsumes the reduction of its subexpressions of the same width. -/
def interpolate3Det (endian : EndianTag) (SumType : CType) (sample1 sample2 sample3 : Int) :
    Int :=
  let X := match endian with
    | .native => CType.qint32
    | _ => SumType
  let I := CType.qint32
  let S := SumType
  let T := SumType.promote
  let sample21 := X.wrap sample1
  let sample22 := X.wrap sample2
  let sample23 := X.wrap sample3
  T.wrap
    (sample21 * S.wrap (I.wrap (sample2 - sample3))
      - sample1 * S.wrap (X.wrap (sample22 - sample23))
      + S.wrap (X.wrap (sample22 * sample3 - sample23 * sample2))
      - sample22 * S.wrap (I.wrap (sample2 - sample3))
      + sample2 * S.wrap (X.wrap (sample21 - sample23))
      - S.wrap (X.wrap (sample21 * sample3 - sample23 * sample1))
      + sample23 * S.wrap (I.wrap (sample1 - sample2))
      - sample1 * S.wrap (X.wrap (sample21 - sample22))
      + S.wrap (X.wrap (sample21 * sample2 - sample22 * sample1)))

/-- The product `coef = inv * valuesMatrix` of the three-point `interpolate_`,
`interpolateLE` and `interpolateBE<SampleType, SumType>` for an integer
`SumType`: the entries `coef(0, 0)`, `coef(1, 0)`, `coef(2, 0)`, where `inv` holds
`matrixValues` (formed from the indices and their copies `sample21`, `sample22`,
`sample23` as in `interpolate3Det`) and `valuesMatrix` the three decoded samples. -/
def interpolate3Coef (endian : EndianTag) (SampleType SumType : CType)
    (minValue midValue maxValue : Nat) (sample1 sample2 sample3 : Int) : Int × Int × Int :=
  let X := match endian with
    | .native => CType.qint32
    | _ => SumType
  let I := CType.qint32
  let S := SumType
  let T := SumType.promote
  let sample21 := X.wrap sample1
  let sample22 := X.wrap sample2
  let sample23 := X.wrap sample3
  let m00 := S.wrap (I.wrap (sample2 - sample3))
  let m01 := S.wrap (X.wrap (sample23 - sample22))
  let m02 := S.wrap (X.wrap (sample22 * sample3 - sample23 * sample2))
  let m10 := S.wrap (I.wrap (sample3 - sample1))
  let m11 := S.wrap (X.wrap (sample21 - sample23))
  let m12 := S.wrap (X.wrap (sample23 * sample1 - sample21 * sample3))
  let m20 := S.wrap (I.wrap (sample1 - sample2))
  let m21 := S.wrap (X.wrap (sample22 - sample21))
  let m22 := S.wrap (X.wrap (sample21 * sample2 - sample22 * sample1))
  let y0 := S.wrap (SampleType.toInt minValue)
  let y1 := S.wrap (SampleType.toInt midValue)
  let y2 := S.wrap (SampleType.toInt maxValue)
  (T.wrap (m00 * y0 + m01 * y1 + m02 * y2),
    T.wrap (m10 * y0 + m11 * y1 + m12 * y2),
    T.wrap (m20 * y0 + m21 * y1 + m22 * y2))

/-- Model of the three-point `interpolate_`, `interpolateLE` and `interpolateBE`
`<SampleType, SumType>(packet, channel, isample, sample1, sample2, sample3)`: the
word of the `SampleType` returned, or `none` when `det` is zero.  The last
expression, evaluated in `qreal`, is taken on exact rationals. -/
def interpolate3 (h : Host) (endian : EndianTag) (SampleType SumType : CType)
    (packet : AkAudioPacket) (channel : Nat) (isample : Rat) (sample1 sample2 sample3 : Int) :
    Option Nat :=
  let minValue := mixChannelsFromEndian h endian SampleType
    (loadSample h.endian SampleType packet.buffer (packet.constSample channel sample1))
  let midValue := mixChannelsFromEndian h endian SampleType
    (loadSample h.endian SampleType packet.buffer (packet.constSample channel sample2))
  let maxValue := mixChannelsFromEndian h endian SampleType
    (loadSample h.endian SampleType packet.buffer (packet.constSample channel sample3))
  if SampleType.isFloat || SumType.isFloat then
    some (h.floatInterpolate3 endian SampleType SumType minValue midValue maxValue isample
      sample1 sample2 sample3 % 2 ^ SampleType.bits)
  else
    let det := interpolate3Det endian SumType sample1 sample2 sample3
    let coef := interpolate3Coef endian SampleType SumType minValue midValue maxValue
      sample1 sample2 sample3
    if det = 0 then none
    else
      let value : Rat :=
        ((coef.1 : Rat) * isample * isample + (coef.2.1 : Rat) * isample + (coef.2.2 : Rat))
          / (det : Rat)
      let swapped : Bool :=
        match endian, h.endian with
        | .LE, .big => true
        | .BE, .little => true
        | _, _ => false
      if swapped then some (h.swappedRealToInt SampleType value % 2 ^ SampleType.bits)
      else some (SampleType.ofInt (qrealToInt value))

/-- One row of the interpolation table: the format and its two interpolators,
each returning the bytes it stores through `osample`. -/
structure AudioSamplesInterpolation where
  format : SampleFormat
  linear : AkAudioPacket → Nat → Rat → Int → Int → Option (List Byte)
  quadratic : AkAudioPacket → Nat → Rat → Int → Int → Int → Option (List Byte)

/-- Model of the macro `DEFINE_SAMPLE_INTERPOLATION_FUNCTION(sitype, itype, optype, endian)`.
The lambdas declare `int isample`, so the position passed as `qreal` is
truncated before it reaches the interpolator; `memcpy(osample, &value,
sizeof(itype))` stores the bytes of the result. -/
def DEFINE_SAMPLE_INTERPOLATION_FUNCTION (h : Host) (sitype : SampleFormat)
    (itype optype : CType) (endian : EndianTag) : AudioSamplesInterpolation where
  format := sitype
  linear := fun packet channel isample sample1 sample2 =>
    (interpolate2 h endian itype optype packet channel ((qrealToInt isample : Int) : Rat)
      sample1 sample2).map (bytesOfWord h.endian itype.sizeof)
  quadratic := fun packet channel isample sample1 sample2 sample3 =>
    (interpolate3 h endian itype optype packet channel ((qrealToInt isample : Int) : Rat)
      sample1 sample2 sample3).map (bytesOfWord h.endian itype.sizeof)

/-- Model of `samplesInterpolation()`: the interpolation table. -/
def samplesInterpolation (h : Host) : List AudioSamplesInterpolation :=
  [ DEFINE_SAMPLE_INTERPOLATION_FUNCTION h .s8 .qint8 .qint64 .native,
    DEFINE_SAMPLE_INTERPOLATION_FUNCTION h .u8 .quint8 .qint64 .native,
    DEFINE_SAMPLE_INTERPOLATION_FUNCTION h .s16le .qint16 .qint64 .LE,
    DEFINE_SAMPLE_INTERPOLATION_FUNCTION h .s16be .qint16 .qint64 .BE,
    DEFINE_SAMPLE_INTERPOLATION_FUNCTION h .u16le .quint16 .qint64 .LE,
    DEFINE_SAMPLE_INTERPOLATION_FUNCTION h .u16be .quint16 .qint64 .BE,
    DEFINE_SAMPLE_INTERPOLATION_FUNCTION h .s32le .qint32 .qint64 .LE,
    DEFINE_SAMPLE_INTERPOLATION_FUNCTION h .s32be .qint32 .qint64 .BE,
    DEFINE_SAMPLE_INTERPOLATION_FUNCTION h .u32le .quint32 .qint64 .LE,
    DEFINE_SAMPLE_INTERPOLATION_FUNCTION h .u32be .quint32 .qint64 .BE,
    DEFINE_SAMPLE_INTERPOLATION_FUNCTION h .s64le .qint64 .qreal .LE,
    DEFINE_SAMPLE_INTERPOLATION_FUNCTION h .s64be .qint64 .qreal .BE,
    DEFINE_SAMPLE_INTERPOLATION_FUNCTION h .u64le .quint64 .qreal .LE,
    DEFINE_SAMPLE_INTERPOLATION_FUNCTION h .u64be .quint64 .qreal .BE,
    DEFINE_SAMPLE_INTERPOLATION_FUNCTION h .fltle .float .qreal .LE,
    DEFINE_SAMPLE_INTERPOLATION_FUNCTION h .fltbe .float .qreal .BE,
    DEFINE_SAMPLE_INTERPOLATION_FUNCTION h .dblle .qreal .qreal .LE,
    DEFINE_SAMPLE_INTERPOLATION_FUNCTION h .dblbe .qreal .qreal .BE ]

/-- Model of `bySamplesInterpolationFormat(format)`: the row of the format, or
the first row of the table when the format has none. -/
def bySamplesInterpolationFormat (h : Host) (format : SampleFormat) :
    AudioSamplesInterpolation :=
  match (samplesInterpolation h).find? (fun interpolation => interpolation.format = format) with
  | some interpolation => interpolation
  | none => DEFINE_SAMPLE_INTERPOLATION_FUNCTION h .s8 .qint8 .qint64 .native

/-- The bytes of the local `quint64 data` once an interpolator has stored its
result at its start. -/
def interpolatedData (h : Host) (bytes : List Byte) : List Byte :=
  writeBytes ((List.range 8).map h.indeterminate) 0 bytes

/-- The fractional source position `qreal(sample) * (samples() - 1) / (oSamples - 1)`
of the interpolating methods, taken on exact rationals; `none` when the
divisor is zero (the quotient is then infinite or not a number, and its
conversion to `int` is undefined). -/
def resamplePosition (samples : Nat) (oSamples : Int) (sample : Nat) : Option Rat :=
  if oSamples - 1 = 0 then none
  else some ((sample : Rat) * (((samples : Int) - 1 : Int) : Rat) / ((oSamples - 1 : Int) : Rat))

/-- The source index `sample * (samples() - 1) / (oSamples - 1)` of
`ResampleMethod_Fast`, computed in `int` (for a non-zero divisor). -/
def resampleFastIndex (samples : Nat) (oSamples : Int) (sample : Nat) : Int :=
  Int.tdiv (CType.qint32.wrap ((sample : Int) * ((samples : Int) - 1))) (oSamples - 1)

/-- The body of the sample loop of `ResampleMethod_Fast`, on the bytes of
`packet`; `none` when the integer division is a division by zero. -/
def resampleFastStep (this packet : AkAudioPacket) (oSamples : Int) (channel : Nat)
    (buf : List Byte) (sample : Nat) : Option (List Byte) :=
  if oSamples - 1 = 0 then none
  else
    let iSample := resampleFastIndex this.caps.samples oSamples sample
    some (memcpyAt buf (packet.sample channel sample)
      this.buffer (this.constSample channel iSample) (packet.caps.bps / 8))

/-- The body of the sample loop of `ResampleMethod_Linear`. -/
def resampleLinearStep (h : Host) (this packet : AkAudioPacket) (oSamples : Int)
    (channel : Nat) (buf : List Byte) (sample : Nat) : Option (List Byte) :=
  let interpolation := (bySamplesInterpolationFormat h packet.caps.format).linear
  (resamplePosition this.caps.samples oSamples sample).bind fun iSample =>
    let minSample := qFloor iSample
    let maxSample := qCeil iSample
    if minSample = maxSample then
      some (memcpyAt buf (packet.sample channel sample)
        this.buffer (this.constSample channel minSample) (packet.caps.bps / 8))
    else
      (interpolation this channel iSample minSample maxSample).map fun bytes =>
        memcpy buf (packet.sample channel sample) (interpolatedData h bytes) 0
          (packet.caps.bps / 8)

/-- The body of the sample loop of `ResampleMethod_Quadratic`. -/
def resampleQuadraticStep (h : Host) (this packet : AkAudioPacket) (oSamples : Int)
    (channel : Nat) (buf : List Byte) (sample : Nat) : Option (List Byte) :=
  let interpolationL := (bySamplesInterpolationFormat h packet.caps.format).linear
  let interpolationQ := (bySamplesInterpolationFormat h packet.caps.format).quadratic
  (resamplePosition this.caps.samples oSamples sample).bind fun iSample =>
    let minSample := qFloor iSample
    let maxSample := qCeil iSample
    if minSample = maxSample then
      some (memcpyAt buf (packet.sample channel sample)
        this.buffer (this.constSample channel minSample) (packet.caps.bps / 8))
    else
      let diffMinSample := ((minSample : Rat) - iSample) * ((minSample : Rat) - iSample)
      let diffMaxSample := ((maxSample : Rat) - iSample) * ((maxSample : Rat) - iSample)
      let midSample :=
        if diffMinSample < diffMaxSample then max (minSample - 1) 0
        else min (maxSample + 1) ((this.caps.samples : Int) - 1)
      let minSample1 := if midSample < minSample then midSample else minSample
      let midSample1 := if midSample < minSample then minSample else midSample
      let maxSample2 := if midSample1 > maxSample then midSample1 else maxSample
      let midSample2 := if midSample1 > maxSample then maxSample else midSample1
      if midSample2 = minSample1 ∨ midSample2 = maxSample2 then
        (interpolationL this channel iSample minSample1 maxSample2).map fun bytes =>
          memcpy buf (packet.sample channel sample) (interpolatedData h bytes) 0
            (packet.caps.bps / 8)
      else
        (interpolationQ this channel iSample minSample1 midSample2 maxSample2).map fun bytes =>
          memcpy buf (packet.sample channel sample) (interpolatedData h bytes) 0
            (packet.caps.bps / 8)

/-- The two nested loops `for channel < packet.caps().channels()`,
`for sample < packet.caps().samples()` around a loop body, on the bytes of `packet`. -/
def resampleLoop (packet : AkAudioPacket)
    (step : Nat → List Byte → Nat → Option (List Byte)) : Option (List Byte) :=
  (List.range packet.caps.channels).foldlM (fun buf channel =>
    (List.range packet.caps.samples).foldlM (step channel) buf) packet.buffer

/-- The `switch (method)` of `scale` and of `convertSampleRate` (the same text in
both, up to the name of the new sample count), on the bytes of `packet`;
`none` stands for an execution with undefined behaviour. -/
def resample (h : Host) (this packet : AkAudioPacket) (oSamples : Int)
    (method : ResampleMethod) : Option (List Byte) :=
  match method with
  | .Fast => resampleLoop packet (resampleFastStep this packet oSamples)
  | .Linear => resampleLoop packet (resampleLinearStep h this packet oSamples)
  | .Quadratic => resampleLoop packet (resampleQuadraticStep h this packet oSamples)

namespace AkAudioPacket

/-- Model of `AkAudioPacket::convertSampleRate(rate, sampleCorrection, method)`:
the packet returned, paired with the value of `sampleCorrection` after the
call.  The sample-count arithmetic, carried out in `qreal`, is taken on exact
rationals (the count and the drift are the exact values of their expressions,
without the rounding of the `qreal` operations); `none` stands for an execution
with undefined behaviour (a division by zero). -/
def convertSampleRate (h : Host) (this : AkAudioPacket) (rate : Int) (sampleCorrection : Rat)
    (method : ResampleMethod) : Option (AkAudioPacket × Rat) :=
  if rate = this.caps.rate then some (this, sampleCorrection)
  else if this.caps.rate = 0 then none
  else
    let rSamples := (this.caps.samples : Rat) * (rate : Rat) / (this.caps.rate : Rat)
      + sampleCorrection
    let oSamples := qRound rSamples
    if oSamples < 1 then some (invalid, sampleCorrection)
    else
      let caps := (this.caps.setSamples oSamples.toNat).setRate rate
      let packet := alloc h caps
      let method := if oSamples < (this.caps.samples : Int) then ResampleMethod.Fast else method
      (resample h this packet oSamples method).map fun buf =>
        ({ packet with buffer := buf }, rSamples - (oSamples : Rat))

/-- Model of `AkAudioPacket::scale(samples, method)`; `none` stands for an execution
with undefined behaviour (a division by zero). -/
def scale (h : Host) (this : AkAudioPacket) (samples : Int) (method : ResampleMethod) :
    Option AkAudioPacket :=
  if samples = (this.caps.samples : Int) then some this
  else if samples < 1 then some invalid
  else
    let caps := this.caps.setSamples samples.toNat
    let packet := alloc h caps
    let method := if samples < (this.caps.samples : Int) then ResampleMethod.Fast else method
    (resample h this packet samples method).map fun buf => { packet with buffer := buf }

end AkAudioPacket

/-! ## Auxiliary definitions used in the statements -/

/-- A converter that only replaces the format of the descriptor. -/
def SetsFormat (c : AkAudioPacket → AkAudioPacket) (f : SampleFormat) : Prop :=
  ∀ q : AkAudioPacket, (c q).caps = q.caps.setFormat f ∧ (c q).pts = q.pts ∧
    (c q).timeBase = q.timeBase ∧ (c q).id = q.id ∧ (c q).index = q.index

/-- Same descriptor up to the format, and same metadata. -/
def Reformatted (r this : AkAudioPacket) (format : SampleFormat) : Prop :=
  r.caps = this.caps.setFormat format ∧ r.pts = this.pts ∧
    r.timeBase = this.timeBase ∧ r.id = this.id ∧ r.index = this.index

/-- Same descriptor up to the layout, and same metadata. -/
def Relaid (r p : AkAudioPacket) (layout : ChannelLayout) : Prop :=
  r.caps = p.caps.setLayout layout ∧ r.pts = p.pts ∧
    r.timeBase = p.timeBase ∧ r.id = p.id ∧ r.index = p.index

/-- The sample bytes of a plane: the `bytesPerPlane` bytes found at the plane offset. -/
def AkAudioPacket.planeBytes (p : AkAudioPacket) (plane : Nat) : List Byte :=
  readBytes p.buffer (p.planeData plane) p.caps.bytesPerPlane

/-- A descriptor whose planes carry no alignment padding: the plane size is
the number of sample bytes of the plane. -/
def AkAudioCaps.unpadded (c : AkAudioCaps) : Prop :=
  AkAudioCaps.alignUp c.bytesPerPlane c.align = c.bytesPerPlane

instance (c : AkAudioCaps) : Decidable c.unpadded :=
  inferInstanceAs (Decidable (AkAudioCaps.alignUp c.bytesPerPlane c.align = c.bytesPerPlane))

/-- The rows of `sampleFormatConvert()`: for each use of the macro, its first
format, the C++ type of that format, the operation type and the endianness tag
of the first format (the second format is always `s64`, of type `qint64` and
tag `_`). -/
def sampleFormatConvertRows : List (SampleFormat × CType × CType × EndianTag) :=
  [ (.s8, .qint8, .qint64, .native), (.u8, .quint8, .qint64, .native),
    (.s16le, .qint16, .qint64, .LE), (.s16be, .qint16, .qint64, .BE),
    (.u16le, .quint16, .qint64, .LE), (.u16be, .quint16, .qint64, .BE),
    (.s32le, .qint32, .qint64, .LE), (.s32be, .qint32, .qint64, .BE),
    (.u32le, .quint32, .qint64, .LE), (.u32be, .quint32, .qint64, .BE),
    (.s64le, .qint64, .qreal, .LE), (.s64be, .qint64, .qreal, .BE),
    (.u64le, .quint64, .qreal, .LE), (.u64be, .quint64, .qreal, .BE),
    (.fltle, .float, .qreal, .LE), (.fltbe, .float, .qreal, .BE),
    (.dblle, .qreal, .qreal, .LE), (.dblbe, .qreal, .qreal, .BE) ]

/-- The entry `first format -> s64` of a row. -/
def sampleFormatConvertFrom (h : Host) (r : SampleFormat × CType × CType × EndianTag) :
    AudioSampleFormatConvert :=
  { from_ := r.1
    to_ := SampleFormat.s64 h.endian
    convert := fun src =>
      convertSampleFormat h r.2.1 .qint64 src (SampleFormat.s64 h.endian)
        (scaleValueFrom h r.2.2.2 .native r.2.1 .qint64 r.2.2.1) }

/-- The entry `s64 -> first format` of a row. -/
def sampleFormatConvertTo (h : Host) (r : SampleFormat × CType × CType × EndianTag) :
    AudioSampleFormatConvert :=
  { from_ := SampleFormat.s64 h.endian
    to_ := r.1
    convert := fun src =>
      convertSampleFormat h .qint64 r.2.1 src r.1
        (scaleValueFrom h .native r.2.2.2 .qint64 r.2.1 r.2.2.1) }

/-- A little-endian host whose uninitialised storage is filled with `0xAA`,
used by the concrete examples (its floating-point results are all zero: the
examples evaluate integer paths only; channel `i` of a layout is at position `i`). -/
def exampleHost : Host where
  endian := .little
  uninitialized := fun _ => 170
  qtAtLeast512 := true
  floatScale := fun _ _ _ _ _ _ => 0
  floatScale3 := fun _ _ _ _ _ _ _ => 0
  position := fun _ channel => (channel : Rat)
  attenuate := fun _ _ _ _ => 0
  floatAdd := fun _ _ _ => 0
  floatLess := fun _ _ _ => false
  indeterminate := fun _ => 85
  floatInterpolate := fun _ _ _ _ _ _ _ _ => 0
  floatInterpolate3 := fun _ _ _ _ _ _ _ _ _ _ => 0
  swappedRealToInt := fun _ _ => 0

/-- The comparison of a host is a strict order on the words of the floating type
`t`, in which `-1` is below `1`. -/
def Host.floatOrder (h : Host) (t : CType) : Prop :=
  h.floatLess t (Bound.toWord t .negOne) (Bound.toWord t .one) = true ∧
  (∀ a b, h.floatLess t a b = true → h.floatLess t b a = false) ∧
  (∀ a b c, h.floatLess t a b = true → h.floatLess t b c = true → h.floatLess t a c = true)

/-- The position of a sign-and-magnitude word of type `t` on the number line
(the order of the IEEE 754 encodings of the numbers). -/
def signMagnitude (t : CType) (w : Nat) : Int :=
  if 2 ^ (t.bits - 1) ≤ w % 2 ^ t.bits then -((w % 2 ^ t.bits - 2 ^ (t.bits - 1) : Nat) : Int)
  else ((w % 2 ^ t.bits : Nat) : Int)

/-- The example host with a comparison of floating-point words: the order of
their sign-and-magnitude encodings. -/
def orderedHost : Host :=
  { exampleHost with floatLess := fun t a b => decide (signMagnitude t a < signMagnitude t b) }

/-- The metadata of a packet are the defaults of `AkAudioPacketPrivate`: `pts` 0,
the default time base, stream index and stream id `-1`. -/
def AkAudioPacket.hasDefaultMetadata (q : AkAudioPacket) : Prop :=
  q.pts = 0 ∧ q.timeBase = AkFrac.empty ∧ q.index = -1 ∧ q.id = -1

instance (q : AkAudioPacket) : Decidable q.hasDefaultMetadata :=
  inferInstanceAs (Decidable (q.pts = 0 ∧ q.timeBase = AkFrac.empty ∧ q.index = -1 ∧ q.id = -1))

/-- The metadata (`pts`, time base, stream index, stream id) of `q` are those of `p`. -/
def AkAudioPacket.sameMetadata (q p : AkAudioPacket) : Prop :=
  q.pts = p.pts ∧ q.timeBase = p.timeBase ∧ q.index = p.index ∧ q.id = p.id

instance (q p : AkAudioPacket) : Decidable (q.sameMetadata p) :=
  inferInstanceAs
    (Decidable (q.pts = p.pts ∧ q.timeBase = p.timeBase ∧ q.index = p.index ∧ q.id = p.id))

/-- The integer formats of at most 32 bits whose byte order is the host's. -/
def SampleFormat.hostOrder32 (h : Host) (format : SampleFormat) : Prop :=
  format = .s8 ∨ format = .u8 ∨ format = .s16 h.endian ∨ format = .u16 h.endian ∨
    format = .s32 h.endian ∨ format = .u32 h.endian

instance (h : Host) (format : SampleFormat) : Decidable (format.hostOrder32 h) :=
  inferInstanceAs (Decidable (format = .s8 ∨ format = .u8 ∨ format = .s16 h.endian ∨
    format = .u16 h.endian ∨ format = .s32 h.endian ∨ format = .u32 h.endian))

/-- A packet at rate 8000 with the given descriptor fields and bytes, and
metadata `pts = 7`, time base `1/8000`, `id = 3`, `index = 2`. -/
def examplePacket (format : SampleFormat) (layout : ChannelLayout) (planar : Bool)
    (samples align : Nat) (bytes : List Byte) : AkAudioPacket :=
  ⟨⟨format, layout, planar, 8000, samples, align⟩, bytes, 7, ⟨1, 8000⟩, 3, 2⟩

/-- A 65537-sample mono signed 8-bit packet: 65536 samples of value `0` followed
by one sample of value `1`. -/
def exampleLongPacket : AkAudioPacket :=
  examplePacket .s8 .mono false 65537 1 (List.replicate 65536 0 ++ [1])

/-- The quantization step of the narrower type `N` measured in the type `A`:
`ceil((A_MAX - A_MIN) / (N_MAX - N_MIN))`. -/
def quantizationStep (A N : CType) : Int :=
  ((A.max - A.min) + (N.max - N.min) - 1) / (N.max - N.min)

/-- The integer value of sample `i` of channel `channel` of a packet whose
samples have the C++ type `t`. -/
def AkAudioPacket.sampleValue (host : Endian) (t : CType) (p : AkAudioPacket)
    (channel i : Nat) : Int :=
  t.toInt (loadWord host t p.buffer (p.sample channel i) 0)

/-- An 8-sample mono signed 16-bit little-endian packet at rate 8000 holding
the samples `10, 20, ..., 80`. -/
def exampleRamp : AkAudioPacket :=
  examplePacket .s16le .mono false 8 1 [10, 0, 20, 0, 30, 0, 40, 0, 50, 0, 60, 0, 70, 0, 80, 0]

/-! ## Properties -/

/-! ### The conversion table -/

theorem s64_ne_none (e : Endian) : SampleFormat.s64 e ≠ .none := by
  cases e <;> simp [SampleFormat.s64]

theorem DEFINE_SAMPLE_CONVERT_FUNCTION_good (h : Host) (sitype sotype : SampleFormat)
    (itype otype optype : CType) (inEndian outEndian : EndianTag)
    (h1 : sitype ≠ .none) (h2 : sotype ≠ .none) :
    ∀ e ∈ DEFINE_SAMPLE_CONVERT_FUNCTION h sitype sotype itype otype optype inEndian outEndian,
      e.to_ ≠ .none ∧ e.from_ ≠ .none ∧ SetsFormat e.convert e.to_ := by
  intro e he
  simp only [DEFINE_SAMPLE_CONVERT_FUNCTION, List.mem_cons, List.mem_singleton,
    List.not_mem_nil, or_false] at he
  rcases he with rfl | rfl
  · exact ⟨h2, h1, fun q => ⟨rfl, rfl, rfl, rfl, rfl⟩⟩
  · exact ⟨h1, h2, fun q => ⟨rfl, rfl, rfl, rfl, rfl⟩⟩

theorem sampleFormatConvert_good (h : Host) :
    ∀ e ∈ sampleFormatConvert h, e.to_ ≠ .none ∧ e.from_ ≠ .none ∧ SetsFormat e.convert e.to_ := by
  have hs := s64_ne_none h.endian
  simp only [sampleFormatConvert, List.forall_mem_append]
  repeat' apply And.intro
  all_goals exact DEFINE_SAMPLE_CONVERT_FUNCTION_good h _ _ _ _ _ _ _ (by simp) hs

theorem sampleFormatConvert_any_from (h : Host) (X : SampleFormat) :
    ((sampleFormatConvert h).any fun e => decide (e.from_ = X)) = decide (X ≠ .none) := by
  obtain ⟨e, u, q, f1, f2, f0, f3, f4, f5, f6, f7, f8, f9⟩ := h
  simp only [sampleFormatConvert, DEFINE_SAMPLE_CONVERT_FUNCTION, List.any_append, List.any_cons, List.any_nil]
  cases e <;> cases X <;> simp [SampleFormat.s64]

theorem sampleFormatConvert_any_to (h : Host) (X : SampleFormat) :
    ((sampleFormatConvert h).any fun e => decide (e.to_ = X)) = decide (X ≠ .none) := by
  obtain ⟨e, u, q, f1, f2, f0, f3, f4, f5, f6, f7, f8, f9⟩ := h
  simp only [sampleFormatConvert, DEFINE_SAMPLE_CONVERT_FUNCTION, List.any_append, List.any_cons, List.any_nil]
  cases e <;> cases X <;> simp [SampleFormat.s64]
theorem canConvertFormatLoop_eq (input output : SampleFormat)
    (tbl : List AudioSampleFormatConvert) (ff tf : Bool) :
    canConvertFormatLoop input output tbl ff tf =
      (!tbl.isEmpty && (ff || tbl.any fun e => decide (e.from_ = input))
        && (tf || tbl.any fun e => decide (e.to_ = output))) := by
  induction tbl generalizing ff tf with
  | nil => simp [canConvertFormatLoop]
  | cons e rest ih =>
    simp only [canConvertFormatLoop, ih]
    by_cases h1 : e.from_ = input <;> by_cases h2 : e.to_ = output <;>
      cases ff <;> cases tf <;> cases rest <;> simp [h1, h2]

theorem convertFormatLoop_spec (p : AkAudioPacket) (format : SampleFormat)
    (tbl : List AudioSampleFormatConvert)
    (hgood : ∀ e ∈ tbl, e.to_ ≠ .none ∧ e.from_ ≠ .none ∧ SetsFormat e.convert e.to_)
    (cf ct : Option (AkAudioPacket → AkAudioPacket))
    (hcf : ∀ f, cf = some f → ∃ x, SetsFormat f x)
    (hct : ∀ g, ct = some g → format ≠ .none ∧ SetsFormat g format) :
    (((cf.isSome || tbl.any fun e => decide (e.from_ = p.caps.format))
        && (ct.isSome || tbl.any fun e => decide (e.to_ = format))) = true →
      format ≠ .none ∧ Reformatted (convertFormatLoop p format tbl cf ct) p format) ∧
    (((cf.isSome || tbl.any fun e => decide (e.from_ = p.caps.format))
        && (ct.isSome || tbl.any fun e => decide (e.to_ = format))) = false →
      convertFormatLoop p format tbl cf ct = AkAudioPacket.invalid) := by
  induction tbl generalizing cf ct with
  | nil =>
    cases cf with
    | none => simp [convertFormatLoop]
    | some f =>
      cases ct with
      | none => simp [convertFormatLoop]
      | some g =>
        obtain ⟨x, hx⟩ := hcf f rfl
        obtain ⟨hne, hg⟩ := hct g rfl
        simp only [convertFormatLoop, Option.isSome_some, Bool.true_or, Bool.and_self,
          forall_true_left, Bool.true_eq_false, false_implies, and_true]
        refine ⟨hne, ?_⟩
        obtain ⟨a1, a2, a3, a4, a5⟩ := hx p
        obtain ⟨b1, b2, b3, b4, b5⟩ := hg (f p)
        exact ⟨by rw [b1, a1]; rfl, by rw [b2, a2], by rw [b3, a3], by rw [b4, a4],
          by rw [b5, a5]⟩
  | cons e rest ih =>
    obtain ⟨he1, he2, he3⟩ := hgood e (List.mem_cons_self _ _)
    have hrest : ∀ e ∈ rest, e.to_ ≠ .none ∧ e.from_ ≠ .none ∧ SetsFormat e.convert e.to_ :=
      fun e' h' => hgood e' (List.mem_cons_of_mem _ h')
    by_cases hd : e.from_ = p.caps.format ∧ e.to_ = format
    · obtain ⟨hd1, hd2⟩ := hd
      simp only [convertFormatLoop, hd1, hd2, and_self, if_true, List.any_cons, decide_True,
        Bool.true_or, Bool.or_true, Bool.and_self, forall_true_left, Bool.true_eq_false,
        false_implies, and_true]
      refine ⟨hd2 ▸ he1, ?_⟩
      have key := he3 p
      rw [hd2] at key
      exact key
    · have hstep : convertFormatLoop p format (e :: rest) cf ct =
          convertFormatLoop p format rest
            (if e.from_ = p.caps.format then some e.convert else cf)
            (if e.to_ = format then some e.convert else ct) := by
        simp only [convertFormatLoop, hd, if_false]
      rw [hstep]
      have hcf' : ∀ f, (if e.from_ = p.caps.format then some e.convert else cf) = some f →
          ∃ x, SetsFormat f x := by
        intro f hf
        split at hf
        · cases hf; exact ⟨_, he3⟩
        · exact hcf f hf
      have hct' : ∀ g, (if e.to_ = format then some e.convert else ct) = some g →
          format ≠ .none ∧ SetsFormat g format := by
        intro g hg
        split at hg
        · rename_i heq; cases hg; exact ⟨heq ▸ he1, heq ▸ he3⟩
        · exact hct g hg
      have key := ih hrest _ _ hcf' hct'
      have e1 : ((if e.from_ = p.caps.format then some e.convert else cf).isSome
          || rest.any fun e => decide (e.from_ = p.caps.format))
          = (cf.isSome || (e :: rest).any fun e => decide (e.from_ = p.caps.format)) := by
        by_cases h1 : e.from_ = p.caps.format <;> simp [h1]
      have e2 : ((if e.to_ = format then some e.convert else ct).isSome
          || rest.any fun e => decide (e.to_ = format))
          = (ct.isSome || (e :: rest).any fun e => decide (e.to_ = format)) := by
        by_cases h1 : e.to_ = format <;> simp [h1]
      rw [e1, e2] at key
      exact key


/-! ### Format conversion -/

theorem canConvertFormat_eq (h : Host) (A B : SampleFormat) :
    canConvertFormat h A B = (decide (A = B) || (decide (A ≠ .none) && decide (B ≠ .none))) := by
  unfold canConvertFormat
  by_cases hab : A = B
  · simp [hab]
  · rw [if_neg hab, canConvertFormatLoop_eq, sampleFormatConvert_any_from,
      sampleFormatConvert_any_to]
    have hne : (sampleFormatConvert h).isEmpty = false := by
      simp [sampleFormatConvert, DEFINE_SAMPLE_CONVERT_FUNCTION]
    simp [hne, hab]

theorem convertFormat_spec (h : Host) (p : AkAudioPacket) (T : SampleFormat) :
    (canConvertFormat h p.caps.format T = true → Reformatted (p.convertFormat h T) p T) ∧
    (canConvertFormat h p.caps.format T = false → p.convertFormat h T = AkAudioPacket.invalid) := by
  unfold AkAudioPacket.convertFormat
  by_cases hab : p.caps.format = T
  · rw [if_pos hab]
    refine ⟨fun _ => ⟨?_, rfl, rfl, rfl, rfl⟩, fun hc => ?_⟩
    · rw [← hab]; rfl
    · rw [canConvertFormat_eq] at hc; simp [hab] at hc
  · rw [if_neg hab]
    have key := convertFormatLoop_spec p T (sampleFormatConvert h) (sampleFormatConvert_good h)
      none none (by simp) (by simp)
    rw [sampleFormatConvert_any_from, sampleFormatConvert_any_to] at key
    rw [canConvertFormat_eq]
    simp only [Option.isSome_none, Bool.false_or] at key
    simp only [hab, decide_False, Bool.false_or]
    exact ⟨fun hc => (key.1 hc).2, key.2⟩

theorem isValid_invalid : AkAudioPacket.invalid.isValid = false := rfl

theorem isValid_iff (p : AkAudioPacket) :
    p.isValid = true ↔ p.caps.format ≠ .none ∧ p.caps.layout ≠ .none := by
  simp [AkAudioPacket.isValid, AkAudioCaps.isValid]

/-- C1: for a buffer with a valid descriptor, `convertFormat(T)` fails exactly when
`canConvertFormat(format, T)` is false, the failure is the invalid buffer, and
a successful result has sample format `T`. -/
theorem convertFormat_invalid_iff_not_canConvertFormat (h : Host) (p : AkAudioPacket)
    (T : SampleFormat) (hv : p.isValid = true) :
    ((p.convertFormat h T).isValid = false ↔ canConvertFormat h p.caps.format T = false) ∧
    ((p.convertFormat h T).isValid = false → p.convertFormat h T = AkAudioPacket.invalid) ∧
    ((p.convertFormat h T).isValid = true → (p.convertFormat h T).caps.format = T) := by
  obtain ⟨hf, hl⟩ := (isValid_iff p).1 hv
  obtain ⟨h1, h2⟩ := convertFormat_spec h p T
  cases hc : canConvertFormat h p.caps.format T with
  | false =>
    have hr := h2 hc
    simp [hr, isValid_invalid]
  | true =>
    obtain ⟨hcaps, -⟩ := h1 hc
    have hT : T ≠ .none := by
      rw [canConvertFormat_eq] at hc
      by_cases hab : p.caps.format = T
      · exact hab ▸ hf
      · simpa [hab, hf] using hc
    have hvr : (p.convertFormat h T).isValid = true := by
      rw [isValid_iff, hcaps]; exact ⟨hT, hl⟩
    simp [hvr, hcaps, AkAudioCaps.setFormat]


/-- Witness of C1 on a mono 16-bit packet converted to `u8`. -/
theorem convertFormat_invalid_iff_not_canConvertFormat_witness :
    (examplePacket .s16le .mono false 1 1 [232, 3]).isValid = true ∧
    ((((examplePacket .s16le .mono false 1 1 [232, 3]).convertFormat exampleHost .u8).isValid
        = false ↔ canConvertFormat exampleHost .s16le .u8 = false) ∧
      (((examplePacket .s16le .mono false 1 1 [232, 3]).convertFormat exampleHost .u8).isValid
        = false →
        (examplePacket .s16le .mono false 1 1 [232, 3]).convertFormat exampleHost .u8
          = AkAudioPacket.invalid) ∧
      (((examplePacket .s16le .mono false 1 1 [232, 3]).convertFormat exampleHost .u8).isValid
        = true →
        ((examplePacket .s16le .mono false 1 1 [232, 3]).convertFormat exampleHost .u8).caps.format
          = .u8)) :=
  ⟨rfl, convertFormat_invalid_iff_not_canConvertFormat exampleHost
    (examplePacket .s16le .mono false 1 1 [232, 3]) .u8 rfl⟩

/-- C2: `canConvertFormat` is symmetric, and the formats appearing as `from`
in the conversion table are exactly those appearing as `to`. -/
theorem canConvertFormat_symm (h : Host) (A B : SampleFormat) :
    canConvertFormat h A B = canConvertFormat h B A ∧
    ∀ X : SampleFormat, (∃ e ∈ sampleFormatConvert h, e.from_ = X) ↔
      (∃ e ∈ sampleFormatConvert h, e.to_ = X) := by
  constructor
  · rw [canConvertFormat_eq, canConvertFormat_eq]
    by_cases hab : A = B
    · subst hab; rfl
    · have hba : ¬ B = A := fun e => hab e.symm
      simp only [hab, hba, decide_False, Bool.false_or, Bool.and_comm]
  · intro X
    have h1 := sampleFormatConvert_any_from h X
    have h2 := sampleFormatConvert_any_to h X
    have e1 : (∃ e ∈ sampleFormatConvert h, e.from_ = X) ↔
        ((sampleFormatConvert h).any fun e => decide (e.from_ = X)) = true := by
      simp [List.any_eq_true]
    have e2 : (∃ e ∈ sampleFormatConvert h, e.to_ = X) ↔
        ((sampleFormatConvert h).any fun e => decide (e.to_ = X)) = true := by
      simp [List.any_eq_true]
    rw [e1, e2, h1, h2]

set_option maxRecDepth 1000000 in
/-- C3: evaluation at the failing input.  A mono `s16le` packet holding the sample `1000`,
converted to `u8` (through the canonical `s64`) and back, holds `127`: the arithmetic of
`scaleValue` wraps around in its 64-bit intermediate, and the difference `873` exceeds the
quantization step `257` of `u8` measured in `s16`. -/
theorem convertFormat_roundtrip_s16le_u8_at_1000 :
    (examplePacket .s16le .mono false 1 1 [232, 3]).sampleValue .little .qint16 0 0 = 1000 ∧
    ((examplePacket .s16le .mono false 1 1 [232, 3]).convertFormat exampleHost .u8).buffer
      = [255] ∧
    (((examplePacket .s16le .mono false 1 1 [232, 3]).convertFormat exampleHost .u8).convertFormat
      exampleHost .s16le).sampleValue .little .qint16 0 0 = 127 ∧
    quantizationStep .qint16 .quint8 = 257 ∧
    ¬ ((1000 : Int) - 127 ≤ quantizationStep .qint16 .quint8) := by
  decide

set_option maxRecDepth 1000000 in
/-- C4: evaluation at the failing input.  For an interleaved stereo `s8` packet of two samples
converted to `s64le`, sample `(0, 0)` is the scaled source sample, but sample `(0, 1)` is left
as allocated (`0xAA` bytes): the loop of `convertSampleFormat` converts only the first
`samples` elements of the single interleaved plane. -/
theorem convertFormat_interleaved_stereo_unconverted :
    loadWord .little .qint64
        ((examplePacket .s8 .stereo false 2 1 [1, 2, 3, 4]).convertFormat exampleHost .s64le).buffer
        (((examplePacket .s8 .stereo false 2 1 [1, 2, 3, 4]).convertFormat exampleHost .s64le).sample
          0 0) 0
      = scaleValueFrom exampleHost .native .native .qint8 .qint64 .qint64
          (loadWord .little .qint8 (examplePacket .s8 .stereo false 2 1 [1, 2, 3, 4]).buffer
            ((examplePacket .s8 .stereo false 2 1 [1, 2, 3, 4]).sample 0 0) 0) ∧
    loadWord .little .qint64
        ((examplePacket .s8 .stereo false 2 1 [1, 2, 3, 4]).convertFormat exampleHost .s64le).buffer
        (((examplePacket .s8 .stereo false 2 1 [1, 2, 3, 4]).convertFormat exampleHost .s64le).sample
          0 1) 0
      = 0xAAAAAAAAAAAAAAAA ∧
    scaleValueFrom exampleHost .native .native .qint8 .qint64 .qint64
        (loadWord .little .qint8 (examplePacket .s8 .stereo false 2 1 [1, 2, 3, 4]).buffer
          ((examplePacket .s8 .stereo false 2 1 [1, 2, 3, 4]).sample 0 1) 0)
      = 0x008080808080807F := by
  decide


theorem convertFormat_of_isValid (h : Host) (p : AkAudioPacket) (T : SampleFormat)
    (hv : (p.convertFormat h T).isValid = true) : Reformatted (p.convertFormat h T) p T := by
  obtain ⟨h1, h2⟩ := convertFormat_spec h p T
  cases hc : canConvertFormat h p.caps.format T with
  | false => rw [h2 hc, isValid_invalid] at hv; cases hv
  | true => exact h1 hc

/-! ### The conversion pipeline -/

theorem mixChannels_relaid (h : Host) (endian : EndianTag) (S Sum : CType)
    (sumFormat : SampleFormat) (layout : ChannelLayout) (p : AkAudioPacket) :
    Relaid (mixChannels h endian S Sum sumFormat layout p) p layout :=
  ⟨rfl, rfl, rfl, rfl, rfl⟩

theorem convertChannels_spec (h : Host) (p : AkAudioPacket) (layout : ChannelLayout) :
    (p.caps.format = .none → convertChannels h layout p = AkAudioPacket.invalid) ∧
    (p.caps.format ≠ .none → Relaid (convertChannels h layout p) p layout) := by
  unfold convertChannels
  cases hf : p.caps.format <;> simp [mixChannels_relaid]

theorem convertLayout_of_isValid (h : Host) (p : AkAudioPacket) (layout : ChannelLayout)
    (hv : (p.convertLayout h layout).isValid = true) :
    Relaid (p.convertLayout h layout) p layout := by
  unfold AkAudioPacket.convertLayout at hv ⊢
  by_cases hl : p.caps.layout = layout
  · rw [if_pos hl]
    exact ⟨by rw [← hl]; rfl, rfl, rfl, rfl, rfl⟩
  · rw [if_neg hl] at hv ⊢
    obtain ⟨h1, h2⟩ := convertChannels_spec h p layout
    by_cases hf : p.caps.format = .none
    · rw [h1 hf, isValid_invalid] at hv; cases hv
    · exact h2 hf

theorem convertPlanar_spec (h : Host) (p : AkAudioPacket) (planar : Bool) :
    (p.convertPlanar h planar).caps = p.caps.updatePlaneSize planar ∧
    (p.convertPlanar h planar).pts = p.pts ∧
    (p.convertPlanar h planar).timeBase = p.timeBase ∧
    (p.convertPlanar h planar).id = p.id ∧ (p.convertPlanar h planar).index = p.index := by
  unfold AkAudioPacket.convertPlanar
  by_cases hp : p.caps.planar = planar
  · rw [if_pos hp]
    exact ⟨by rw [← hp]; rfl, rfl, rfl, rfl, rfl⟩
  · rw [if_neg hp]
    cases planar <;> exact ⟨rfl, rfl, rfl, rfl, rfl⟩

/-- C5: `convert(target)` is the pipeline format → layout → planar, returning the invalid
buffer as soon as the format stage or the layout stage fails; a valid result has the
target's sample format, channel layout and planar flag, and the source's sample count and
sample rate. -/
theorem convert_eq_pipeline (h : Host) (p : AkAudioPacket) (target : AkAudioCaps) :
    ((p.convertFormat h target.format).isValid = false →
      p.convert h target = AkAudioPacket.invalid) ∧
    ((p.convertFormat h target.format).isValid = true →
      ((p.convertFormat h target.format).convertLayout h target.layout).isValid = false →
      p.convert h target = AkAudioPacket.invalid) ∧
    ((p.convertFormat h target.format).isValid = true →
      ((p.convertFormat h target.format).convertLayout h target.layout).isValid = true →
      p.convert h target =
        (((p.convertFormat h target.format).convertLayout h target.layout).convertPlanar h
          target.planar) ∧
      (p.convert h target).isValid = true) ∧
    ((p.convert h target).isValid = true →
      (p.convert h target).caps.format = target.format ∧
      (p.convert h target).caps.layout = target.layout ∧
      (p.convert h target).caps.planar = target.planar ∧
      (p.convert h target).caps.samples = p.caps.samples ∧
      (p.convert h target).caps.rate = p.caps.rate) := by
  have key : ∀ hf : (p.convertFormat h target.format).isValid = true,
      ∀ hl : ((p.convertFormat h target.format).convertLayout h target.layout).isValid = true,
      p.convert h target =
        (((p.convertFormat h target.format).convertLayout h target.layout).convertPlanar h
          target.planar) ∧
      (p.convert h target).caps =
        { p.caps with format := target.format, layout := target.layout,
                      planar := target.planar } := by
    intro hf hl
    have e : p.convert h target =
        (((p.convertFormat h target.format).convertLayout h target.layout).convertPlanar h
          target.planar) := by
      simp [AkAudioPacket.convert, hf, hl]
    refine ⟨e, ?_⟩
    rw [e, (convertPlanar_spec h _ _).1, (convertLayout_of_isValid h _ _ hl).1,
      (convertFormat_of_isValid h _ _ hf).1]
    rfl
  refine ⟨fun hf => by simp [AkAudioPacket.convert, hf],
    fun hf hl => by simp [AkAudioPacket.convert, hf, hl], fun hf hl => ?_, fun hv => ?_⟩
  · obtain ⟨e, hc⟩ := key hf hl
    refine ⟨e, ?_⟩
    have hv1 := (isValid_iff _).1 hl
    rw [(convertLayout_of_isValid h _ _ hl).1] at hv1
    rw [isValid_iff, hc]
    have hv0 := (isValid_iff _).1 hf
    rw [(convertFormat_of_isValid h _ _ hf).1] at hv0
    exact ⟨hv0.1, hv1.2⟩
  · cases hf : (p.convertFormat h target.format).isValid with
    | false =>
      simp [AkAudioPacket.convert, hf, isValid_invalid] at hv
    | true =>
      cases hl : ((p.convertFormat h target.format).convertLayout h target.layout).isValid with
      | false => simp [AkAudioPacket.convert, hf, hl, isValid_invalid] at hv
      | true =>
        obtain ⟨-, hc⟩ := key hf hl
        rw [hc]
        exact ⟨rfl, rfl, rfl, rfl, rfl⟩


/-! ### Byte buffers -/

theorem length_readBytes (buf : List Byte) (off n : Nat) : (readBytes buf off n).length = n := by
  simp [readBytes]

theorem length_writeBytes (buf : List Byte) (off : Nat) (chunk : List Byte) :
    (writeBytes buf off chunk).length = buf.length := by
  simp only [writeBytes, List.length_take, List.length_append, List.length_drop]
  omega

theorem getD_readBytes (buf : List Byte) (off n i : Nat) :
    (readBytes buf off n).getD i 0 = if i < n then buf.getD (off + i) 0 else 0 := by
  unfold readBytes
  by_cases hi : i < n
  · rw [if_pos hi, List.getD_eq_getElem _ _ (by simpa using hi)]
    simp
  · rw [if_neg hi, List.getD_eq_default _ _ (by simpa using hi)]

theorem getD_writeBytes (buf : List Byte) (off : Nat) (chunk : List Byte) (j : Nat) :
    (writeBytes buf off chunk).getD j 0 =
      if off ≤ j ∧ j < off + chunk.length ∧ j < buf.length then chunk.getD (j - off) 0
      else buf.getD j 0 := by
  unfold writeBytes
  by_cases hj : j < buf.length
  · simp only [List.getD_eq_getElem?_getD, List.getElem?_take]
    rw [if_pos hj]
    have hL : (List.take off buf).length = min off buf.length := List.length_take _ _
    have hLc : (List.take off buf ++ chunk).length = min off buf.length + chunk.length := by
      rw [List.length_append, hL]
    by_cases h1 : j < off
    · have hlt : j < (List.take off buf ++ chunk).length := by rw [hLc]; omega
      have hlt2 : j < (List.take off buf).length := by rw [hL]; omega
      rw [List.getElem?_append_left hlt, List.getElem?_append_left hlt2, List.getElem?_take,
        if_pos h1, if_neg (by omega)]
    · have hmin : min off buf.length = off := by omega
      rw [hmin] at hL hLc
      by_cases h2 : j < off + chunk.length
      · have hlt : j < (List.take off buf ++ chunk).length := by rw [hLc]; omega
        have hge : (List.take off buf).length ≤ j := by rw [hL]; omega
        rw [List.getElem?_append_left hlt, List.getElem?_append_right hge, hL,
          if_pos ⟨by omega, h2, hj⟩]
      · have hge : (List.take off buf ++ chunk).length ≤ j := by rw [hLc]; omega
        rw [List.getElem?_append_right hge, hLc, List.getElem?_drop, if_neg (by omega)]
        congr 2
        omega
  · have hlen : (List.take buf.length
        (List.take off buf ++ chunk ++ List.drop (off + chunk.length) buf)).length ≤ j := by
      simp only [List.length_take]; omega
    rw [List.getD_eq_default _ _ hlen, if_neg (by omega), List.getD_eq_default _ _ (by omega)]

theorem length_memcpy (dst : List Byte) (dOff : Nat) (src : List Byte) (sOff n : Nat) :
    (memcpy dst dOff src sOff n).length = dst.length := length_writeBytes _ _ _

theorem getD_memcpy (dst : List Byte) (dOff : Nat) (src : List Byte) (sOff n j : Nat) :
    (memcpy dst dOff src sOff n).getD j 0 =
      if dOff ≤ j ∧ j < dOff + n ∧ j < dst.length then src.getD (sOff + (j - dOff)) 0
      else dst.getD j 0 := by
  unfold memcpy
  rw [getD_writeBytes, length_readBytes]
  by_cases hc : dOff ≤ j ∧ j < dOff + n ∧ j < dst.length
  · rw [if_pos hc, if_pos hc, getD_readBytes, if_pos (by omega)]
  · rw [if_neg hc, if_neg hc]

theorem memcpy_zero (dst : List Byte) (dOff : Nat) (src : List Byte) (sOff : Nat) :
    memcpy dst dOff src sOff 0 = dst := by
  simp [memcpy, readBytes, writeBytes]

theorem ext_getD {a b : List Byte} (hlen : a.length = b.length)
    (hget : ∀ j, j < a.length → a.getD j 0 = b.getD j 0) : a = b := by
  apply List.ext_getElem hlen
  intro j h1 h2
  have := hget j h1
  rwa [List.getD_eq_getElem _ _ h1, List.getD_eq_getElem _ _ h2] at this


theorem readBytes_add (buf : List Byte) (off m n : Nat) :
    readBytes buf off (m + n) = readBytes buf off m ++ readBytes buf (off + m) n := by
  apply ext_getD
  · simp [length_readBytes]
  · intro j hj
    rw [length_readBytes] at hj
    rw [getD_readBytes, if_pos hj]
    by_cases h1 : j < m
    · rw [List.getD_append _ _ _ _ (by rw [length_readBytes]; exact h1), getD_readBytes,
        if_pos h1]
    · rw [List.getD_append_right _ _ _ _ (by rw [length_readBytes]; omega), length_readBytes,
        getD_readBytes, if_pos (by omega)]
      congr 1
      omega

theorem readBytes_congr {x y : List Byte} {o1 o2 n : Nat}
    (hxy : ∀ i, i < n → x.getD (o1 + i) 0 = y.getD (o2 + i) 0) :
    readBytes x o1 n = readBytes y o2 n := by
  unfold readBytes
  apply List.map_congr_left
  intro i hi
  exact hxy i (List.mem_range.1 hi)

theorem foldl_range_getD (step : Nat → List Byte → List Byte) (R : Nat → Nat → Prop)
    (v : Nat → Nat → Byte) (k : Nat)
    (hlen : ∀ q buf, q < k → (step q buf).length = buf.length)
    (hout : ∀ q buf j, q < k → ¬ R q j → (step q buf).getD j 0 = buf.getD j 0)
    (hin : ∀ q buf j, q < k → R q j → j < buf.length → (step q buf).getD j 0 = v q j)
    (hdisj : ∀ q q' j, q < k → q' < k → R q j → R q' j → q = q')
    (buf0 : List Byte) :
    ((List.range k).foldl (fun buf q => step q buf) buf0).length = buf0.length ∧
    (∀ q j, q < k → R q j → j < buf0.length →
      ((List.range k).foldl (fun buf q => step q buf) buf0).getD j 0 = v q j) ∧
    (∀ j, (∀ q, q < k → ¬ R q j) →
      ((List.range k).foldl (fun buf q => step q buf) buf0).getD j 0 = buf0.getD j 0) := by
  induction k with
  | zero => simp
  | succ k ih =>
    obtain ⟨ih1, ih2, ih3⟩ := ih (fun q buf hq => hlen q buf (by omega))
      (fun q buf j hq => hout q buf j (by omega))
      (fun q buf j hq => hin q buf j (by omega))
      (fun q q' j hq hq' => hdisj q q' j (by omega) (by omega))
    simp only [List.range_succ, List.foldl_append, List.foldl_cons, List.foldl_nil]
    refine ⟨by rw [hlen k _ (by omega), ih1], fun q j hq hR hj => ?_, fun j hj => ?_⟩
    · by_cases hqk : q = k
      · subst hqk
        exact hin q _ j (by omega) hR (by rw [ih1]; exact hj)
      · have hnR : ¬ R k j := fun hk => hqk (hdisj q k j hq (by omega) hR hk)
        rw [hout k _ j (by omega) hnR]
        exact ih2 q j (by omega) hR hj
    · rw [hout k _ j (by omega) (hj k (by omega))]
      exact ih3 j (fun q hq => hj q (by omega))


/-! ### Plane geometry -/

theorem SampleFormat.bps_eq (f : SampleFormat) : f.bps = 8 * (f.bps / 8) := by
  cases f <;> rfl

theorem AkAudioCaps.bps_mul_div (c : AkAudioCaps) (n : Nat) :
    c.bps * n / 8 = c.bps / 8 * n := by
  unfold AkAudioCaps.bps
  have h := SampleFormat.bps_eq c.format
  generalize c.format.bps / 8 = k at h
  rw [h, Nat.mul_assoc, Nat.mul_div_cancel_left _ (by omega : 0 < 8)]

theorem AkAudioCaps.bytesPerPlane_setSamples_add (c : AkAudioCaps) (m n : Nat) :
    (c.setSamples (m + n)).bytesPerPlane =
      (c.setSamples m).bytesPerPlane + (c.setSamples n).bytesPerPlane := by
  have h1 := AkAudioCaps.bps_mul_div c (m + n)
  have h2 := AkAudioCaps.bps_mul_div c m
  have h3 := AkAudioCaps.bps_mul_div c n
  simp only [AkAudioCaps.bytesPerPlane, AkAudioCaps.setSamples, AkAudioCaps.bps,
    AkAudioCaps.channels] at *
  rw [h1, h2, h3]
  split <;> ring

theorem AkAudioCaps.le_alignUp (n a : Nat) : n ≤ AkAudioCaps.alignUp n a := by
  unfold AkAudioCaps.alignUp
  split
  · exact Nat.le_refl _
  · rename_i ha
    have h1 := Nat.div_add_mod (n + a - 1) a
    have h2 := Nat.mod_lt (n + a - 1) (Nat.pos_of_ne_zero ha)
    rw [Nat.mul_comm] at h1
    omega

theorem AkAudioCaps.planeSize_getD (c : AkAudioCaps) (plane : Nat) (h : plane < c.planes) :
    c.planeSize.getD plane 0 = AkAudioCaps.alignUp c.bytesPerPlane c.align := by
  unfold AkAudioCaps.planeSize
  rw [List.getD_eq_getElem _ _ (by simpa using h)]
  simp

theorem AkAudioCaps.planeOffset_eq (c : AkAudioCaps) (plane : Nat) (h : plane ≤ c.planes) :
    c.planeOffset plane = plane * AkAudioCaps.alignUp c.bytesPerPlane c.align := by
  unfold AkAudioCaps.planeOffset AkAudioCaps.planeSize
  rw [List.take_replicate, List.sum_replicate, Nat.min_eq_left h]
  simp

theorem AkAudioCaps.frameSize_eq (c : AkAudioCaps) :
    c.frameSize = c.planes * AkAudioCaps.alignUp c.bytesPerPlane c.align := by
  unfold AkAudioCaps.frameSize AkAudioCaps.planeSize
  rw [List.sum_replicate]
  simp

theorem AkAudioPacket.length_alloc (h : Host) (c : AkAudioCaps) :
    (AkAudioPacket.alloc h c).buffer.length = c.frameSize := by
  simp [AkAudioPacket.alloc]


/-! ### Concatenation -/

theorem convert_same_descriptor (h : Host) (b : AkAudioPacket) (caps : AkAudioCaps)
    (hb : b.isValid = true) (hf : b.caps.format = caps.format)
    (hl : b.caps.layout = caps.layout) (hp : b.caps.planar = caps.planar) :
    b.convert h caps = b := by
  have e1 : b.convertFormat h caps.format = b := by
    simp [AkAudioPacket.convertFormat, hf]
  have e2 : b.convertLayout h caps.layout = b := by
    simp [AkAudioPacket.convertLayout, hl]
  have e3 : b.convertPlanar h caps.planar = b := by
    simp [AkAudioPacket.convertPlanar, hp]
  simp [AkAudioPacket.convert, e1, e2, e3, hb]

/-- The bytes of the plane loop of `operator +`: in every plane of `packet`,
the first `start` bytes are those of the plane of `this`, and the next
`other.caps.bytesPerPlane` bytes are those of the plane of `other`. -/
theorem concatLoop_spec (this other packet : AkAudioPacket) (caps : AkAudioCaps)
    (hcaps : packet.caps = caps)
    (hlen : packet.buffer.length = caps.frameSize)
    (hfit : this.caps.bytesPerPlane + other.caps.bytesPerPlane ≤ caps.bytesPerPlane) :
    (AkAudioPacket.concatLoop this other packet caps).length = packet.buffer.length ∧
    ∀ plane, plane < caps.planes →
      readBytes (AkAudioPacket.concatLoop this other packet caps) (packet.planeData plane)
          this.caps.bytesPerPlane
        = readBytes this.buffer (this.planeData plane) this.caps.bytesPerPlane ∧
      readBytes (AkAudioPacket.concatLoop this other packet caps)
          (packet.planeData plane + this.caps.bytesPerPlane) other.caps.bytesPerPlane
        = readBytes other.buffer (other.planeData plane) other.caps.bytesPerPlane := by
  set A := this.caps.bytesPerPlane with hA
  set B := other.caps.bytesPerPlane with hB
  set S := AkAudioCaps.alignUp caps.bytesPerPlane caps.align with hS
  have hSle : A + B ≤ S := le_trans hfit (AkAudioCaps.le_alignUp _ _)
  have hoff : ∀ q, q < caps.planes → packet.planeData q = q * S := by
    intro q hq
    simp only [AkAudioPacket.planeData, hcaps]
    exact AkAudioCaps.planeOffset_eq caps q (by omega)
  have hframe : packet.buffer.length = caps.planes * S := by
    rw [hlen, AkAudioCaps.frameSize_eq]
  have hin_bounds : ∀ q j, q < caps.planes → j < q * S + (A + B) →
      j < packet.buffer.length := by
    intro q j hq hj
    rw [hframe]
    have : (q + 1) * S ≤ caps.planes * S := Nat.mul_le_mul_right S (by omega)
    rw [Nat.add_mul, Nat.one_mul] at this
    omega
  have key := foldl_range_getD
    (fun plane buf =>
      memcpy (memcpy buf (packet.planeData plane) this.buffer (this.planeData plane) A)
        (packet.planeData plane + A) other.buffer (other.planeData plane) B)
    (fun q j => q * S ≤ j ∧ j < q * S + (A + B))
    (fun q j => if j < q * S + A then this.buffer.getD (this.planeData q + (j - q * S)) 0
      else other.buffer.getD (other.planeData q + (j - (q * S + A))) 0)
    caps.planes
    (fun q buf hq => by simp only [length_memcpy])
    (fun q buf j hq hR => by
      simp only [getD_memcpy, length_memcpy, hoff q hq]
      rw [if_neg (by omega), if_neg (by omega)])
    (fun q buf j hq hR hj => by
      simp only [getD_memcpy, length_memcpy, hoff q hq]
      by_cases h1 : j < q * S + A
      · rw [if_neg (by omega), if_pos ⟨hR.1, h1, hj⟩, if_pos h1]
      · rw [if_pos ⟨by omega, by omega, hj⟩, if_neg h1])
    (fun q q' j hq hq' hR hR' => by
      by_contra hne
      rcases Nat.lt_or_gt_of_ne hne with hlt | hlt
      · have : (q + 1) * S ≤ q' * S := Nat.mul_le_mul_right S hlt
        rw [Nat.add_mul, Nat.one_mul] at this
        omega
      · have : (q' + 1) * S ≤ q * S := Nat.mul_le_mul_right S hlt
        rw [Nat.add_mul, Nat.one_mul] at this
        omega)
    packet.buffer
  obtain ⟨k1, k2, -⟩ := key
  refine ⟨k1, fun plane hplane => ⟨?_, ?_⟩⟩
  · apply readBytes_congr
    intro i hi
    have := k2 plane (packet.planeData plane + i) hplane
      (by rw [hoff plane hplane]; omega)
      (hin_bounds plane _ hplane (by rw [hoff plane hplane]; omega))
    unfold AkAudioPacket.concatLoop
    rw [this, hoff plane hplane, if_pos (by omega)]
    congr 2
    omega
  · apply readBytes_congr
    intro i hi
    have := k2 plane (packet.planeData plane + A + i) hplane
      (by rw [hoff plane hplane]; omega)
      (hin_bounds plane _ hplane (by rw [hoff plane hplane]; omega))
    unfold AkAudioPacket.concatLoop
    rw [this, hoff plane hplane, if_neg (by omega)]
    congr 2
    omega


theorem AkAudioCaps.bytesPerPlane_congr (c d : AkAudioCaps) (hf : c.format = d.format)
    (hl : c.layout = d.layout) (hp : c.planar = d.planar) (hs : c.samples = d.samples) :
    c.bytesPerPlane = d.bytesPerPlane := by
  simp [AkAudioCaps.bytesPerPlane, AkAudioCaps.bps, AkAudioCaps.channels, hf, hl, hp, hs]

/-- Concatenation of two packets that agree on format, layout and planar flag. -/
theorem operator_plus_spec (h : Host) (a b : AkAudioPacket) (hb : b.isValid = true)
    (hf : b.caps.format = a.caps.format) (hl : b.caps.layout = a.caps.layout)
    (hp : b.caps.planar = a.caps.planar) :
    (a.operator_plus h b).caps = a.caps.setSamples (a.caps.samples + b.caps.samples) ∧
    (a.operator_plus h b).buffer.length = (a.operator_plus h b).caps.frameSize ∧
    (∀ plane, plane < a.caps.planes →
      (a.operator_plus h b).planeBytes plane = a.planeBytes plane ++ b.planeBytes plane) ∧
    ((a.operator_plus h b).pts = b.pts ∧ (a.operator_plus h b).timeBase = b.timeBase ∧
      (a.operator_plus h b).index = b.index ∧ (a.operator_plus h b).id = b.id) ∧
    a.operator_plus_assign h b = a.operator_plus h b := by
  have hconv := convert_same_descriptor h b a.caps hb hf hl hp
  have hsum : (a.caps.setSamples (a.caps.samples + b.caps.samples)).bytesPerPlane
      = a.caps.bytesPerPlane + b.caps.bytesPerPlane := by
    rw [AkAudioCaps.bytesPerPlane_setSamples_add]
    congr 1
    exact AkAudioCaps.bytesPerPlane_congr _ _ hf.symm hl.symm hp.symm rfl
  have hspec := concatLoop_spec a b
    ((AkAudioPacket.alloc h (a.caps.setSamples (a.caps.samples + b.caps.samples))).copyMetadata b)
    (a.caps.setSamples (a.caps.samples + b.caps.samples)) rfl
    (AkAudioPacket.length_alloc h _) (by rw [hsum])
  have hplus : a.operator_plus h b =
      ⟨a.caps.setSamples (a.caps.samples + b.caps.samples),
        AkAudioPacket.concatLoop a b
          ((AkAudioPacket.alloc h
            (a.caps.setSamples (a.caps.samples + b.caps.samples))).copyMetadata b)
          (a.caps.setSamples (a.caps.samples + b.caps.samples)),
        b.pts, b.timeBase, b.id, b.index⟩ := by
    simp [AkAudioPacket.operator_plus, hconv, hb, AkAudioPacket.copyMetadata,
      AkAudioPacket.alloc]
  refine ⟨by rw [hplus], ?_, ?_, by rw [hplus]; exact ⟨rfl, rfl, rfl, rfl⟩, ?_⟩
  · rw [hplus]
    show (AkAudioPacket.concatLoop a b _ _).length = _
    rw [hspec.1]
    exact AkAudioPacket.length_alloc h _
  · intro plane hplane
    obtain ⟨r1, r2⟩ := hspec.2 plane hplane
    rw [hplus]
    show readBytes (AkAudioPacket.concatLoop a b _ _) _ _ = _
    show readBytes (AkAudioPacket.concatLoop a b _ _) _
      (a.caps.setSamples (a.caps.samples + b.caps.samples)).bytesPerPlane = _
    rw [hsum, readBytes_add]
    exact congrArg₂ (· ++ ·) r1 r2
  · simp [AkAudioPacket.operator_plus_assign, AkAudioPacket.operator_plus]


/-- C9: for valid `a` and `b` with the same sample format, channel layout and planar flag,
`a + b` has `a`'s descriptor with `a.samples + b.samples` samples, each of its planes holds
`a`'s plane bytes immediately followed by `b`'s plane bytes, its metadata is `b`'s, and
`a += b` leaves `a` equal to the packet `a + b` returns (`operator +` itself returns a new
packet and does not assign to `a`). -/
theorem operator_plus_same_descriptor (h : Host) (a b : AkAudioPacket)
    (_ha : a.isValid = true) (hb : b.isValid = true)
    (hf : b.caps.format = a.caps.format) (hl : b.caps.layout = a.caps.layout)
    (hp : b.caps.planar = a.caps.planar) :
    (a.operator_plus h b).caps = a.caps.setSamples (a.caps.samples + b.caps.samples) ∧
    (a.operator_plus h b).buffer.length = (a.operator_plus h b).caps.frameSize ∧
    (∀ plane, plane < a.caps.planes →
      (a.operator_plus h b).planeBytes plane = a.planeBytes plane ++ b.planeBytes plane) ∧
    ((a.operator_plus h b).pts = b.pts ∧ (a.operator_plus h b).timeBase = b.timeBase ∧
      (a.operator_plus h b).index = b.index ∧ (a.operator_plus h b).id = b.id) ∧
    a.operator_plus_assign h b = a.operator_plus h b :=
  operator_plus_spec h a b hb hf hl hp

/-- Witness of C9 on two mono 16-bit packets of one and two samples. -/
theorem operator_plus_same_descriptor_witness :
    ((examplePacket .s16le .mono false 1 1 [1, 2]).isValid = true ∧
      (examplePacket .s16le .mono false 2 1 [3, 4, 5, 6]).isValid = true) ∧
    ((examplePacket .s16le .mono false 1 1 [1, 2]).operator_plus exampleHost
        (examplePacket .s16le .mono false 2 1 [3, 4, 5, 6])).caps
      = (examplePacket .s16le .mono false 1 1 [1, 2]).caps.setSamples (1 + 2) ∧
    ((examplePacket .s16le .mono false 1 1 [1, 2]).operator_plus exampleHost
        (examplePacket .s16le .mono false 2 1 [3, 4, 5, 6])).planeBytes 0
      = (examplePacket .s16le .mono false 1 1 [1, 2]).planeBytes 0
        ++ (examplePacket .s16le .mono false 2 1 [3, 4, 5, 6]).planeBytes 0 :=
  ⟨⟨rfl, rfl⟩,
    (operator_plus_same_descriptor exampleHost (examplePacket .s16le .mono false 1 1 [1, 2])
      (examplePacket .s16le .mono false 2 1 [3, 4, 5, 6]) rfl rfl rfl rfl rfl).1,
    (operator_plus_same_descriptor exampleHost (examplePacket .s16le .mono false 1 1 [1, 2])
      (examplePacket .s16le .mono false 2 1 [3, 4, 5, 6]) rfl rfl rfl rfl rfl).2.2.1 0
      (by decide)⟩

/-! ### Splitting (`pop`) -/

theorem foldl_pair {α β γ : Type} (f : α → γ → α) (g : β → γ → β) (l : List γ) (a : α) (b : β) :
    l.foldl (fun (s : α × β) x => (f s.1 x, g s.2 x)) (a, b) = (l.foldl f a, l.foldl g b) := by
  induction l generalizing a b with
  | nil => rfl
  | cons x xs ih => simp only [List.foldl_cons, ih]

theorem ite_memcpy (dst : List Byte) (dOff : Nat) (src : List Byte) (sOff n : Nat) :
    (if n > 0 then memcpy dst dOff src sOff n else dst) = memcpy dst dOff src sOff n := by
  split
  · rfl
  · have : n = 0 := by omega
    subst this
    exact (memcpy_zero _ _ _ _).symm

theorem popLoop_eq (this dst tmpPacket : AkAudioPacket) :
    AkAudioPacket.popLoop this dst tmpPacket =
      ((List.range dst.caps.planes).foldl (fun buf plane =>
          memcpy buf (dst.planeData plane) this.buffer (this.planeData plane)
            (dst.caps.planeSize.getD plane 0)) dst.buffer,
       (List.range dst.caps.planes).foldl (fun buf plane =>
          memcpy buf (tmpPacket.planeData plane) this.buffer
            (this.planeData plane + dst.caps.planeSize.getD plane 0)
            (tmpPacket.caps.planeSize.getD plane 0)) tmpPacket.buffer) := by
  unfold AkAudioPacket.popLoop
  simp only [ite_memcpy]
  exact foldl_pair
    (fun buf plane =>
      memcpy buf (dst.planeData plane) this.buffer (this.planeData plane)
        (dst.caps.planeSize.getD plane 0))
    (fun buf plane =>
      memcpy buf (tmpPacket.planeData plane) this.buffer
        (this.planeData plane + dst.caps.planeSize.getD plane 0)
        (tmpPacket.caps.planeSize.getD plane 0)) _ _ _

/-- A fold of one `memcpy` per plane into a buffer laid out by `caps`: every
plane of the destination receives the bytes found at `src plane`. -/
theorem planeCopy_spec (caps : AkAudioCaps) (buf0 source : List Byte) (src : Nat → Nat)
    (hlen : buf0.length = caps.frameSize) :
    ((List.range caps.planes).foldl (fun buf plane =>
        memcpy buf (caps.planeOffset plane) source (src plane) (caps.planeSize.getD plane 0))
      buf0).length = buf0.length ∧
    ∀ plane i, plane < caps.planes → i < AkAudioCaps.alignUp caps.bytesPerPlane caps.align →
      ((List.range caps.planes).foldl (fun buf plane =>
        memcpy buf (caps.planeOffset plane) source (src plane) (caps.planeSize.getD plane 0))
      buf0).getD (caps.planeOffset plane + i) 0 = source.getD (src plane + i) 0 := by
  obtain ⟨S, hS⟩ : ∃ S, S = AkAudioCaps.alignUp caps.bytesPerPlane caps.align := ⟨_, rfl⟩
  have hoff : ∀ q, q ≤ caps.planes → caps.planeOffset q = q * S := by
    intro q hq; rw [hS]; exact AkAudioCaps.planeOffset_eq caps q hq
  have hsz : ∀ q, q < caps.planes → caps.planeSize.getD q 0 = S := by
    intro q hq; rw [hS]; exact AkAudioCaps.planeSize_getD caps q hq
  rw [← hS]
  have hframe : buf0.length = caps.planes * S := by
    rw [hlen, AkAudioCaps.frameSize_eq, hS]
  have hin_bounds : ∀ q j, q < caps.planes → j < q * S + S → j < buf0.length := by
    intro q j hq hj
    rw [hframe]
    have : (q + 1) * S ≤ caps.planes * S := Nat.mul_le_mul_right S (by omega)
    rw [Nat.add_mul, Nat.one_mul] at this
    omega
  have key := foldl_range_getD
    (fun plane buf =>
      memcpy buf (caps.planeOffset plane) source (src plane) (caps.planeSize.getD plane 0))
    (fun q j => q * S ≤ j ∧ j < q * S + S)
    (fun q j => source.getD (src q + (j - q * S)) 0)
    caps.planes
    (fun q buf hq => by simp only [length_memcpy])
    (fun q buf j hq hR => by
      simp only [getD_memcpy, hoff q (Nat.le_of_lt hq), hsz q hq]
      rw [if_neg (by omega)])
    (fun q buf j hq hR hj => by
      simp only [getD_memcpy, hoff q (Nat.le_of_lt hq), hsz q hq]
      rw [if_pos ⟨hR.1, hR.2, hj⟩])
    (fun q q' j hq hq' hR hR' => by
      by_contra hne
      rcases Nat.lt_or_gt_of_ne hne with hlt | hlt
      · have : (q + 1) * S ≤ q' * S := Nat.mul_le_mul_right S hlt
        rw [Nat.add_mul, Nat.one_mul] at this
        omega
      · have : (q' + 1) * S ≤ q * S := Nat.mul_le_mul_right S hlt
        rw [Nat.add_mul, Nat.one_mul] at this
        omega)
    buf0
  obtain ⟨k1, k2, -⟩ := key
  refine ⟨k1, fun plane i hplane hi => ?_⟩
  have hoffp := hoff plane (by omega)
  have := k2 plane (caps.planeOffset plane + i) hplane (by rw [hoffp]; omega)
    (hin_bounds plane _ hplane (by rw [hoffp]; omega))
  rw [this, hoffp]
  congr 2
  omega


theorem pop_eq (h : Host) (p : AkAudioPacket) (n : Int) (m : Nat)
    (hm : (m : Int) = min (p.caps.samples : Int) n) (h1 : 1 ≤ m) :
    p.pop h n =
      (⟨p.caps.setSamples m,
        (AkAudioPacket.popLoop p ((AkAudioPacket.alloc h (p.caps.setSamples m)).copyMetadata p)
          ((AkAudioPacket.alloc h (p.caps.setSamples (p.caps.samples - m))).copyMetadata p)).1,
        p.pts, p.timeBase, p.id, p.index⟩,
       ⟨p.caps.setSamples (p.caps.samples - m),
        (AkAudioPacket.popLoop p ((AkAudioPacket.alloc h (p.caps.setSamples m)).copyMetadata p)
          ((AkAudioPacket.alloc h (p.caps.setSamples (p.caps.samples - m))).copyMetadata p)).2,
        p.pts, p.timeBase, p.id, p.index⟩) := by
  have hnot : ¬ (min (p.caps.samples : Int) n < 1) := by omega
  have htn : (min (p.caps.samples : Int) n).toNat = m := by omega
  unfold AkAudioPacket.pop
  simp only [hnot, if_false, htn]
  rfl

theorem pop_planes (h : Host) (p : AkAudioPacket) (n : Int) (m : Nat)
    (hm : (m : Int) = min (p.caps.samples : Int) n) (h1 : 1 ≤ m)
    (hpad : (p.caps.setSamples m).unpadded) :
    (p.pop h n).1.buffer.length = (p.caps.setSamples m).frameSize ∧
    (p.pop h n).2.buffer.length = (p.caps.setSamples (p.caps.samples - m)).frameSize ∧
    ∀ plane, plane < p.caps.planes →
      (p.pop h n).1.planeBytes plane
        = readBytes p.buffer (p.planeData plane) (p.caps.setSamples m).bytesPerPlane ∧
      (p.pop h n).2.planeBytes plane
        = readBytes p.buffer (p.planeData plane + (p.caps.setSamples m).bytesPerPlane)
            (p.caps.setSamples (p.caps.samples - m)).bytesPerPlane := by
  rw [pop_eq h p n m hm h1, popLoop_eq]
  have hF := planeCopy_spec (p.caps.setSamples m)
    ((AkAudioPacket.alloc h (p.caps.setSamples m)).copyMetadata p).buffer p.buffer
    (fun q => p.planeData q) (AkAudioPacket.length_alloc h _)
  have hR := planeCopy_spec (p.caps.setSamples (p.caps.samples - m))
    ((AkAudioPacket.alloc h (p.caps.setSamples (p.caps.samples - m))).copyMetadata p).buffer
    p.buffer (fun q => p.planeData q + (p.caps.setSamples m).planeSize.getD q 0)
    (AkAudioPacket.length_alloc h _)
  refine ⟨?_, ?_, fun plane hplane => ⟨?_, ?_⟩⟩
  · exact hF.1.trans (AkAudioPacket.length_alloc h _)
  · exact hR.1.trans (AkAudioPacket.length_alloc h _)
  · apply readBytes_congr
    intro i hi
    exact hF.2 plane i hplane (lt_of_lt_of_le hi (AkAudioCaps.le_alignUp _ _))
  · apply readBytes_congr
    intro i hi
    have := hR.2 plane i hplane (lt_of_lt_of_le hi (AkAudioCaps.le_alignUp _ _))
    have hsz : (p.caps.setSamples m).planeSize.getD plane 0
        = (p.caps.setSamples m).bytesPerPlane := by
      rw [AkAudioCaps.planeSize_getD (p.caps.setSamples m) plane hplane]; exact hpad
    beta_reduce at this
    rw [hsz] at this
    exact this


theorem pop_invalid (h : Host) (p : AkAudioPacket) (n : Int)
    (hn : n < 1 ∨ p.caps.samples = 0) : p.pop h n = (AkAudioPacket.invalid, p) := by
  have hlt : min (p.caps.samples : Int) n < 1 := by
    rcases hn with hn | hn
    · exact lt_of_le_of_lt (min_le_right _ _) hn
    · rw [hn]; exact lt_of_le_of_lt (min_le_left _ _) (by decide)
  unfold AkAudioPacket.pop
  simp only [hlt, if_true]

/-- C8: for every `n < 1`, and for every `n` when the buffer holds no sample, `pop(n)`
returns the invalid buffer and leaves the original unchanged. -/
theorem pop_lt_one_invalid_untouched (h : Host) (p : AkAudioPacket) (n : Int)
    (hn : n < 1 ∨ p.caps.samples = 0) :
    (p.pop h n).1 = AkAudioPacket.invalid ∧ (p.pop h n).2 = p := by
  rw [pop_invalid h p n hn]
  exact ⟨rfl, rfl⟩

/-- Witness of C8 at `n = 0` on a 10-sample packet. -/
theorem pop_lt_one_invalid_untouched_witness :
    ((0 : Int) < 1 ∨
      (examplePacket .s8 .mono false 10 1 [0, 1, 2, 3, 4, 5, 6, 7, 8, 9]).caps.samples = 0) ∧
    ((examplePacket .s8 .mono false 10 1 [0, 1, 2, 3, 4, 5, 6, 7, 8, 9]).pop exampleHost 0).1
      = AkAudioPacket.invalid ∧
    ((examplePacket .s8 .mono false 10 1 [0, 1, 2, 3, 4, 5, 6, 7, 8, 9]).pop exampleHost 0).2
      = examplePacket .s8 .mono false 10 1 [0, 1, 2, 3, 4, 5, 6, 7, 8, 9] :=
  ⟨Or.inl (by decide),
    pop_lt_one_invalid_untouched exampleHost
      (examplePacket .s8 .mono false 10 1 [0, 1, 2, 3, 4, 5, 6, 7, 8, 9]) 0
      (Or.inl (by decide))⟩

theorem AkAudioCaps.bytesPerPlane_split (c : AkAudioCaps) (m : Nat) (hm : m ≤ c.samples) :
    c.bytesPerPlane = (c.setSamples m).bytesPerPlane
      + (c.setSamples (c.samples - m)).bytesPerPlane := by
  rw [← AkAudioCaps.bytesPerPlane_setSamples_add, Nat.add_sub_cancel' hm]
  rfl

/-- C7 (amended): for a valid buffer with `N ≥ 1` samples, `n ≥ 1` and `m = min(n, N)`, when
the front piece of `m` samples carries no alignment padding, `pop(n)` returns a front buffer
of `m` samples whose planes hold the bytes of the first `m` samples of the original planes,
and leaves the original with `N - m` samples holding the remaining bytes of each plane;
both keep the original descriptor fields and metadata, and the counts sum to `N`. -/
theorem pop_splits_planes (h : Host) (p : AkAudioPacket) (n : Int) (m : Nat)
    (_hv : p.isValid = true) (hN : 1 ≤ p.caps.samples) (hn : 1 ≤ n)
    (hm : (m : Int) = min (p.caps.samples : Int) n)
    (hpad : (p.caps.setSamples m).unpadded) :
    (p.pop h n).1.caps = p.caps.setSamples m ∧
    (p.pop h n).2.caps = p.caps.setSamples (p.caps.samples - m) ∧
    (p.pop h n).1.caps.samples + (p.pop h n).2.caps.samples = p.caps.samples ∧
    (∀ plane, plane < p.caps.planes →
      (p.pop h n).1.planeBytes plane
        = (p.planeBytes plane).take (p.caps.setSamples m).bytesPerPlane ∧
      (p.pop h n).2.planeBytes plane
        = (p.planeBytes plane).drop (p.caps.setSamples m).bytesPerPlane) ∧
    ((p.pop h n).1.pts = p.pts ∧ (p.pop h n).1.timeBase = p.timeBase ∧
      (p.pop h n).1.index = p.index ∧ (p.pop h n).1.id = p.id) ∧
    ((p.pop h n).2.pts = p.pts ∧ (p.pop h n).2.timeBase = p.timeBase ∧
      (p.pop h n).2.index = p.index ∧ (p.pop h n).2.id = p.id) := by
  have h1 : 1 ≤ m := by omega
  have hle : m ≤ p.caps.samples := by omega
  obtain ⟨-, -, hplanes⟩ := pop_planes h p n m hm h1 hpad
  have hsplit := AkAudioCaps.bytesPerPlane_split p.caps m hle
  have hpb : ∀ plane, p.planeBytes plane =
      readBytes p.buffer (p.planeData plane) (p.caps.setSamples m).bytesPerPlane
      ++ readBytes p.buffer (p.planeData plane + (p.caps.setSamples m).bytesPerPlane)
          (p.caps.setSamples (p.caps.samples - m)).bytesPerPlane := by
    intro plane
    unfold AkAudioPacket.planeBytes
    rw [hsplit, readBytes_add]
  have hcaps := pop_eq h p n m hm h1
  refine ⟨by rw [hcaps], by rw [hcaps], ?_, fun plane hplane => ?_, by rw [hcaps]; exact ⟨rfl, rfl, rfl, rfl⟩,
    by rw [hcaps]; exact ⟨rfl, rfl, rfl, rfl⟩⟩
  · rw [hcaps]
    show m + (p.caps.samples - m) = p.caps.samples
    omega
  · obtain ⟨r1, r2⟩ := hplanes plane hplane
    rw [r1, r2, hpb plane]
    constructor
    · rw [List.take_left' (length_readBytes _ _ _)]
    · rw [List.drop_left' (length_readBytes _ _ _)]

set_option maxRecDepth 1000000 in
/-- Witness of C7 (amended): `pop(3)` on a 10-sample packet gives 3 and 7 samples. -/
theorem pop_splits_planes_witness :
    ((examplePacket .s8 .mono false 10 1 [0, 1, 2, 3, 4, 5, 6, 7, 8, 9]).isValid = true ∧
      1 ≤ (examplePacket .s8 .mono false 10 1 [0, 1, 2, 3, 4, 5, 6, 7, 8, 9]).caps.samples ∧
      (1 : Int) ≤ 3) ∧
    ((examplePacket .s8 .mono false 10 1 [0, 1, 2, 3, 4, 5, 6, 7, 8, 9]).pop exampleHost 3).1.caps
      = (examplePacket .s8 .mono false 10 1 [0, 1, 2, 3, 4, 5, 6, 7, 8, 9]).caps.setSamples 3 ∧
    ((examplePacket .s8 .mono false 10 1 [0, 1, 2, 3, 4, 5, 6, 7, 8, 9]).pop exampleHost 3).2.caps
      = (examplePacket .s8 .mono false 10 1 [0, 1, 2, 3, 4, 5, 6, 7, 8, 9]).caps.setSamples
          (10 - 3) :=
  ⟨⟨rfl, by decide, by decide⟩,
    (pop_splits_planes exampleHost
      (examplePacket .s8 .mono false 10 1 [0, 1, 2, 3, 4, 5, 6, 7, 8, 9]) 3 3 rfl (by decide)
      (by decide) (by decide) (by decide)).1,
    (pop_splits_planes exampleHost
      (examplePacket .s8 .mono false 10 1 [0, 1, 2, 3, 4, 5, 6, 7, 8, 9]) 3 3 rfl (by decide)
      (by decide) (by decide) (by decide)).2.1⟩

set_option maxRecDepth 1000000 in
/-- Counterexample to C7 as stated: a valid buffer holding no sample (what `pop` leaves
behind once every sample has been taken); `pop(1)` returns the invalid buffer, which has
neither the format nor the metadata of the original. -/
theorem pop_of_empty_buffer_is_invalid :
    (examplePacket .s16le .mono false 0 1 []).isValid = true ∧
    (examplePacket .s16le .mono false 0 1 []).buffer.length
      = (examplePacket .s16le .mono false 0 1 []).caps.frameSize ∧
    ((examplePacket .s16le .mono false 0 1 []).pop exampleHost 1).1 = AkAudioPacket.invalid ∧
    ((examplePacket .s16le .mono false 0 1 []).pop exampleHost 1).1.isValid = false ∧
    ((examplePacket .s16le .mono false 0 1 []).pop exampleHost 1).1.caps.format
      ≠ (examplePacket .s16le .mono false 0 1 []).caps.format ∧
    ((examplePacket .s16le .mono false 0 1 []).pop exampleHost 1).1.pts
      ≠ (examplePacket .s16le .mono false 0 1 []).pts := by
  decide


theorem AkAudioPacket.eq_of_fields (x y : AkAudioPacket) (h1 : x.caps = y.caps)
    (h2 : x.buffer = y.buffer) (h3 : x.pts = y.pts) (h4 : x.timeBase = y.timeBase)
    (h5 : x.id = y.id) (h6 : x.index = y.index) : x = y := by
  cases x
  cases y
  simp only [AkAudioPacket.mk.injEq]
  exact ⟨h1, h2, h3, h4, h5, h6⟩

theorem eq_of_planes_eq (c : AkAudioCaps) (x y : List Byte)
    (hx : x.length = c.frameSize) (hy : y.length = c.frameSize) (hpad : c.unpadded)
    (hplanes : ∀ plane, plane < c.planes →
      readBytes x (c.planeOffset plane) c.bytesPerPlane
        = readBytes y (c.planeOffset plane) c.bytesPerPlane) : x = y := by
  apply ext_getD (hx.trans hy.symm)
  intro j hj
  unfold AkAudioCaps.unpadded at hpad
  rw [hx, AkAudioCaps.frameSize_eq, hpad] at hj
  obtain ⟨S, hS⟩ : ∃ S, S = c.bytesPerPlane := ⟨_, rfl⟩
  rw [← hS] at hj
  have hSpos : 0 < S := by
    rcases Nat.eq_zero_or_pos S with h0 | h0
    · rw [h0] at hj; simp at hj
    · exact h0
  have hq : j / S < c.planes := by
    rw [Nat.div_lt_iff_lt_mul hSpos]; exact hj
  have hoff : c.planeOffset (j / S) = j / S * S := by
    rw [AkAudioCaps.planeOffset_eq c _ (Nat.le_of_lt hq), hpad, hS]
  have hmod : j % S < S := Nat.mod_lt _ hSpos
  have hj' : j = c.planeOffset (j / S) + j % S := by
    rw [hoff, Nat.mul_comm]; exact (Nat.div_add_mod j S).symm
  have key := congrArg (fun l => l.getD (j % S) 0) (hplanes (j / S) hq)
  simp only [getD_readBytes, ← hS, hmod, if_true] at key
  rw [← hj'] at key
  exact key

/-- Reconstruction without padding: for a valid buffer of `N` samples whose byte length is
its frame size and whose planes carry no alignment padding, neither in the buffer nor in the
front piece of `n` samples, and for `0 < n < N`, concatenating the front piece returned by
`pop(n)` with the remainder left in the buffer gives back the original packet (descriptor,
bytes and metadata). -/
theorem pop_then_operator_plus_reconstructs (h : Host) (p : AkAudioPacket) (n : Int)
    (hv : p.isValid = true) (hwf : p.buffer.length = p.caps.frameSize)
    (h0 : 0 < n) (hn : n < p.caps.samples)
    (hpad : p.caps.unpadded) (hpadFront : (p.caps.setSamples n.toNat).unpadded) :
    (p.pop h n).1.operator_plus h (p.pop h n).2 = p := by
  have hm : ((n.toNat : Nat) : Int) = min (p.caps.samples : Int) n := by omega
  have h1 : 1 ≤ n.toNat := by omega
  have hle : n.toNat ≤ p.caps.samples := by omega
  obtain ⟨-, lenR, hplanes⟩ := pop_planes h p n n.toNat hm h1 hpadFront
  have hcaps := pop_eq h p n n.toNat hm h1
  have c1 : (p.pop h n).1.caps = p.caps.setSamples n.toNat := by rw [hcaps]
  have c2 : (p.pop h n).2.caps = p.caps.setSamples (p.caps.samples - n.toNat) := by rw [hcaps]
  have hvalid : (p.pop h n).2.isValid = true := by
    rw [isValid_iff, c2]; exact (isValid_iff p).1 hv
  obtain ⟨pc, plen, pbytes, ⟨m1, m2, m3, m4⟩, -⟩ :=
    operator_plus_spec h (p.pop h n).1 (p.pop h n).2 hvalid (by rw [c1, c2]; rfl)
      (by rw [c1, c2]; rfl) (by rw [c1, c2]; rfl)
  have hrescaps : ((p.pop h n).1.operator_plus h (p.pop h n).2).caps = p.caps := by
    rw [pc, c1, c2]
    show p.caps.setSamples (n.toNat + (p.caps.samples - n.toNat)) = p.caps
    rw [Nat.add_sub_cancel' hle]
    rfl
  have hmeta : (p.pop h n).2.pts = p.pts ∧ (p.pop h n).2.timeBase = p.timeBase ∧
      (p.pop h n).2.index = p.index ∧ (p.pop h n).2.id = p.id := by
    rw [hcaps]; exact ⟨rfl, rfl, rfl, rfl⟩
  have hbuf : ((p.pop h n).1.operator_plus h (p.pop h n).2).buffer = p.buffer := by
    apply eq_of_planes_eq p.caps _ _ (by rw [plen, hrescaps]) hwf hpad
    intro plane hplane
    obtain ⟨r1, r2⟩ := hplanes plane hplane
    have e := pbytes plane (by rw [c1]; exact hplane)
    rw [r1, r2, ← readBytes_add, ← AkAudioCaps.bytesPerPlane_split p.caps _ hle] at e
    unfold AkAudioPacket.planeBytes AkAudioPacket.planeData at e
    rw [hrescaps] at e
    exact e
  obtain ⟨e1, e2, e3, e4⟩ := hmeta
  exact AkAudioPacket.eq_of_fields _ _ hrescaps hbuf (m1.trans e1) (m2.trans e2)
    (m4.trans e4) (m3.trans e3)


set_option maxRecDepth 1000000 in
/-- Example of the reconstruction without padding: a planar stereo 16-bit packet of
5 samples, split after 3. -/
theorem pop_then_operator_plus_reconstructs_witness :
    ((examplePacket .s16le .stereo true 5 1
        [0, 1, 2, 3, 4, 5, 6, 7, 8, 9, 10, 11, 12, 13, 14, 15, 16, 17, 18, 19]).isValid = true ∧
      (0 : Int) < 3 ∧ (3 : Int) < 5) ∧
    ((examplePacket .s16le .stereo true 5 1
        [0, 1, 2, 3, 4, 5, 6, 7, 8, 9, 10, 11, 12, 13, 14, 15, 16, 17, 18, 19]).pop
        exampleHost 3).1.operator_plus exampleHost
      ((examplePacket .s16le .stereo true 5 1
        [0, 1, 2, 3, 4, 5, 6, 7, 8, 9, 10, 11, 12, 13, 14, 15, 16, 17, 18, 19]).pop
        exampleHost 3).2
      = examplePacket .s16le .stereo true 5 1
        [0, 1, 2, 3, 4, 5, 6, 7, 8, 9, 10, 11, 12, 13, 14, 15, 16, 17, 18, 19] :=
  ⟨⟨rfl, by decide, by decide⟩,
    pop_then_operator_plus_reconstructs exampleHost
      (examplePacket .s16le .stereo true 5 1
        [0, 1, 2, 3, 4, 5, 6, 7, 8, 9, 10, 11, 12, 13, 14, 15, 16, 17, 18, 19]) 3
      rfl (by decide) (by decide) (by decide) (by decide) (by decide)⟩

set_option maxRecDepth 1000000 in
/-- C6: `pop(n)` followed by `operator +` does not give back the bytes of a padded buffer.
On a valid mono 16-bit packet of 5 samples aligned to 4 bytes (10 sample bytes and 2 bytes
of padding), `pop(1)` cuts the plane after the padded size of the front piece (4 bytes), so
the remainder starts at sample 2 and sample 1 (bytes 2 and 3) is lost: the concatenation
holds the samples 0, 2, 3, 4 and the two padding bytes of the original as its fifth sample,
and differs from the original buffer. -/
theorem pop_then_operator_plus_padded :
    (examplePacket .s16le .mono true 5 4 [0, 1, 2, 3, 4, 5, 6, 7, 8, 9, 10, 11]).isValid = true ∧
    (examplePacket .s16le .mono true 5 4 [0, 1, 2, 3, 4, 5, 6, 7, 8, 9, 10, 11]).buffer.length
      = (examplePacket .s16le .mono true 5 4
          [0, 1, 2, 3, 4, 5, 6, 7, 8, 9, 10, 11]).caps.frameSize ∧
    (((examplePacket .s16le .mono true 5 4 [0, 1, 2, 3, 4, 5, 6, 7, 8, 9, 10, 11]).pop
        exampleHost 1).1.operator_plus exampleHost
      ((examplePacket .s16le .mono true 5 4 [0, 1, 2, 3, 4, 5, 6, 7, 8, 9, 10, 11]).pop
        exampleHost 1).2).buffer
      = [0, 1, 4, 5, 6, 7, 8, 9, 10, 11, 170, 170] ∧
    (((examplePacket .s16le .mono true 5 4 [0, 1, 2, 3, 4, 5, 6, 7, 8, 9, 10, 11]).pop
        exampleHost 1).1.operator_plus exampleHost
      ((examplePacket .s16le .mono true 5 4 [0, 1, 2, 3, 4, 5, 6, 7, 8, 9, 10, 11]).pop
        exampleHost 1).2).buffer
      ≠ (examplePacket .s16le .mono true 5 4 [0, 1, 2, 3, 4, 5, 6, 7, 8, 9, 10, 11]).buffer := by
  decide

set_option maxRecDepth 1000000 in
/-- C10: evaluation at the failing input.  `a` is a mono `s16le` packet of one sample and `b`
a mono `u8` packet of one sample.  `b.convert(a.caps)` is a 2-byte `s16le` plane, but the
plane of `a + b` holds, after the two bytes of `a`, the single original byte of `b` followed
by a byte left as allocated (`0xAA`): the loop copies from `other`, not from the converted
packet. -/
theorem operator_plus_copies_unconverted_bytes :
    ((examplePacket .u8 .mono false 1 1 [200]).convert exampleHost
        (examplePacket .s16le .mono false 1 1 [1, 2]).caps).isValid = true ∧
    ((examplePacket .u8 .mono false 1 1 [200]).convert exampleHost
        (examplePacket .s16le .mono false 1 1 [1, 2]).caps).planeBytes 0 = [127, 0] ∧
    ((examplePacket .s16le .mono false 1 1 [1, 2]).operator_plus exampleHost
        (examplePacket .u8 .mono false 1 1 [200])).buffer = [1, 2, 200, 170] ∧
    readBytes ((examplePacket .s16le .mono false 1 1 [1, 2]).operator_plus exampleHost
        (examplePacket .u8 .mono false 1 1 [200])).buffer
      (examplePacket .s16le .mono false 1 1 [1, 2]).caps.bytesPerPlane 2 = [200, 170] := by
  decide

/-! ### Failed conversions and identity conversions -/

/-- C11: when converting `b` to the descriptor of `a` gives an invalid packet,
`a + b` returns `a` itself (descriptor, bytes and metadata) and `a += b` leaves
`a` as it was. -/
theorem operator_plus_of_failed_conversion (h : Host) (a b : AkAudioPacket)
    (hc : (b.convert h a.caps).isValid = false) :
    a.operator_plus h b = a ∧ a.operator_plus_assign h b = a := by
  simp [AkAudioPacket.operator_plus, AkAudioPacket.operator_plus_assign, hc]

set_option maxRecDepth 1000000 in
/-- Witness of C11: a packet without a sample format cannot be converted to a
16-bit mono descriptor. -/
theorem operator_plus_of_failed_conversion_witness :
    ((examplePacket .none .stereo false 1 1 [9, 9]).convert exampleHost
        (examplePacket .s16le .mono false 1 1 [1, 2]).caps).isValid = false ∧
    (examplePacket .s16le .mono false 1 1 [1, 2]).operator_plus exampleHost
        (examplePacket .none .stereo false 1 1 [9, 9])
      = examplePacket .s16le .mono false 1 1 [1, 2] ∧
    (examplePacket .s16le .mono false 1 1 [1, 2]).operator_plus_assign exampleHost
        (examplePacket .none .stereo false 1 1 [9, 9])
      = examplePacket .s16le .mono false 1 1 [1, 2] :=
  ⟨by decide,
    operator_plus_of_failed_conversion exampleHost (examplePacket .s16le .mono false 1 1 [1, 2])
      (examplePacket .none .stereo false 1 1 [9, 9]) (by decide)⟩

/-- C18: converting a buffer to the sample format, to the channel layout or to
the planar flag it already has returns the buffer itself: same descriptor, same
bytes, same metadata. -/
theorem convert_to_own_property_is_identity (h : Host) (b : AkAudioPacket) :
    b.convertFormat h b.caps.format = b ∧ b.convertLayout h b.caps.layout = b ∧
      b.convertPlanar h b.caps.planar = b := by
  simp [AkAudioPacket.convertFormat, AkAudioPacket.convertLayout, AkAudioPacket.convertPlanar]

/-- C20 (as amended): for a target layout that is not the empty layout and
differs from the layout of the buffer, `convertLayout` returns a valid buffer
exactly when the source has one of the 18 sample formats (that is, a format
other than `none`), and the invalid buffer otherwise; a valid result has the
descriptor of the source with the target layout in place of the layout (same
format, planar flag, rate, sample count) and the metadata of the source. -/
theorem convertLayout_valid_iff_format_handled (h : Host) (p : AkAudioPacket)
    (layout : ChannelLayout) (hne : p.caps.layout ≠ layout) (hl : layout ≠ .none) :
    ((p.convertLayout h layout).isValid = true ↔ p.caps.format ≠ .none) ∧
    (p.caps.format = .none → p.convertLayout h layout = AkAudioPacket.invalid) ∧
    ((p.convertLayout h layout).isValid = true →
      (p.convertLayout h layout).caps.layout = layout ∧
      (p.convertLayout h layout).caps.format = p.caps.format ∧
      (p.convertLayout h layout).caps.planar = p.caps.planar ∧
      (p.convertLayout h layout).caps.rate = p.caps.rate ∧
      (p.convertLayout h layout).caps.samples = p.caps.samples ∧
      (p.convertLayout h layout).pts = p.pts ∧
      (p.convertLayout h layout).timeBase = p.timeBase ∧
      (p.convertLayout h layout).id = p.id ∧
      (p.convertLayout h layout).index = p.index) := by
  obtain ⟨h1, h2⟩ := convertChannels_spec h p layout
  have hcl : p.convertLayout h layout = convertChannels h layout p := by
    simp [AkAudioPacket.convertLayout, hne]
  rw [hcl]
  by_cases hf : p.caps.format = .none
  · rw [h1 hf]
    simp [hf, isValid_invalid]
  · obtain ⟨hcaps, hpts, htb, hid, hidx⟩ := h2 hf
    have hv : (convertChannels h layout p).isValid = true := by
      rw [isValid_iff, hcaps]
      exact ⟨hf, hl⟩
    refine ⟨⟨fun _ => hf, fun _ => hv⟩, fun h0 => absurd h0 hf, fun _ => ?_⟩
    rw [hcaps]
    exact ⟨rfl, rfl, rfl, rfl, rfl, hpts, htb, hid, hidx⟩

set_option maxRecDepth 1000000 in
/-- Witness of C20: a mono 8-bit packet converted to stereo. -/
theorem convertLayout_valid_iff_format_handled_witness :
    ((examplePacket .s8 .mono false 1 1 [5]).caps.layout ≠ ChannelLayout.stereo ∧
      ChannelLayout.stereo ≠ ChannelLayout.none) ∧
    ((examplePacket .s8 .mono false 1 1 [5]).convertLayout exampleHost .stereo).isValid = true ∧
    ((examplePacket .s8 .mono false 1 1 [5]).convertLayout exampleHost .stereo).caps.layout
      = .stereo :=
  ⟨⟨by decide, by decide⟩,
    ((convertLayout_valid_iff_format_handled exampleHost (examplePacket .s8 .mono false 1 1 [5])
      .stereo (by decide) (by decide)).1).2 (by decide),
    by decide⟩

set_option maxRecDepth 1000000 in
/-- Counterexample to C20 as stated: a valid mono 8-bit packet converted to the
empty layout, which differs from its own, has a handled format and yet the
result is not a valid buffer (its layout is empty); it is not the invalid
buffer either. -/
theorem convertLayout_to_empty_layout_not_valid :
    (examplePacket .s8 .mono false 1 1 [5]).isValid = true ∧
    (examplePacket .s8 .mono false 1 1 [5]).caps.layout ≠ ChannelLayout.none ∧
    (examplePacket .s8 .mono false 1 1 [5]).caps.format = .s8 ∧
    ((examplePacket .s8 .mono false 1 1 [5]).convertLayout exampleHost .none).isValid = false ∧
    (examplePacket .s8 .mono false 1 1 [5]).convertLayout exampleHost .none
      ≠ AkAudioPacket.invalid := by
  decide

/-! ### Rescaling in channel mixing -/

set_option maxRecDepth 1000000 in
/-- C19: the rescaling step of channel mixing wraps.  For an 8-bit signed source
the sums are 16-bit and the observed range is the whole 16-bit range; the
differences `value - smin` and `smax - smin` are narrowed to 16 bits, so the sum
`0` (silence) is mapped to `-128` where the exact map gives `-1`, the sum `-1` is
mapped to `127`, above the image of `0` (the map is not monotone), and `smax`
is mapped to `127` only by coincidence of the wrap.  A mono packet holding one
silent sample comes out of the conversion to stereo as two samples `-128`. -/
theorem mixChannels_rescale_wraps_silence :
    waveBounds exampleHost .qint16 (examplePacket .s16le .stereo false 1 1 [0, 0, 0, 0])
      = (CType.qint16.ofInt (-32768), CType.qint16.ofInt 32767) ∧
    scaleValue3 exampleHost .qint16 .qint8 .qint16 (CType.qint16.ofInt 0)
      (CType.qint16.ofInt (-32768)) (CType.qint16.ofInt 32767) = CType.qint8.ofInt (-128) ∧
    scaleValue3 exampleHost .qint16 .qint8 .qint16 (CType.qint16.ofInt (-1))
      (CType.qint16.ofInt (-32768)) (CType.qint16.ofInt 32767) = CType.qint8.ofInt 127 ∧
    (-128 : Int) + Int.tdiv ((0 - (-32768)) * (127 - (-128))) (32767 - (-32768)) = -1 ∧
    ((examplePacket .s8 .mono false 1 1 [0]).convertLayout exampleHost .stereo).buffer
      = [128, 128] := by
  decide

/-! ### Resampling -/

theorem foldlM_some {α β : Type} (f : β → α → Option β) (g : β → α → β) (l : List α)
    (hf : ∀ b a, a ∈ l → f b a = some (g b a)) (b : β) :
    l.foldlM f b = some (l.foldl g b) := by
  induction l generalizing b with
  | nil => rfl
  | cons a l ih =>
    rw [List.foldlM_cons, hf b a (List.mem_cons_self _ _)]
    simp only [Option.bind_eq_bind, Option.some_bind, List.foldl_cons]
    exact ih (fun b a ha => hf b a (List.mem_cons_of_mem _ ha)) _

theorem foldl_product {β : Type} (f : β → Nat → Nat → β) (l1 l2 : List Nat) (b : β) :
    l1.foldl (fun b c => l2.foldl (fun b k => f b c k) b) b
      = (l1 ×ˢ l2).foldl (fun b x => f b x.1 x.2) b := by
  induction l1 generalizing b with
  | nil => rfl
  | cons a l1 ih =>
    rw [List.product_cons, List.foldl_append, List.foldl_cons, ih, List.foldl_map]

theorem foldl_writes_spec {α : Type} (off : α → Nat) (w : α → List Byte) (B : Nat)
    (l : List α) (hw : ∀ x ∈ l, (w x).length = B)
    (hpw : l.Pairwise (fun x y => off x + B ≤ off y ∨ off y + B ≤ off x))
    (buf0 : List Byte) (hb : ∀ x ∈ l, off x + B ≤ buf0.length) :
    (l.foldl (fun buf x => writeBytes buf (off x) (w x)) buf0).length = buf0.length ∧
    (∀ j, (∀ x ∈ l, j < off x ∨ off x + B ≤ j) →
      (l.foldl (fun buf x => writeBytes buf (off x) (w x)) buf0).getD j 0 = buf0.getD j 0) ∧
    (∀ x ∈ l,
      readBytes (l.foldl (fun buf x => writeBytes buf (off x) (w x)) buf0) (off x) B = w x) := by
  induction l generalizing buf0 with
  | nil => simp
  | cons a l ih =>
    have hlen1 : (writeBytes buf0 (off a) (w a)).length = buf0.length := length_writeBytes _ _ _
    obtain ⟨ih1, ih2, ih3⟩ := ih (fun x hx => hw x (List.mem_cons_of_mem _ hx))
      (List.Pairwise.of_cons hpw) (writeBytes buf0 (off a) (w a))
      (fun x hx => by rw [hlen1]; exact hb x (List.mem_cons_of_mem _ hx))
    have hwa : (w a).length = B := hw a (List.mem_cons_self _ _)
    simp only [List.foldl_cons]
    refine ⟨by rw [ih1, hlen1], fun j hj => ?_, fun x hx => ?_⟩
    · rw [ih2 j (fun x hx => hj x (List.mem_cons_of_mem _ hx)), getD_writeBytes, hwa]
      have := hj a (List.mem_cons_self _ _)
      rw [if_neg (by omega)]
    · rcases List.mem_cons.1 hx with rfl | hx
      · apply ext_getD
        · rw [length_readBytes, hwa]
        · intro t ht
          rw [length_readBytes] at ht
          rw [getD_readBytes, if_pos ht, ih2, getD_writeBytes, hwa]
          · have := hb x (List.mem_cons_self _ _)
            rw [if_pos (by omega)]
            congr 1
            omega
          · intro y hy
            have := List.rel_of_pairwise_cons hpw hy
            omega
      · exact ih3 x hx

theorem wrap_qint32_of_range (x : Int) (h1 : -(2 ^ 31) ≤ x) (h2 : x < 2 ^ 31) :
    CType.qint32.wrap x = x := by
  simp only [CType.wrap, CType.ofInt, CType.toInt, CType.bits, CType.sizeof, CType.isSigned]
  norm_num
  split <;> omega

theorem readBytesAt_natCast (buf : List Byte) (off n : Nat) :
    readBytesAt buf (off : Int) n = readBytes buf off n := by
  unfold readBytesAt readBytes
  apply List.map_congr_left
  intro i _
  rw [if_pos (by omega)]
  congr 1

theorem AkAudioPacket.sample_eq (p : AkAudioPacket) (c k : Nat) (hc : c < p.caps.channels) :
    p.sample c k =
      if p.caps.planar then
        c * AkAudioCaps.alignUp p.caps.bytesPerPlane p.caps.align + k * (p.caps.bps / 8)
      else (k * p.caps.channels + c) * (p.caps.bps / 8) := by
  unfold AkAudioPacket.sample AkAudioPacket.planeData
  split
  · rename_i hp
    rw [AkAudioCaps.planeOffset_eq _ _ (by simp [AkAudioCaps.planes, hp]; omega),
      Nat.mul_comm k, AkAudioCaps.bps_mul_div, Nat.mul_comm k]
  · rename_i hp
    rw [AkAudioCaps.planeOffset_eq _ _ (by omega), Nat.mul_comm _ p.caps.bps,
      AkAudioCaps.bps_mul_div, Nat.mul_comm _ (p.caps.bps / 8)]
    simp

theorem AkAudioPacket.sample_bound (p : AkAudioPacket) (c k : Nat) (hc : c < p.caps.channels)
    (hk : k < p.caps.samples) : p.sample c k + p.caps.bps / 8 ≤ p.caps.frameSize := by
  rw [AkAudioPacket.sample_eq p c k hc, AkAudioCaps.frameSize_eq]
  have hS := AkAudioCaps.le_alignUp p.caps.bytesPerPlane p.caps.align
  obtain ⟨S, hSdef⟩ : ∃ S, S = AkAudioCaps.alignUp p.caps.bytesPerPlane p.caps.align := ⟨_, rfl⟩
  rw [← hSdef] at hS ⊢
  obtain ⟨B, hB⟩ : ∃ B, B = p.caps.bps / 8 := ⟨_, rfl⟩
  have hbpp : p.caps.bytesPerPlane =
      if p.caps.planar then B * p.caps.samples else B * p.caps.samples * p.caps.channels := by
    unfold AkAudioCaps.bytesPerPlane
    rw [AkAudioCaps.bps_mul_div, hB]
  rw [← hB]
  by_cases hp : p.caps.planar = true
  · rw [if_pos hp]
    rw [if_pos hp] at hbpp
    have hpl : p.caps.planes = p.caps.channels := by simp [AkAudioCaps.planes, hp]
    rw [hpl]
    have h1 : (k + 1) * B ≤ p.caps.samples * B := Nat.mul_le_mul_right _ hk
    have h2 : (c + 1) * S ≤ p.caps.channels * S := Nat.mul_le_mul_right _ hc
    rw [Nat.mul_comm B] at hbpp
    rw [Nat.add_mul] at h1 h2
    omega
  · rw [if_neg hp]
    rw [if_neg hp] at hbpp
    have hpl : p.caps.planes = 1 := by simp [AkAudioCaps.planes, hp]
    rw [hpl]
    have h1 : k * p.caps.channels + c + 1 ≤ p.caps.samples * p.caps.channels := by
      have : (k + 1) * p.caps.channels ≤ p.caps.samples * p.caps.channels :=
        Nat.mul_le_mul_right _ hk
      rw [Nat.add_mul] at this
      omega
    have h2 := Nat.mul_le_mul_right B h1
    rw [Nat.add_mul] at h2
    have h3 : p.caps.samples * p.caps.channels * B = B * p.caps.samples * p.caps.channels := by
      ring
    omega

theorem AkAudioPacket.sample_disjoint (p : AkAudioPacket) (c k c' k' : Nat)
    (hc : c < p.caps.channels) (hk : k < p.caps.samples) (hc' : c' < p.caps.channels)
    (_hk' : k' < p.caps.samples) (hne : (c, k) ≠ (c', k')) :
    p.sample c k + p.caps.bps / 8 ≤ p.sample c' k' ∨
      p.sample c' k' + p.caps.bps / 8 ≤ p.sample c k := by
  rw [AkAudioPacket.sample_eq p c k hc, AkAudioPacket.sample_eq p c' k' hc']
  have hS := AkAudioCaps.le_alignUp p.caps.bytesPerPlane p.caps.align
  obtain ⟨S, hSdef⟩ : ∃ S, S = AkAudioCaps.alignUp p.caps.bytesPerPlane p.caps.align := ⟨_, rfl⟩
  rw [← hSdef] at hS ⊢
  obtain ⟨B, hB⟩ : ∃ B, B = p.caps.bps / 8 := ⟨_, rfl⟩
  have hbpp : p.caps.bytesPerPlane =
      if p.caps.planar then B * p.caps.samples else B * p.caps.samples * p.caps.channels := by
    unfold AkAudioCaps.bytesPerPlane
    rw [AkAudioCaps.bps_mul_div, hB]
  rw [← hB]
  have hmono : ∀ a b : Nat, a < b → a * B + B ≤ b * B := by
    intro a b hab
    have := Nat.mul_le_mul_right B (Nat.succ_le_of_lt hab)
    rw [Nat.succ_mul] at this
    exact this
  by_cases hp : p.caps.planar = true
  · simp only [if_pos hp]
    rw [if_pos hp, Nat.mul_comm B] at hbpp
    have hplane : ∀ a b x y : Nat, a < b → x < p.caps.samples →
        a * S + x * B + B ≤ b * S + y * B := by
      intro a b x y hab hx
      have h1 := hmono x p.caps.samples hx
      have h2 := Nat.mul_le_mul_right S (Nat.succ_le_of_lt hab)
      rw [Nat.succ_mul] at h2
      omega
    rcases Nat.lt_trichotomy c c' with h | h | h
    · left; exact hplane c c' k k' h hk
    · subst h
      have hkk : k ≠ k' := fun e => hne (by rw [e])
      rcases Nat.lt_or_gt_of_ne hkk with h | h
      · left; have := hmono k k' h; omega
      · right; have := hmono k' k h; omega
    · right; exact hplane c' c k' k h _hk'
  · simp only [if_neg hp]
    have hidx : k * p.caps.channels + c ≠ k' * p.caps.channels + c' := by
      intro e
      apply hne
      have e1 : (k * p.caps.channels + c) / p.caps.channels
          = (k' * p.caps.channels + c') / p.caps.channels := by rw [e]
      have e2 : (k * p.caps.channels + c) % p.caps.channels
          = (k' * p.caps.channels + c') % p.caps.channels := by rw [e]
      rw [Nat.mul_comm k, Nat.mul_comm k', Nat.mul_add_div (by omega), Nat.mul_add_div (by omega),
        Nat.div_eq_of_lt hc, Nat.div_eq_of_lt hc'] at e1
      rw [Nat.mul_comm k, Nat.mul_comm k', Nat.mul_add_mod, Nat.mul_add_mod,
        Nat.mod_eq_of_lt hc, Nat.mod_eq_of_lt hc'] at e2
      simp only [Nat.add_zero] at e1
      rw [e1, e2]
    rcases Nat.lt_or_gt_of_ne hidx with h | h
    · left; exact hmono _ _ h
    · right; exact hmono _ _ h

theorem resampleLoop_writes (packet : AkAudioPacket)
    (step : Nat → List Byte → Nat → Option (List Byte)) (w : Nat → Nat → List Byte)
    (hlen : packet.buffer.length = packet.caps.frameSize)
    (hw : ∀ c k, (w c k).length = packet.caps.bps / 8)
    (hstep : ∀ c buf k, c < packet.caps.channels → k < packet.caps.samples →
      step c buf k = some (writeBytes buf (packet.sample c k) (w c k))) :
    ∃ buf, resampleLoop packet step = some buf ∧ buf.length = packet.buffer.length ∧
      ∀ c k, c < packet.caps.channels → k < packet.caps.samples →
        readBytes buf (packet.sample c k) (packet.caps.bps / 8) = w c k := by
  have hinner : ∀ buf c, c ∈ List.range packet.caps.channels →
      (List.range packet.caps.samples).foldlM (step c) buf
        = some ((List.range packet.caps.samples).foldl
            (fun buf k => writeBytes buf (packet.sample c k) (w c k)) buf) := by
    intro buf c hc
    exact foldlM_some _ _ _ (fun b k hk =>
      hstep c b k (List.mem_range.1 hc) (List.mem_range.1 hk)) buf
  have houter := foldlM_some
    (fun buf channel => (List.range packet.caps.samples).foldlM (step channel) buf)
    (fun buf c => (List.range packet.caps.samples).foldl
      (fun buf k => writeBytes buf (packet.sample c k) (w c k)) buf)
    (List.range packet.caps.channels) hinner packet.buffer
  have hflat := foldl_product (fun buf c k => writeBytes buf (packet.sample c k) (w c k))
    (List.range packet.caps.channels) (List.range packet.caps.samples) packet.buffer
  have hmem : ∀ x : Nat × Nat, x ∈ List.range packet.caps.channels ×ˢ List.range packet.caps.samples →
      x.1 < packet.caps.channels ∧ x.2 < packet.caps.samples := by
    intro x hx
    have := List.mem_product.1 hx
    exact ⟨List.mem_range.1 this.1, List.mem_range.1 this.2⟩
  obtain ⟨s1, _, s3⟩ := foldl_writes_spec (fun x : Nat × Nat => packet.sample x.1 x.2)
    (fun x => w x.1 x.2) (packet.caps.bps / 8)
    (List.range packet.caps.channels ×ˢ List.range packet.caps.samples)
    (fun x _ => hw x.1 x.2)
    (List.Nodup.pairwise_of_forall_ne
      (List.Nodup.product (List.nodup_range _) (List.nodup_range _))
      (fun x hx y hy hne => AkAudioPacket.sample_disjoint packet x.1 x.2 y.1 y.2
        (hmem x hx).1 (hmem x hx).2 (hmem y hy).1 (hmem y hy).2 hne))
    packet.buffer
    (fun x hx => by
      rw [hlen]; exact AkAudioPacket.sample_bound packet x.1 x.2 (hmem x hx).1 (hmem x hx).2)
  refine ⟨_, houter, ?_, fun c k hc hk => ?_⟩
  · rw [hflat]; exact s1
  · rw [hflat]
    exact s3 (c, k) (List.mem_product.2 ⟨List.mem_range.2 hc, List.mem_range.2 hk⟩)

theorem resampleFastIndex_eq (N n k : Nat) (hN : 1 ≤ N) (hn : 2 ≤ n) (hk : k < n)
    (hov : (n - 1) * (N - 1) < 2 ^ 31) :
    Int.tdiv (CType.qint32.wrap ((k : Int) * ((N : Int) - 1))) ((n : Int) - 1)
      = ((k * (N - 1) / (n - 1) : Nat) : Int) := by
  have h1 : ((N : Int) - 1) = ((N - 1 : Nat) : Int) := by omega
  have h2 : ((n : Int) - 1) = ((n - 1 : Nat) : Int) := by omega
  have h3 : k * (N - 1) ≤ (n - 1) * (N - 1) := Nat.mul_le_mul_right _ (by omega)
  rw [h1, h2, ← Int.ofNat_mul, wrap_qint32_of_range _ (by omega) (by omega)]
  rfl

theorem qRound_eq (d : Rat) : qRound d = ⌊d + 1 / 2⌋ := by
  unfold qRound
  split
  · rename_i h0
    unfold qrealToInt
    rw [if_pos (by linarith)]
  · rename_i h0
    have h0 : d < 0 := lt_of_not_le h0
    have e1 : qrealToInt (d - 1) = ⌈d - 1⌉ := by
      unfold qrealToInt
      rw [if_neg (by linarith)]
    have hlt : ((⌈d - 1⌉ : Int) : Rat) < d := by
      have := Int.ceil_lt_add_one (d - 1)
      linarith
    rw [e1]
    unfold qrealToInt
    rw [if_pos (by linarith)]
    have e2 : d - ((⌈d - 1⌉ : Int) : Rat) + 1 / 2 = d + 1 / 2 - ((⌈d - 1⌉ : Int) : Rat) := by ring
    rw [e2, Int.floor_sub_int]
    omega

theorem qRound_error (d : Rat) : |d - (qRound d : Rat)| ≤ 1 / 2 := by
  rw [qRound_eq, abs_le]
  have h1 := Int.floor_le (d + 1 / 2)
  have h2 := Int.lt_floor_add_one (d + 1 / 2)
  constructor <;> linarith

theorem scale_eq (h : Host) (p : AkAudioPacket) (n : Nat) (m : ResampleMethod)
    (hne : n ≠ p.caps.samples) (h1 : 1 ≤ n) :
    p.scale h (n : Int) m =
      (resample h p (AkAudioPacket.alloc h (p.caps.setSamples n)) (n : Int)
        (if n < p.caps.samples then ResampleMethod.Fast else m)).map
        fun buf => { AkAudioPacket.alloc h (p.caps.setSamples n) with buffer := buf } := by
  unfold AkAudioPacket.scale
  rw [if_neg (by omega), if_neg (by omega)]
  simp only [Int.toNat_ofNat, Nat.cast_lt]

theorem convertSampleRate_eq (h : Host) (p : AkAudioPacket) (rate : Int) (drift : Rat)
    (m : ResampleMethod) (n : Nat) (hne : rate ≠ p.caps.rate) (h0 : p.caps.rate ≠ 0)
    (hq : qRound ((p.caps.samples : Rat) * (rate : Rat) / (p.caps.rate : Rat) + drift)
      = (n : Int)) (h1 : 1 ≤ n) :
    p.convertSampleRate h rate drift m =
      (resample h p (AkAudioPacket.alloc h ((p.caps.setSamples n).setRate rate)) (n : Int)
        (if n < p.caps.samples then ResampleMethod.Fast else m)).map
        fun buf =>
          ({ AkAudioPacket.alloc h ((p.caps.setSamples n).setRate rate) with buffer := buf },
            (p.caps.samples : Rat) * (rate : Rat) / (p.caps.rate : Rat) + drift - (n : Rat)) := by
  unfold AkAudioPacket.convertSampleRate
  rw [if_neg hne, if_neg h0]
  simp only [hq]
  rw [if_neg (by omega)]
  simp only [Int.toNat_ofNat, Nat.cast_lt, Int.cast_natCast]

theorem resample_fast_some (h : Host) (this : AkAudioPacket) (caps : AkAudioCaps) (n : Nat)
    (hn : 2 ≤ n) : ∃ buf, resample h this (AkAudioPacket.alloc h caps) (n : Int) .Fast = some buf := by
  obtain ⟨buf, hb, _⟩ := resampleLoop_writes (AkAudioPacket.alloc h caps)
    (resampleFastStep this (AkAudioPacket.alloc h caps) (n : Int))
    (fun c k => readBytesAt this.buffer (this.constSample c (Int.tdiv
      (CType.qint32.wrap ((k : Int) * ((this.caps.samples : Int) - 1))) ((n : Int) - 1)))
      ((AkAudioPacket.alloc h caps).caps.bps / 8))
    (AkAudioPacket.length_alloc h caps)
    (fun c k => by simp [readBytesAt])
    (fun c buf k _ _ => by
      unfold resampleFastStep
      rw [if_neg (by omega)]
      rfl)
  exact ⟨buf, hb⟩

/-- C17: `scale` to the sample count the buffer already has returns the buffer
itself (descriptor, bytes and metadata), and `convertSampleRate` to the rate the
buffer already has returns the buffer itself and leaves the drift accumulator
as it was, whatever the method. -/
theorem resample_to_own_count_or_rate_is_identity (h : Host) (p : AkAudioPacket)
    (method : ResampleMethod) (drift : Rat) :
    p.scale h (p.caps.samples : Int) method = some p ∧
      p.convertSampleRate h p.caps.rate drift method = some (p, drift) := by
  simp [AkAudioPacket.scale, AkAudioPacket.convertSampleRate]

/-- C13: when the new sample count is smaller than the sample count of the
buffer the requested method is not used.  `scale(n, .)` with `n < sampleCount`
gives the same outcome for `Fast`, `Linear` and `Quadratic`, and for
`1 < n < sampleCount` that outcome is a returned buffer; likewise
`convertSampleRate` to a different rate gives the same outcome (buffer and
drift) for the three methods when its rounded ideal count `c` is below the
sample count, and for `1 < c < sampleCount` that outcome is a returned buffer. -/
theorem downsampling_ignores_method (h : Host) (p : AkAudioPacket) :
    (∀ n : Int, n < (p.caps.samples : Int) →
      p.scale h n .Linear = p.scale h n .Fast ∧ p.scale h n .Quadratic = p.scale h n .Fast) ∧
    (∀ n : Nat, 1 < n → n < p.caps.samples →
      ∃ q, p.scale h (n : Int) .Fast = some q ∧ p.scale h (n : Int) .Linear = some q ∧
        p.scale h (n : Int) .Quadratic = some q) ∧
    (∀ (rate : Int) (drift : Rat), rate ≠ p.caps.rate →
      qRound ((p.caps.samples : Rat) * (rate : Rat) / (p.caps.rate : Rat) + drift)
        < (p.caps.samples : Int) →
      p.convertSampleRate h rate drift .Linear = p.convertSampleRate h rate drift .Fast ∧
      p.convertSampleRate h rate drift .Quadratic = p.convertSampleRate h rate drift .Fast) ∧
    (∀ (rate : Int) (drift : Rat) (n : Nat), rate ≠ p.caps.rate → p.caps.rate ≠ 0 →
      qRound ((p.caps.samples : Rat) * (rate : Rat) / (p.caps.rate : Rat) + drift) = (n : Int) →
      1 < n → n < p.caps.samples →
      ∃ q d, p.convertSampleRate h rate drift .Fast = some (q, d) ∧
        p.convertSampleRate h rate drift .Linear = some (q, d) ∧
        p.convertSampleRate h rate drift .Quadratic = some (q, d)) := by
  refine ⟨fun n hN => ?_, fun n h1 hN => ?_, fun rate drift hne hq => ?_,
    fun rate drift n hne h0 hq h1 hN => ?_⟩
  · simp [AkAudioPacket.scale, hN]
  · obtain ⟨buf, hb⟩ := resample_fast_some h p (p.caps.setSamples n) n (by omega)
    refine ⟨{ AkAudioPacket.alloc h (p.caps.setSamples n) with buffer := buf }, ?_, ?_, ?_⟩ <;>
    · rw [scale_eq h p n _ (by omega) (by omega), if_pos hN, hb]
      rfl
  · simp [AkAudioPacket.convertSampleRate, hq]
  · obtain ⟨buf, hb⟩ := resample_fast_some h p ((p.caps.setSamples n).setRate rate) n (by omega)
    refine ⟨{ AkAudioPacket.alloc h ((p.caps.setSamples n).setRate rate) with buffer := buf },
      (p.caps.samples : Rat) * (rate : Rat) / (p.caps.rate : Rat) + drift - (n : Rat),
      ?_, ?_, ?_⟩ <;>
    · rw [convertSampleRate_eq h p rate drift _ n hne h0 hq (by omega), if_pos hN, hb]
      rfl

theorem qRound_exampleRamp_1000 :
    qRound ((exampleRamp.caps.samples : Rat) * ((1000 : Int) : Rat)
      / (exampleRamp.caps.rate : Rat) + 0) = ((1 : Nat) : Int) := by
  rw [qRound_eq]
  show ⌊((8 : Nat) : Rat) * ((1000 : Int) : Rat) / ((8000 : Int) : Rat) + 0 + 1 / 2⌋ = _
  norm_num [Int.floor_eq_iff]

set_option maxRecDepth 1000000 in
/-- C14: a rate conversion whose rounded ideal count is exactly 1 has no result.
The 8-sample ramp at rate 8000 converted to rate 1000 has the ideal count
`8 * 1000 / 8000 + 0 = 1`, which rounds to 1, so the conversion counts as
successful; the source index is then computed as `sample * 7 / (1 - 1)`, a
division by zero, whatever the method requested. -/
theorem convertSampleRate_to_one_sample_divides_by_zero :
    qRound ((exampleRamp.caps.samples : Rat) * ((1000 : Int) : Rat)
      / (exampleRamp.caps.rate : Rat) + 0) = 1 ∧
    exampleRamp.convertSampleRate exampleHost 1000 0 .Fast = none ∧
    exampleRamp.convertSampleRate exampleHost 1000 0 .Linear = none ∧
    exampleRamp.convertSampleRate exampleHost 1000 0 .Quadratic = none := by
  refine ⟨qRound_exampleRamp_1000, ?_, ?_, ?_⟩ <;>
  · rw [convertSampleRate_eq exampleHost exampleRamp 1000 0 _ 1 (by decide) (by decide)
      qRound_exampleRamp_1000 (by decide), Option.map_eq_none']
    decide

theorem convertSampleRate_count_and_drift (h : Host) (p q : AkAudioPacket) (rate : Int)
    (drift d : Rat) (method : ResampleMethod) (h0 : p.caps.rate ≠ 0)
    (hs : p.convertSampleRate h rate drift method = some (q, d)) (hv : q.isValid = true) :
    (q.caps.samples : Rat)
        = (p.caps.samples : Rat) * (rate : Rat) / (p.caps.rate : Rat) + drift - d ∧
      (|drift| ≤ 1 / 2 → |d| ≤ 1 / 2) := by
  unfold AkAudioPacket.convertSampleRate at hs
  by_cases hr : rate = p.caps.rate
  · rw [if_pos hr] at hs
    obtain ⟨rfl, rfl⟩ := Prod.mk.inj (Option.some.inj hs)
    have h0' : (p.caps.rate : Rat) ≠ 0 := by exact_mod_cast h0
    rw [hr, mul_div_assoc, div_self h0']
    exact ⟨by ring, fun hd => hd⟩
  · rw [if_neg hr, if_neg h0] at hs
    simp only at hs
    split at hs
    · obtain ⟨rfl, rfl⟩ := Prod.mk.inj (Option.some.inj hs)
      rw [isValid_invalid] at hv
      cases hv
    · rename_i h1
      rw [Option.map_eq_some'] at hs
      obtain ⟨buf, _, hbuf⟩ := hs
      obtain ⟨rfl, rfl⟩ := Prod.mk.inj hbuf
      have hcast : ((qRound ((p.caps.samples : Rat) * (rate : Rat) / (p.caps.rate : Rat)
          + drift)).toNat : Rat) = ((qRound ((p.caps.samples : Rat) * (rate : Rat)
          / (p.caps.rate : Rat) + drift) : Int) : Rat) := by
        have : ((qRound ((p.caps.samples : Rat) * (rate : Rat) / (p.caps.rate : Rat)
          + drift)).toNat : Int) = qRound ((p.caps.samples : Rat) * (rate : Rat)
          / (p.caps.rate : Rat) + drift) := Int.toNat_of_nonneg (by omega)
        exact_mod_cast this
      refine ⟨?_, fun _ => qRound_error _⟩
      show ((qRound _).toNat : Rat) = _
      rw [hcast]
      ring

/-! ### Planar conversion -/

theorem sample_writes_spec (packet : AkAudioPacket) (w : Nat → Nat → List Byte)
    (hlen : packet.buffer.length = packet.caps.frameSize)
    (hw : ∀ c k, (w c k).length = packet.caps.bps / 8) :
    ((List.range packet.caps.channels).foldl (fun buf c =>
      (List.range packet.caps.samples).foldl (fun buf k =>
        writeBytes buf (packet.sample c k) (w c k)) buf) packet.buffer).length
      = packet.buffer.length ∧
    ∀ c k, c < packet.caps.channels → k < packet.caps.samples →
      readBytes ((List.range packet.caps.channels).foldl (fun buf c =>
        (List.range packet.caps.samples).foldl (fun buf k =>
          writeBytes buf (packet.sample c k) (w c k)) buf) packet.buffer)
        (packet.sample c k) (packet.caps.bps / 8) = w c k := by
  have hflat := foldl_product (fun buf c k => writeBytes buf (packet.sample c k) (w c k))
    (List.range packet.caps.channels) (List.range packet.caps.samples) packet.buffer
  have hmem : ∀ x : Nat × Nat,
      x ∈ List.range packet.caps.channels ×ˢ List.range packet.caps.samples →
      x.1 < packet.caps.channels ∧ x.2 < packet.caps.samples := by
    intro x hx
    have := List.mem_product.1 hx
    exact ⟨List.mem_range.1 this.1, List.mem_range.1 this.2⟩
  obtain ⟨s1, _, s3⟩ := foldl_writes_spec (fun x : Nat × Nat => packet.sample x.1 x.2)
    (fun x => w x.1 x.2) (packet.caps.bps / 8)
    (List.range packet.caps.channels ×ˢ List.range packet.caps.samples)
    (fun x _ => hw x.1 x.2)
    (List.Nodup.pairwise_of_forall_ne
      (List.Nodup.product (List.nodup_range _) (List.nodup_range _))
      (fun x hx y hy hne => AkAudioPacket.sample_disjoint packet x.1 x.2 y.1 y.2
        (hmem x hx).1 (hmem x hx).2 (hmem y hy).1 (hmem y hy).2 hne))
    packet.buffer
    (fun x hx => by
      rw [hlen]; exact AkAudioPacket.sample_bound packet x.1 x.2 (hmem x hx).1 (hmem x hx).2)
  rw [hflat]
  exact ⟨s1, fun c k hc hk =>
    s3 (c, k) (List.mem_product.2 ⟨List.mem_range.2 hc, List.mem_range.2 hk⟩)⟩

theorem AkAudioPacket.sample_planar (p : AkAudioPacket) (hp : p.caps.planar = true)
    (c k : Nat) : p.sample c k = p.planeData c + p.caps.bps / 8 * k := by
  unfold AkAudioPacket.sample
  rw [if_pos hp, Nat.mul_comm k, AkAudioCaps.bps_mul_div]

/-- C21: `convertPlanar(true)` on an interleaved buffer returns a planar buffer in
which, for every channel `c` and sample index `i`, the `bps / 8` bytes at
`plane[c] + i * (bps / 8)` are the source bytes at
`plane[0] + (i * channels + c) * (bps / 8)`; the descriptor is the source's with
the planar flag set, the metadata is the source's, and the buffer has the frame
size of the new descriptor. -/
theorem convertPlanar_to_planar_deinterleaves (h : Host) (p : AkAudioPacket)
    (hint : p.caps.planar = false) :
    (p.convertPlanar h true).caps = { p.caps with planar := true } ∧
    ((p.convertPlanar h true).pts = p.pts ∧ (p.convertPlanar h true).timeBase = p.timeBase ∧
      (p.convertPlanar h true).id = p.id ∧ (p.convertPlanar h true).index = p.index) ∧
    (p.convertPlanar h true).buffer.length = (p.convertPlanar h true).caps.frameSize ∧
    ∀ c i, c < p.caps.channels → i < p.caps.samples →
      readBytes (p.convertPlanar h true).buffer
          ((p.convertPlanar h true).planeData c + i * (p.caps.bps / 8)) (p.caps.bps / 8)
        = readBytes p.buffer (p.planeData 0 + (i * p.caps.channels + c) * (p.caps.bps / 8))
            (p.caps.bps / 8) := by
  obtain ⟨dst, hdst⟩ : ∃ dst, dst = (AkAudioPacket.alloc h (p.caps.updatePlaneSize true)).copyMetadata p :=
    ⟨_, rfl⟩
  have hplanar : dst.caps.planar = true := by rw [hdst]; rfl
  have hcaps : dst.caps = { p.caps with planar := true } := by rw [hdst]; rfl
  have hlen : dst.buffer.length = dst.caps.frameSize := by
    rw [hdst]; exact AkAudioPacket.length_alloc h _
  have hb : dst.caps.bps = p.caps.bps := by rw [hcaps]; rfl
  have hsm : dst.caps.samples = p.caps.samples := by rw [hcaps]
  have e1 : (p.caps.updatePlaneSize true).bps = p.caps.bps := rfl
  have e2 : (p.caps.updatePlaneSize true).channels = p.caps.channels := rfl
  have e3 : (p.caps.updatePlaneSize true).samples = p.caps.samples := rfl
  have hspec := sample_writes_spec dst
    (fun c k => readBytes p.buffer
      (p.planeData 0 + p.caps.bps / 8 * (k * p.caps.channels + c)) (p.caps.bps / 8))
    hlen (fun c k => by rw [hb]; exact length_readBytes _ _ _)
  have hres : p.convertPlanar h true =
      { dst with
        buffer := ((List.range dst.caps.channels).foldl (fun buf c =>
          (List.range dst.caps.samples).foldl (fun buf k =>
            writeBytes buf (dst.sample c k)
              (readBytes p.buffer (p.planeData 0 + p.caps.bps / 8 * (k * p.caps.channels + c))
                (p.caps.bps / 8))) buf) dst.buffer) } := by
    unfold AkAudioPacket.convertPlanar
    rw [if_neg (by rw [hint]; decide)]
    simp only [if_true, ← hdst]
    have hpl : (p.caps.updatePlaneSize true).planes = dst.caps.channels := by
      rw [hcaps]; rfl
    rw [hpl]
    simp only [AkAudioPacket.sample_planar dst hplanar, e1, e2, e3, hb, hsm]
    rfl
  rw [hres]
  refine ⟨hcaps, ⟨by rw [hdst]; rfl, by rw [hdst]; rfl, by rw [hdst]; rfl, by rw [hdst]; rfl⟩,
    by rw [hspec.1, hlen], fun c i hc hi => ?_⟩
  have key := hspec.2 c i (by rw [hcaps]; exact hc) (by rw [hcaps]; exact hi)
  rw [hb, AkAudioPacket.sample_planar dst hplanar, hb] at key
  rw [Nat.mul_comm i (p.caps.bps / 8), Nat.mul_comm (i * p.caps.channels + c) (p.caps.bps / 8)]
  exact key

set_option maxRecDepth 1000000 in
/-- Witness of C21 on an interleaved stereo 8-bit packet of two samples. -/
theorem convertPlanar_to_planar_deinterleaves_witness :
    (examplePacket .s8 .stereo false 2 1 [1, 2, 3, 4]).caps.planar = false ∧
    ((examplePacket .s8 .stereo false 2 1 [1, 2, 3, 4]).convertPlanar exampleHost true).caps
      = { (examplePacket .s8 .stereo false 2 1 [1, 2, 3, 4]).caps with planar := true } ∧
    ((examplePacket .s8 .stereo false 2 1 [1, 2, 3, 4]).convertPlanar exampleHost true).buffer
      = [1, 3, 2, 4] :=
  ⟨rfl,
    (convertPlanar_to_planar_deinterleaves exampleHost
      (examplePacket .s8 .stereo false 2 1 [1, 2, 3, 4]) rfl).1,
    by decide⟩

set_option maxRecDepth 1000000 in
/-- C22: `convertPlanar(false)` copies channel 0 only.  Its plane loop runs over the
planes of the new, interleaved descriptor, of which there is one; for a planar
stereo 8-bit packet holding `1, 2` in plane 0 and `3, 4` in plane 1 the result is
`1, ?, 2, ?` with the bytes of channel 1 left as allocated, where every channel
copied gives `1, 3, 2, 4`.  The opposite direction gives `1, 3, 2, 4` from the
interleaved `1, 2, 3, 4`. -/
theorem convertPlanar_to_interleaved_copies_channel_zero_only :
    (examplePacket .s8 .stereo true 2 1 [1, 2, 3, 4]).isValid = true ∧
    ((examplePacket .s8 .stereo true 2 1 [1, 2, 3, 4]).convertPlanar exampleHost false).caps.planar
      = false ∧
    ((examplePacket .s8 .stereo true 2 1 [1, 2, 3, 4]).convertPlanar exampleHost false).buffer
      = [1, exampleHost.uninitialized 1, 2, exampleHost.uninitialized 3] ∧
    exampleHost.uninitialized 1 = 170 ∧
    ((examplePacket .s8 .stereo false 2 1 [1, 2, 3, 4]).convertPlanar exampleHost true).buffer
      = [1, 3, 2, 4] := by
  decide

set_option maxRecDepth 1000000 in
/-- C24: the registered `s8 -> s64` converter does not evaluate the affine map
without overflow.  `scaleValue<qint8, qint64, qint64>` computes `ymax - ymin` in 64
bits, where `INT64_MAX - INT64_MIN` wraps to `-1`: `X_MIN = -128` is mapped to
`-36170086419038336` and not to `INT64_MIN`, `X_MAX = 127` to `36170086419038335`
and not to `INT64_MAX`, and the map is not monotone (`-127` is mapped above `1`). -/
theorem scaleValue_s8_to_s64_overflows :
    ((sampleFormatConvert exampleHost).head?.map fun e => (e.from_, e.to_))
      = some (.s8, .s64le) ∧
    CType.qint64.toInt (scaleValueFrom exampleHost .native .native .qint8 .qint64 .qint64
      (CType.qint8.ofInt (-128))) = -36170086419038336 ∧
    CType.qint64.toInt (scaleValueFrom exampleHost .native .native .qint8 .qint64 .qint64
      (CType.qint8.ofInt 127)) = 36170086419038335 ∧
    CType.qint64.toInt (scaleValueFrom exampleHost .native .native .qint8 .qint64 .qint64
      (CType.qint8.ofInt (-127))) = 36170086419038336 ∧
    CType.qint64.toInt (scaleValueFrom exampleHost .native .native .qint8 .qint64 .qint64
      (CType.qint8.ofInt 1)) = 36170086419038335 ∧
    CType.qint64.min = -9223372036854775808 ∧ CType.qint64.max = 9223372036854775807 ∧
    ((examplePacket .s8 .mono false 1 1 [128]).convertFormat exampleHost .s64le).buffer
      = [128, 127, 127, 127, 127, 127, 127, 255] := by
  decide

/-- C25: the destination range of `scaleValue` is not chosen from the destination
type alone.  Its second test reads `typeid(InputType) == typeid(qreal)`: for a
`qreal` input and a 64-bit integer output (the `double -> s64` converter) the
destination range is `[-1, 1]` and not `[INT64_MIN, INT64_MAX]`, and for a 64-bit
integer input and a `qreal` output (the `s64 -> double` converter) it is
`[numeric_limits<qreal>::min(), numeric_limits<qreal>::max()]` and not `[-1, 1]`;
with `float` on either side the ranges are the expected ones. -/
theorem scaleValue_output_range_tests_input_type (h : Host) (v : Nat) :
    scaleValueOutputRange .qreal .qint64 = (.negOne, .one) ∧
    scaleValueOutputRange .qint64 .qreal = (.numericMin .qreal, .numericMax .qreal) ∧
    scaleValueOutputRange .float .qint64 = (.numericMin .qint64, .numericMax .qint64) ∧
    scaleValueOutputRange .qint64 .float = (.negOne, .one) ∧
    scaleValueInputRange .qreal = (.negOne, .one) ∧
    scaleValueInputRange .qint64 = (.numericMin .qint64, .numericMax .qint64) ∧
    scaleValue h .qreal .qint64 .qreal v
      = h.floatScale .qreal .qint64 .qreal
          (qBound h .qreal (Bound.toWord .qreal .negOne) v (Bound.toWord .qreal .one))
          (.negOne, .one) (.negOne, .one) % 2 ^ 64 ∧
    scaleValue h .qint64 .qreal .qreal v
      = h.floatScale .qint64 .qreal .qreal v (.numericMin .qint64, .numericMax .qint64)
          (.numericMin .qreal, .numericMax .qreal) % 2 ^ 64 :=
  ⟨rfl, rfl, rfl, rfl, rfl, rfl, rfl, rfl⟩

set_option maxRecDepth 1000000 in
/-- C26: the converter to a big-endian target does not store the big-endian
encoding.  `scaleValueFrom_ToBE` calls `qToLittleEndian`, so on every host it
returns what `scaleValueFrom_ToLE` returns; on a little-endian host the
`s64 -> s16be` converter stores the scaled value in host order: for the 64-bit sample
`0x0807060504030201` the scaled 16-bit value is `0x8201`, its big-endian
encoding is `82 01`, and the bytes stored are `01 82`, the same as for the
target `s16le`. -/
theorem scaleValueFrom_ToBE_stores_little_endian (h : Host) (I O Op : CType) (v : Nat) :
    scaleValueFrom h .native .BE I O Op v = qToLittleEndian h.endian O (scaleValue h I O Op v) ∧
    scaleValueFrom h .native .BE I O Op v = scaleValueFrom h .native .LE I O Op v ∧
    scaleValue exampleHost .qint64 .qint16 .qint64 0x0807060504030201 = 0x8201 ∧
    bytesOfWord .big 2 0x8201 = [0x82, 0x01] ∧
    ((examplePacket .s64le .mono false 1 1 [1, 2, 3, 4, 5, 6, 7, 8]).convertFormat
      exampleHost .s16be).buffer = [0x01, 0x82] ∧
    ((examplePacket .s64le .mono false 1 1 [1, 2, 3, 4, 5, 6, 7, 8]).convertFormat
      exampleHost .s16le).buffer = [0x01, 0x82] :=
  ⟨rfl, rfl, by decide, by decide, by decide, by decide⟩

theorem qrealToInt_intCast (i : Int) : qrealToInt (i : Rat) = i := by
  unfold qrealToInt
  split <;> simp

theorem qrealToInt_intCast_sub (i j : Int) : qrealToInt ((i : Rat) - (j : Rat)) = i - j := by
  rw [← Int.cast_sub, qrealToInt_intCast]

theorem qrealToInt_half : qrealToInt (1 / 2 : Rat) = 0 := by
  unfold qrealToInt
  rw [if_pos (by norm_num), Int.floor_eq_iff]
  norm_num

theorem linear_s16be_example :
    (bySamplesInterpolationFormat exampleHost .s16be).linear
        (examplePacket .s16be .mono false 2 1 [1, 2, 1, 2]) 0 (1 / 2) 0 1 = some [0, 0] := by
  show (DEFINE_SAMPLE_INTERPOLATION_FUNCTION exampleHost .s16be .qint16 .qint64 .BE).linear
    _ _ _ _ _ = _
  simp only [DEFINE_SAMPLE_INTERPOLATION_FUNCTION, qrealToInt_half, interpolate2,
    qrealToInt_intCast_sub]
  decide

theorem resamplePosition_example (k : Nat) :
    resamplePosition 2 3 k = some ((k : Rat) / 2) := by
  unfold resamplePosition
  rw [if_neg (by decide)]
  norm_num

theorem qFloor_qCeil_half : qFloor (1 / 2 : Rat) = 0 ∧ qCeil (1 / 2 : Rat) = 1 := by
  unfold qFloor qCeil
  constructor
  · rw [Int.floor_eq_iff]; norm_num
  · rw [Int.ceil_eq_iff]; norm_num

theorem qFloor_qCeil_natCast (n : Nat) : qFloor (n : Rat) = n ∧ qCeil (n : Rat) = n := by
  unfold qFloor qCeil
  simp

set_option maxRecDepth 1000000 in
theorem scale_linear_s16be_example :
    (examplePacket .s16be .mono false 2 1 [1, 2, 1, 2]).scale exampleHost 3 .Linear
      = some ⟨⟨.s16be, .mono, false, 8000, 3, 1⟩, [1, 2, 0, 0, 1, 2], 0, AkFrac.empty, -1, -1⟩ := by
  have hscale := scale_eq exampleHost (examplePacket .s16be .mono false 2 1 [1, 2, 1, 2]) 3
    .Linear (by decide) (by decide)
  have h0 : ∀ buf, resampleLinearStep exampleHost
      (examplePacket .s16be .mono false 2 1 [1, 2, 1, 2])
      (AkAudioPacket.alloc exampleHost
        ((examplePacket .s16be .mono false 2 1 [1, 2, 1, 2]).caps.setSamples 3))
      ((3 : Nat) : Int) 0 buf 0 = some (writeBytes buf 0 [1, 2]) := by
    intro buf
    unfold resampleLinearStep
    have hpos := resamplePosition_example 0
    simp only [Nat.cast_zero, zero_div] at hpos
    have hfc := qFloor_qCeil_natCast 0
    simp only [Nat.cast_zero] at hfc
    show (resamplePosition 2 3 0).bind _ = _
    rw [hpos]
    simp only [Option.some_bind, hfc.1, hfc.2, if_true]
    rfl
  have h1 : ∀ buf, resampleLinearStep exampleHost
      (examplePacket .s16be .mono false 2 1 [1, 2, 1, 2])
      (AkAudioPacket.alloc exampleHost
        ((examplePacket .s16be .mono false 2 1 [1, 2, 1, 2]).caps.setSamples 3))
      ((3 : Nat) : Int) 0 buf 1 = some (writeBytes buf 2 [0, 0]) := by
    intro buf
    unfold resampleLinearStep
    have hpos := resamplePosition_example 1
    simp only [Nat.cast_one] at hpos
    show (resamplePosition 2 3 1).bind _ = _
    rw [hpos]
    simp only [Option.some_bind, qFloor_qCeil_half.1, qFloor_qCeil_half.2]
    rw [if_neg (by decide)]
    show Option.map _ ((bySamplesInterpolationFormat exampleHost .s16be).linear
      (examplePacket .s16be .mono false 2 1 [1, 2, 1, 2]) 0 (1 / 2) 0 1) = _
    rw [linear_s16be_example]
    rfl
  have h2 : ∀ buf, resampleLinearStep exampleHost
      (examplePacket .s16be .mono false 2 1 [1, 2, 1, 2])
      (AkAudioPacket.alloc exampleHost
        ((examplePacket .s16be .mono false 2 1 [1, 2, 1, 2]).caps.setSamples 3))
      ((3 : Nat) : Int) 0 buf 2 = some (writeBytes buf 4 [1, 2]) := by
    intro buf
    unfold resampleLinearStep
    have hpos := resamplePosition_example 2
    have h22 : ((2 : Nat) : Rat) / 2 = ((1 : Nat) : Rat) := by norm_num
    rw [h22] at hpos
    have hfc := qFloor_qCeil_natCast 1
    show (resamplePosition 2 3 2).bind _ = _
    rw [hpos]
    simp only [Option.some_bind, hfc.1, hfc.2, if_true]
    rfl
  show (examplePacket .s16be .mono false 2 1 [1, 2, 1, 2]).scale exampleHost ((3 : Nat) : Int)
    .Linear = _
  rw [hscale]
  have hres : resample exampleHost (examplePacket .s16be .mono false 2 1 [1, 2, 1, 2])
      (AkAudioPacket.alloc exampleHost
        ((examplePacket .s16be .mono false 2 1 [1, 2, 1, 2]).caps.setSamples 3))
      ((3 : Nat) : Int)
      (if 3 < (examplePacket .s16be .mono false 2 1 [1, 2, 1, 2]).caps.samples then
        ResampleMethod.Fast else ResampleMethod.Linear) = some [1, 2, 0, 0, 1, 2] := by
    rw [if_neg (by decide)]
    show resampleLoop _ _ = _
    unfold resampleLoop
    show List.foldlM _ _ [0] = _
    have hr3 : List.range (AkAudioPacket.alloc exampleHost
        ((examplePacket .s16be .mono false 2 1 [1, 2, 1, 2]).caps.setSamples 3)).caps.samples
        = [0, 1, 2] := by decide
    simp only [List.foldlM_cons, List.foldlM_nil, hr3, h0, h1, h2, Option.bind_eq_bind,
      Option.some_bind, Option.pure_def, Option.bind_some]
    decide
  rw [hres]
  rfl

set_option maxRecDepth 1000000 in
/-- C27: the linear interpolator of a format whose byte order differs from the
host's does not write the encoding of the interpolated value.  On a little-endian
host, two adjacent `s16be` samples that both encode `258` (bytes `01 02`) are
decoded correctly, the interpolated value `258` is held in 64 bits, and
`qToBigEndian` is applied to that 64-bit value before it is narrowed to 16 bits:
the interpolator stores the bytes `00 00`, where the encoding of `258` is
`01 02`, and `scale(3, Linear)` of the two samples returns `01 02, 00 00, 01 02`.
For the host-order format `s16le` the bytes stored are those of the value. -/
theorem linear_interpolator_swaps_widened_value :
    (examplePacket .s16be .mono false 2 1 [1, 2, 1, 2]).sampleValue .big .qint16 0 0 = 258 ∧
    (examplePacket .s16be .mono false 2 1 [1, 2, 1, 2]).sampleValue .big .qint16 0 1 = 258 ∧
    (bySamplesInterpolationFormat exampleHost .s16be).linear
        (examplePacket .s16be .mono false 2 1 [1, 2, 1, 2]) 0 (1 / 2) 0 1 = some [0, 0] ∧
    bytesOfWord .big 2 (CType.qint16.ofInt 258) = [1, 2] ∧
    (examplePacket .s16be .mono false 2 1 [1, 2, 1, 2]).scale exampleHost 3 .Linear
      = some ⟨⟨.s16be, .mono, false, 8000, 3, 1⟩, [1, 2, 0, 0, 1, 2], 0, AkFrac.empty, -1, -1⟩ ∧
    (bySamplesInterpolationFormat exampleHost .s16le).linear
        (examplePacket .s16le .mono false 2 1 [2, 1, 2, 1]) 0 (1 / 2) 0 1 = some [2, 1] := by
  refine ⟨by decide, by decide, linear_s16be_example, by decide, scale_linear_s16be_example, ?_⟩
  show (DEFINE_SAMPLE_INTERPOLATION_FUNCTION exampleHost .s16le .qint16 .qint64 .LE).linear
    _ _ _ _ _ = _
  simp only [DEFINE_SAMPLE_INTERPOLATION_FUNCTION, qrealToInt_half, interpolate2,
    qrealToInt_intCast_sub]
  decide

/-! ### Structure of the conversion table -/

theorem sampleFormatConvert_eq_rows (h : Host) :
    sampleFormatConvert h
      = sampleFormatConvertRows.flatMap fun r =>
          [sampleFormatConvertFrom h r, sampleFormatConvertTo h r] := by
  simp only [sampleFormatConvert, sampleFormatConvertRows, List.flatMap_cons, List.flatMap_nil,
    DEFINE_SAMPLE_CONVERT_FUNCTION, sampleFormatConvertFrom, sampleFormatConvertTo,
    List.cons_append, List.nil_append, List.append_nil]

theorem sampleFormatConvertRows_nodup : (sampleFormatConvertRows.map Prod.fst).Nodup := by
  decide

theorem sampleFormatConvertRows_mem (X : SampleFormat) (hX : X ≠ .none) :
    ∃ r ∈ sampleFormatConvertRows, r.1 = X := by
  have hmem : X ∈ sampleFormatConvertRows.map Prod.fst := by
    cases X <;> first | exact absurd rfl hX | decide
  obtain ⟨r, hr, hrX⟩ := List.mem_map.1 hmem
  exact ⟨r, hr, hrX⟩

theorem sampleFormatConvertRows_ne_none :
    ∀ r ∈ sampleFormatConvertRows, r.1 ≠ SampleFormat.none := by
  decide

theorem sampleFormatConvert_mem (h : Host) (e : AudioSampleFormatConvert) :
    e ∈ sampleFormatConvert h ↔
      ∃ r ∈ sampleFormatConvertRows,
        e = sampleFormatConvertFrom h r ∨ e = sampleFormatConvertTo h r := by
  rw [sampleFormatConvert_eq_rows, List.mem_flatMap]
  simp only [List.mem_cons, List.mem_singleton, List.not_mem_nil, or_false]

theorem flatMap_ite_singleton {ρ α : Type} (k : ρ → SampleFormat) (g : ρ → α) (l : List ρ)
    (r0 : ρ) (hr0 : r0 ∈ l) (hnd : (l.map k).Nodup) :
    l.flatMap (fun r => if k r = k r0 then [g r] else []) = [g r0] := by
  have hnone : ∀ l' : List ρ, (∀ r ∈ l', k r ≠ k r0) →
      l'.flatMap (fun r => if k r = k r0 then [g r] else []) = [] := by
    intro l' hl'
    induction l' with
    | nil => rfl
    | cons a l' ih =>
      rw [List.flatMap_cons, if_neg (hl' a (List.mem_cons_self _ _)),
        ih (fun r hr => hl' r (List.mem_cons_of_mem _ hr))]
      rfl
  induction l with
  | nil => cases hr0
  | cons a l ih =>
    rw [List.map_cons, List.nodup_cons] at hnd
    rw [List.flatMap_cons]
    rcases List.mem_cons.1 hr0 with rfl | hmem
    · rw [if_pos rfl, hnone l (fun r hr hk => hnd.1 (hk ▸ List.mem_map_of_mem k hr))]
      rfl
    · have hne : k a ≠ k r0 := fun hk => hnd.1 (hk ▸ List.mem_map_of_mem k hmem)
      rw [if_neg hne, ih hmem hnd.2]
      rfl

theorem sampleFormatConvert_filter_from (h : Host) (r : SampleFormat × CType × CType × EndianTag)
    (hr : r ∈ sampleFormatConvertRows) (hs : r.1 ≠ SampleFormat.s64 h.endian) :
    (sampleFormatConvert h).filter (fun e => decide (e.from_ = r.1))
      = [sampleFormatConvertFrom h r] := by
  rw [sampleFormatConvert_eq_rows, List.filter_flatMap]
  have hrow : ∀ r' : SampleFormat × CType × CType × EndianTag,
      List.filter (fun e => decide (e.from_ = r.1))
        [sampleFormatConvertFrom h r', sampleFormatConvertTo h r']
      = if r'.1 = r.1 then [sampleFormatConvertFrom h r'] else [] := by
    intro r'
    have h2 : ¬ (sampleFormatConvertTo h r').from_ = r.1 := fun e => hs e.symm
    by_cases h1 : r'.1 = r.1
    · have h1' : (sampleFormatConvertFrom h r').from_ = r.1 := h1
      simp [List.filter, h1, h1', h2]
    · have h1' : ¬ (sampleFormatConvertFrom h r').from_ = r.1 := h1
      simp [List.filter, h1, h1', h2]
  simp only [hrow]
  exact flatMap_ite_singleton Prod.fst (sampleFormatConvertFrom h) _ r hr
    sampleFormatConvertRows_nodup

theorem sampleFormatConvert_filter_to (h : Host) (r : SampleFormat × CType × CType × EndianTag)
    (hr : r ∈ sampleFormatConvertRows) (hs : r.1 ≠ SampleFormat.s64 h.endian) :
    (sampleFormatConvert h).filter (fun e => decide (e.to_ = r.1))
      = [sampleFormatConvertTo h r] := by
  rw [sampleFormatConvert_eq_rows, List.filter_flatMap]
  have hrow : ∀ r' : SampleFormat × CType × CType × EndianTag,
      List.filter (fun e => decide (e.to_ = r.1))
        [sampleFormatConvertFrom h r', sampleFormatConvertTo h r']
      = if r'.1 = r.1 then [sampleFormatConvertTo h r'] else [] := by
    intro r'
    have h2 : ¬ (sampleFormatConvertFrom h r').to_ = r.1 := fun e => hs e.symm
    by_cases h1 : r'.1 = r.1
    · have h1' : (sampleFormatConvertTo h r').to_ = r.1 := h1
      simp [List.filter, h1, h1', h2]
    · have h1' : ¬ (sampleFormatConvertTo h r').to_ = r.1 := h1
      simp [List.filter, h1, h1', h2]
  simp only [hrow]
  exact flatMap_ite_singleton Prod.fst (sampleFormatConvertTo h) _ r hr
    sampleFormatConvertRows_nodup

theorem foldl_remember_of_filter (tbl : List AudioSampleFormatConvert)
    (P : AudioSampleFormatConvert → Prop) [DecidablePred P] (x : AudioSampleFormatConvert)
    (hx : tbl.filter (fun e => decide (P e)) = [x])
    (acc : Option (AkAudioPacket → AkAudioPacket)) :
    tbl.foldl (fun acc e => if P e then some e.convert else acc) acc = some x.convert := by
  have hnone : ∀ (l : List AudioSampleFormatConvert) (acc : Option (AkAudioPacket → AkAudioPacket)),
      l.filter (fun e => decide (P e)) = [] →
      l.foldl (fun acc e => if P e then some e.convert else acc) acc = acc := by
    intro l
    induction l with
    | nil => intro acc _; rfl
    | cons a l ih =>
      intro acc hl
      rw [List.filter_cons] at hl
      by_cases ha : P a
      · simp [ha] at hl
      · simp only [ha, decide_False, Bool.false_eq_true, if_false] at hl
        rw [List.foldl_cons, if_neg ha, ih acc hl]
  induction tbl generalizing acc with
  | nil => simp at hx
  | cons a l ih =>
    rw [List.filter_cons] at hx
    by_cases ha : P a
    · simp only [ha, decide_True, if_true] at hx
      obtain ⟨rfl, hl⟩ := List.cons.inj hx
      rw [List.foldl_cons, if_pos ha, hnone l _ hl]
    · simp only [ha, decide_False, Bool.false_eq_true, if_false] at hx
      rw [List.foldl_cons, if_neg ha, ih hx]

theorem convertFormatLoop_indirect (p : AkAudioPacket) (B : SampleFormat)
    (tbl : List AudioSampleFormatConvert)
    (hnd : ∀ e ∈ tbl, ¬ (e.from_ = p.caps.format ∧ e.to_ = B))
    (cf ct : Option (AkAudioPacket → AkAudioPacket)) (f g : AkAudioPacket → AkAudioPacket)
    (hf : tbl.foldl (fun acc e => if e.from_ = p.caps.format then some e.convert else acc) cf
      = some f)
    (hg : tbl.foldl (fun acc e => if e.to_ = B then some e.convert else acc) ct = some g) :
    convertFormatLoop p B tbl cf ct = g (f p) := by
  induction tbl generalizing cf ct with
  | nil =>
    simp only [List.foldl_nil] at hf hg
    subst hf hg
    rfl
  | cons e rest ih =>
    have hd := hnd e (List.mem_cons_self _ _)
    have hstep : convertFormatLoop p B (e :: rest) cf ct =
        convertFormatLoop p B rest
          (if e.from_ = p.caps.format then some e.convert else cf)
          (if e.to_ = B then some e.convert else ct) := by
      simp only [convertFormatLoop, hd, if_false]
    rw [hstep]
    exact ih (fun e' he' => hnd e' (List.mem_cons_of_mem _ he')) _ _ hf hg

/-- C30: for a buffer whose format `A` is registered, and a registered target `B`
different from `A` with no direct `(A, B)` entry in the table, the table has
exactly one entry `fromA` whose `from` is `A` and exactly one entry `toB` whose
`to` is `B`; the `to` of `fromA` is the `from` of `toB`, namely `s64`;
`convertFormat(B)` returns `toB(fromA(buffer))`, and the result has format `B`
with the layout, planar flag, rate, sample count and metadata of the source. -/
theorem convertFormat_two_hops (h : Host) (p : AkAudioPacket) (B : SampleFormat)
    (hA : ∃ e ∈ sampleFormatConvert h, e.from_ = p.caps.format)
    (hB : ∃ e ∈ sampleFormatConvert h, e.to_ = B)
    (hAB : p.caps.format ≠ B)
    (hnd : ¬ ∃ e ∈ sampleFormatConvert h, e.from_ = p.caps.format ∧ e.to_ = B) :
    ∃ fromA toB,
      (sampleFormatConvert h).filter (fun e => decide (e.from_ = p.caps.format)) = [fromA] ∧
      (sampleFormatConvert h).filter (fun e => decide (e.to_ = B)) = [toB] ∧
      fromA.to_ = toB.from_ ∧ fromA.to_ = SampleFormat.s64 h.endian ∧
      p.convertFormat h B = toB.convert (fromA.convert p) ∧
      (p.convertFormat h B).caps = p.caps.setFormat B ∧
      (p.convertFormat h B).pts = p.pts ∧ (p.convertFormat h B).timeBase = p.timeBase ∧
      (p.convertFormat h B).id = p.id ∧ (p.convertFormat h B).index = p.index := by
  have hAn : p.caps.format ≠ .none := by
    obtain ⟨e, he, hef⟩ := hA
    exact hef ▸ (sampleFormatConvert_good h e he).2.1
  have hBn : B ≠ .none := by
    obtain ⟨e, he, het⟩ := hB
    exact het ▸ (sampleFormatConvert_good h e he).1
  obtain ⟨rA, hrA, hrAf⟩ := sampleFormatConvertRows_mem _ hAn
  obtain ⟨rB, hrB, hrBf⟩ := sampleFormatConvertRows_mem _ hBn
  have hAs : rA.1 ≠ SampleFormat.s64 h.endian := by
    intro hs
    refine hnd ⟨sampleFormatConvertTo h rB,
      (sampleFormatConvert_mem h _).2 ⟨rB, hrB, Or.inr rfl⟩, ?_, hrBf⟩
    show SampleFormat.s64 h.endian = p.caps.format
    rw [← hrAf, hs]
  have hBs : rB.1 ≠ SampleFormat.s64 h.endian := by
    intro hs
    refine hnd ⟨sampleFormatConvertFrom h rA,
      (sampleFormatConvert_mem h _).2 ⟨rA, hrA, Or.inl rfl⟩, hrAf, ?_⟩
    show SampleFormat.s64 h.endian = B
    rw [← hrBf, hs]
  have hfA := sampleFormatConvert_filter_from h rA hrA hAs
  have hfB := sampleFormatConvert_filter_to h rB hrB hBs
  rw [hrAf] at hfA
  rw [hrBf] at hfB
  have hres : p.convertFormat h B
      = (sampleFormatConvertTo h rB).convert ((sampleFormatConvertFrom h rA).convert p) := by
    unfold AkAudioPacket.convertFormat
    rw [if_neg hAB]
    exact convertFormatLoop_indirect p B _ (fun e he hd => hnd ⟨e, he, hd⟩) none none _ _
      (foldl_remember_of_filter _ (fun e => e.from_ = p.caps.format) _ hfA none)
      (foldl_remember_of_filter _ (fun e => e.to_ = B) _ hfB none)
  refine ⟨sampleFormatConvertFrom h rA, sampleFormatConvertTo h rB, hfA, hfB, rfl, rfl, hres,
    ?_, ?_, ?_, ?_, ?_⟩
  · rw [hres, ← hrBf]; rfl
  all_goals rw [hres]; rfl

theorem sampleFormatConvert_direct_iff (h : Host) (X Y : SampleFormat) :
    (∃ e ∈ sampleFormatConvert h, e.from_ = X ∧ e.to_ = Y) ↔
      X ≠ .none ∧ Y ≠ .none ∧ (X = SampleFormat.s64 h.endian ∨ Y = SampleFormat.s64 h.endian) := by
  constructor
  · rintro ⟨e, he, hX, hY⟩
    obtain ⟨r, hr, rfl | rfl⟩ := (sampleFormatConvert_mem h e).1 he
    · exact ⟨hX ▸ sampleFormatConvertRows_ne_none r hr, hY ▸ s64_ne_none h.endian,
        Or.inr hY.symm⟩
    · exact ⟨hX ▸ s64_ne_none h.endian, hY ▸ sampleFormatConvertRows_ne_none r hr,
        Or.inl hX.symm⟩
  · rintro ⟨hX, hY, hs | hs⟩
    · obtain ⟨r, hr, hrY⟩ := sampleFormatConvertRows_mem Y hY
      exact ⟨sampleFormatConvertTo h r, (sampleFormatConvert_mem h _).2 ⟨r, hr, Or.inr rfl⟩,
        hs.symm, hrY⟩
    · obtain ⟨r, hr, hrX⟩ := sampleFormatConvertRows_mem X hX
      exact ⟨sampleFormatConvertFrom h r, (sampleFormatConvert_mem h _).2 ⟨r, hr, Or.inl rfl⟩,
        hrX, hs.symm⟩

/-- C29 (as amended): every entry of the conversion table pairs a format with
`s64`, the 64-bit signed integer format in host byte order: every entry goes from
a format to `s64` or from `s64` to a format; each of the 18 formats, the floating
ones included, is registered against `s64` in both directions; and a direct
entry from `X` to `Y` exists exactly when both are formats and one of them is
`s64`. -/
theorem table_registers_every_format_against_s64 (h : Host) :
    (∀ e ∈ sampleFormatConvert h,
      (e.from_ ≠ .none ∧ e.to_ = SampleFormat.s64 h.endian) ∨
      (e.from_ = SampleFormat.s64 h.endian ∧ e.to_ ≠ .none)) ∧
    (∀ X : SampleFormat, X ≠ .none →
      (∃ e ∈ sampleFormatConvert h, e.from_ = X ∧ e.to_ = SampleFormat.s64 h.endian) ∧
      (∃ e ∈ sampleFormatConvert h, e.from_ = SampleFormat.s64 h.endian ∧ e.to_ = X)) ∧
    (∀ X Y : SampleFormat, (∃ e ∈ sampleFormatConvert h, e.from_ = X ∧ e.to_ = Y) ↔
      X ≠ .none ∧ Y ≠ .none ∧
        (X = SampleFormat.s64 h.endian ∨ Y = SampleFormat.s64 h.endian)) := by
  refine ⟨fun e he => ?_, fun X hX => ⟨?_, ?_⟩, sampleFormatConvert_direct_iff h⟩
  · obtain ⟨r, hr, rfl | rfl⟩ := (sampleFormatConvert_mem h e).1 he
    · exact Or.inl ⟨sampleFormatConvertRows_ne_none r hr, rfl⟩
    · exact Or.inr ⟨rfl, sampleFormatConvertRows_ne_none r hr⟩
  · exact (sampleFormatConvert_direct_iff h X _).2 ⟨hX, s64_ne_none h.endian, Or.inr rfl⟩
  · exact (sampleFormatConvert_direct_iff h _ X).2 ⟨s64_ne_none h.endian, hX, Or.inl rfl⟩

/-- Counterexample to C29 as stated: on a little-endian host the floating format
`fltle` has a direct entry to the integer format `s64le` and one from it, and it
has no entry to or from the double-precision formats; nor has `dblle` an entry to
`dblbe`. -/
theorem table_registers_float_against_s64 :
    (∃ e ∈ sampleFormatConvert exampleHost, e.from_ = .fltle ∧ e.to_ = .s64le) ∧
    (∃ e ∈ sampleFormatConvert exampleHost, e.from_ = .s64le ∧ e.to_ = .fltle) ∧
    (¬ ∃ e ∈ sampleFormatConvert exampleHost, e.from_ = .fltle ∧ e.to_ = .dblle) ∧
    (¬ ∃ e ∈ sampleFormatConvert exampleHost, e.from_ = .dblle ∧ e.to_ = .fltle) ∧
    (¬ ∃ e ∈ sampleFormatConvert exampleHost, e.from_ = .dblle ∧ e.to_ = .dblbe) := by
  simp only [sampleFormatConvert_direct_iff]
  decide

/-- Witness of C30: a mono 16-bit little-endian packet converted to `u8` on a
little-endian host goes through `s16le -> s64le` and `s64le -> u8`. -/
theorem convertFormat_two_hops_witness :
    ((∃ e ∈ sampleFormatConvert exampleHost,
        e.from_ = (examplePacket .s16le .mono false 1 1 [232, 3]).caps.format) ∧
      (∃ e ∈ sampleFormatConvert exampleHost, e.to_ = SampleFormat.u8) ∧
      (examplePacket .s16le .mono false 1 1 [232, 3]).caps.format ≠ SampleFormat.u8 ∧
      (¬ ∃ e ∈ sampleFormatConvert exampleHost,
        e.from_ = (examplePacket .s16le .mono false 1 1 [232, 3]).caps.format ∧
          e.to_ = SampleFormat.u8)) ∧
    ∃ fromA toB,
      (sampleFormatConvert exampleHost).filter (fun e => decide (e.from_ =
        (examplePacket .s16le .mono false 1 1 [232, 3]).caps.format)) = [fromA] ∧
      (sampleFormatConvert exampleHost).filter (fun e => decide (e.to_ = SampleFormat.u8))
        = [toB] ∧
      fromA.to_ = toB.from_ ∧ fromA.to_ = SampleFormat.s64 exampleHost.endian ∧
      (examplePacket .s16le .mono false 1 1 [232, 3]).convertFormat exampleHost .u8
        = toB.convert (fromA.convert (examplePacket .s16le .mono false 1 1 [232, 3])) ∧
      ((examplePacket .s16le .mono false 1 1 [232, 3]).convertFormat exampleHost .u8).caps
        = (examplePacket .s16le .mono false 1 1 [232, 3]).caps.setFormat .u8 ∧
      ((examplePacket .s16le .mono false 1 1 [232, 3]).convertFormat exampleHost .u8).pts
        = (examplePacket .s16le .mono false 1 1 [232, 3]).pts ∧
      ((examplePacket .s16le .mono false 1 1 [232, 3]).convertFormat exampleHost .u8).timeBase
        = (examplePacket .s16le .mono false 1 1 [232, 3]).timeBase ∧
      ((examplePacket .s16le .mono false 1 1 [232, 3]).convertFormat exampleHost .u8).id
        = (examplePacket .s16le .mono false 1 1 [232, 3]).id ∧
      ((examplePacket .s16le .mono false 1 1 [232, 3]).convertFormat exampleHost .u8).index
        = (examplePacket .s16le .mono false 1 1 [232, 3]).index :=
  have hA : ∃ e ∈ sampleFormatConvert exampleHost,
      e.from_ = (examplePacket .s16le .mono false 1 1 [232, 3]).caps.format :=
    (sampleFormatConvert_direct_iff exampleHost _ _).2 ⟨by decide, by decide, Or.inr rfl⟩
      |>.imp fun _ he => ⟨he.1, he.2.1⟩
  have hB : ∃ e ∈ sampleFormatConvert exampleHost, e.to_ = SampleFormat.u8 :=
    (sampleFormatConvert_direct_iff exampleHost _ _).2 ⟨by decide, by decide, Or.inl rfl⟩
      |>.imp fun _ he => ⟨he.1, he.2.2⟩
  have hnd : ¬ ∃ e ∈ sampleFormatConvert exampleHost,
      e.from_ = (examplePacket .s16le .mono false 1 1 [232, 3]).caps.format ∧
        e.to_ = SampleFormat.u8 := by
    rw [sampleFormatConvert_direct_iff]
    decide
  ⟨⟨hA, hB, by decide, hnd⟩,
    convertFormat_two_hops exampleHost (examplePacket .s16le .mono false 1 1 [232, 3]) .u8
      hA hB (by decide) hnd⟩

/-! ### Bounding of floating-point samples -/

theorem orderedHost_floatOrder : orderedHost.floatOrder .float := by
  refine ⟨by decide, fun a b hab => ?_, fun a b c hab hbc => ?_⟩
  · have h1 : signMagnitude .float a < signMagnitude .float b := of_decide_eq_true hab
    exact decide_eq_false (not_lt.2 (le_of_lt h1))
  · have h1 : signMagnitude .float a < signMagnitude .float b := of_decide_eq_true hab
    have h2 : signMagnitude .float b < signMagnitude .float c := of_decide_eq_true hbc
    exact decide_eq_true (lt_trans h1 h2)

theorem qBound_of_floatOrder (h : Host) (t : CType) (ht : t.isFloat = true)
    (ho : h.floatOrder t) (v : Nat) :
    (h.floatLess t (Bound.toWord t .one) v = true →
      qBound h t (Bound.toWord t .negOne) v (Bound.toWord t .one) = Bound.toWord t .one) ∧
    (h.floatLess t v (Bound.toWord t .negOne) = true →
      qBound h t (Bound.toWord t .negOne) v (Bound.toWord t .one) = Bound.toWord t .negOne) ∧
    ((h.floatLess t (Bound.toWord t .negOne) v = true ∨ v = Bound.toWord t .negOne) →
      h.floatLess t (Bound.toWord t .one) v = false →
      qBound h t (Bound.toWord t .negOne) v (Bound.toWord t .one) = v) := by
  obtain ⟨hlt, hasym, htrans⟩ := ho
  simp only [qBound, qMax, qMin, lessThan, ht, if_true]
  refine ⟨fun h1 => ?_, fun h2 => ?_, fun h3 h4 => ?_⟩
  · rw [if_pos h1, if_pos hlt]
  · have h5 : h.floatLess t (Bound.toWord t .one) v = false := by
      cases hc : h.floatLess t (Bound.toWord t .one) v with
      | false => rfl
      | true =>
        have := htrans _ _ _ hlt hc
        rw [hasym _ _ h2] at this
        cases this
    have h6 : h.floatLess t (Bound.toWord t .negOne) v = false := hasym _ _ h2
    simp [h5, h6]
  · rcases h3 with h3 | h3
    · simp [h4, h3]
    · subst h3
      have : h.floatLess t (Bound.toWord t .one) (Bound.toWord t .negOne) = false := hasym _ _ hlt
      simp [this]

theorem scaleValue_eq_of_qBound_eq (h : Host) (I O Op : CType) (ht : I.isFloat = true)
    (v w : Nat)
    (hq : qBound h I (Bound.toWord I .negOne) v (Bound.toWord I .one)
      = qBound h I (Bound.toWord I .negOne) w (Bound.toWord I .one)) :
    scaleValue h I O Op v = scaleValue h I O Op w := by
  cases I <;> simp [CType.isFloat] at ht <;> simp only [scaleValue] <;> simp [hq]

/-- C28: a `float` or `qreal` source sample is bounded to `[-1, 1]` before the
affine map.  On every host whose comparison is a strict order with `-1 < 1`, for
every destination and operation type: a sample above `1` is scaled to what `1` is
scaled to, a sample below `-1` to what `-1` is scaled to, and a sample that is
`-1` or above and not above `1` is left as it is by the bounding; likewise every
converter `scaleValueFrom..To..`, which applies `scaleValue` to the decoded
sample, gives for a sample that decodes above `1` (below `-1`) what it gives for
a sample that decodes to `1` (to `-1`). -/
theorem scaleValue_clamps_float_input (h : Host) (I O Op : CType) (hI : I.isFloat = true)
    (ho : h.floatOrder I) (v : Nat) :
    (h.floatLess I (Bound.toWord I .one) v = true →
      scaleValue h I O Op v = scaleValue h I O Op (Bound.toWord I .one)) ∧
    (h.floatLess I v (Bound.toWord I .negOne) = true →
      scaleValue h I O Op v = scaleValue h I O Op (Bound.toWord I .negOne)) ∧
    ((h.floatLess I (Bound.toWord I .negOne) v = true ∨ v = Bound.toWord I .negOne) →
      h.floatLess I (Bound.toWord I .one) v = false →
      qBound h I (Bound.toWord I .negOne) v (Bound.toWord I .one) = v) ∧
    (∀ (inEndian outEndian : EndianTag) (w : Nat),
      (h.floatLess I (Bound.toWord I .one) (mixChannelsFromEndian h inEndian I v) = true →
        mixChannelsFromEndian h inEndian I w = Bound.toWord I .one →
        scaleValueFrom h inEndian outEndian I O Op v
          = scaleValueFrom h inEndian outEndian I O Op w) ∧
      (h.floatLess I (mixChannelsFromEndian h inEndian I v) (Bound.toWord I .negOne) = true →
        mixChannelsFromEndian h inEndian I w = Bound.toWord I .negOne →
        scaleValueFrom h inEndian outEndian I O Op v
          = scaleValueFrom h inEndian outEndian I O Op w)) := by
  have hone := qBound_of_floatOrder h I hI ho (Bound.toWord I .one)
  have hneg := qBound_of_floatOrder h I hI ho (Bound.toWord I .negOne)
  have hasym := ho.2.1
  have q1 : qBound h I (Bound.toWord I .negOne) (Bound.toWord I .one) (Bound.toWord I .one)
      = Bound.toWord I .one :=
    hone.2.2 (Or.inl ho.1) (by
      cases hc : h.floatLess I (Bound.toWord I .one) (Bound.toWord I .one) with
      | false => rfl
      | true => rw [hasym _ _ hc] at hc; cases hc)
  have q2 : qBound h I (Bound.toWord I .negOne) (Bound.toWord I .negOne) (Bound.toWord I .one)
      = Bound.toWord I .negOne :=
    hneg.2.2 (Or.inr rfl) (hasym _ _ ho.1)
  have key1 : ∀ x, h.floatLess I (Bound.toWord I .one) x = true →
      scaleValue h I O Op x = scaleValue h I O Op (Bound.toWord I .one) := fun x hx =>
    scaleValue_eq_of_qBound_eq h I O Op hI _ _
      (((qBound_of_floatOrder h I hI ho x).1 hx).trans q1.symm)
  have key2 : ∀ x, h.floatLess I x (Bound.toWord I .negOne) = true →
      scaleValue h I O Op x = scaleValue h I O Op (Bound.toWord I .negOne) := fun x hx =>
    scaleValue_eq_of_qBound_eq h I O Op hI _ _
      (((qBound_of_floatOrder h I hI ho x).2.1 hx).trans q2.symm)
  refine ⟨key1 v, key2 v, (qBound_of_floatOrder h I hI ho v).2.2,
    fun inEndian outEndian w => ?_⟩
  constructor
  · intro hx hw
    have := key1 _ hx
    rw [← hw] at this
    cases inEndian <;> cases outEndian <;>
      simp only [scaleValueFrom, scaleValueFrom_To_, scaleValueFrom_ToLE, scaleValueFrom_ToBE,
        scaleValueFromLETo_, scaleValueFromLEToLE, scaleValueFromLEToBE, scaleValueFromBETo_,
        scaleValueFromBEToLE, scaleValueFromBEToBE, mixChannelsFromEndian] at this ⊢ <;>
      rw [this]
  · intro hx hw
    have := key2 _ hx
    rw [← hw] at this
    cases inEndian <;> cases outEndian <;>
      simp only [scaleValueFrom, scaleValueFrom_To_, scaleValueFrom_ToLE, scaleValueFrom_ToBE,
        scaleValueFromLETo_, scaleValueFromLEToLE, scaleValueFromLEToBE, scaleValueFromBETo_,
        scaleValueFromBEToLE, scaleValueFromBEToBE, mixChannelsFromEndian] at this ⊢ <;>
      rw [this]

set_option maxRecDepth 1000000 in
/-- Witness of C28: on the host that orders floating-point words by sign and
magnitude, the `float` sample `2.0` (`0x40000000`) is scaled to what `1.0` is
scaled to, and `-2.0` (`0xC0000000`) to what `-1.0` is scaled to. -/
theorem scaleValue_clamps_float_input_witness :
    (CType.float.isFloat = true ∧ orderedHost.floatOrder .float) ∧
    orderedHost.floatLess .float (Bound.toWord .float .one) 0x40000000 = true ∧
    scaleValue orderedHost .float .qint64 .qreal 0x40000000
      = scaleValue orderedHost .float .qint64 .qreal (Bound.toWord .float .one) ∧
    orderedHost.floatLess .float 0xC0000000 (Bound.toWord .float .negOne) = true ∧
    scaleValue orderedHost .float .qint64 .qreal 0xC0000000
      = scaleValue orderedHost .float .qint64 .qreal (Bound.toWord .float .negOne) :=
  ⟨⟨rfl, orderedHost_floatOrder⟩, by decide,
    (scaleValue_clamps_float_input orderedHost .float .qint64 .qreal rfl orderedHost_floatOrder
      0x40000000).1 (by decide),
    by decide,
    (scaleValue_clamps_float_input orderedHost .float .qint64 .qreal rfl orderedHost_floatOrder
      0xC0000000).2.1 (by decide)⟩

/-! ### The buffer-length invariant -/

theorem resample_fast_one_sample (h : Host) (this packet : AkAudioPacket)
    (hc : 1 ≤ packet.caps.channels) (hs : 1 ≤ packet.caps.samples) :
    resample h this packet 1 .Fast = none := by
  show resampleLoop packet (resampleFastStep this packet 1) = none
  unfold resampleLoop
  obtain ⟨c, hc'⟩ : ∃ c, packet.caps.channels = c + 1 := ⟨packet.caps.channels - 1, by omega⟩
  obtain ⟨s, hs'⟩ : ∃ s, packet.caps.samples = s + 1 := ⟨packet.caps.samples - 1, by omega⟩
  rw [hc', hs', List.range_succ_eq_map, List.range_succ_eq_map, List.foldlM_cons,
    List.foldlM_cons]
  rfl

theorem scale_one_eq_none (h : Host) (p : AkAudioPacket) (m : ResampleMethod)
    (hc : 1 ≤ p.caps.channels) (hs : 2 ≤ p.caps.samples) : p.scale h 1 m = none := by
  have e := scale_eq h p 1 m (by omega) (by omega)
  rw [if_pos (by omega)] at e
  show p.scale h ((1 : Nat) : Int) m = none
  rw [e, Option.map_eq_none']
  exact resample_fast_one_sample h p _ hc (by show 1 ≤ 1; omega)

/-- C36: resampling to one sample has no result.  The target count 1 is accepted
by `scale` (only counts below 1 are refused), and every method then divides by
`samples - 1 = 0`: `scale(1, method)` of a buffer with at least one channel and
two samples is an execution with undefined behaviour, as is every step of the
three loops.  Nor does the Fast index stay in `[0, N - 1]` once its `int` product
overflows: for `N = 65537` and `n = 65538` output sample `32768` gets the index
`-32767`. -/
theorem scale_to_one_sample_divides_by_zero :
    (∀ (h : Host) (p : AkAudioPacket) (m : ResampleMethod),
      1 ≤ p.caps.channels → 2 ≤ p.caps.samples → p.scale h 1 m = none) ∧
    (∀ m : ResampleMethod, exampleRamp.scale exampleHost 1 m = none) ∧
    (∀ (h : Host) (this packet : AkAudioPacket) (c : Nat) (buf : List Byte) (k : Nat),
      resampleFastStep this packet 1 c buf k = none ∧
      resampleLinearStep h this packet 1 c buf k = none ∧
      resampleQuadraticStep h this packet 1 c buf k = none) ∧
    resampleFastIndex 65537 65538 32768 = -32767 :=
  ⟨fun h p m hc hs => scale_one_eq_none h p m hc hs,
    fun m => scale_one_eq_none exampleHost exampleRamp m (by decide) (by decide),
    fun _ _ _ _ _ _ => ⟨rfl, rfl, rfl⟩, by decide⟩

theorem resampleFastIndex_eq_div (N n k : Nat) (hN : 1 ≤ N) (hn : 2 ≤ n) (hk : k < n)
    (hov : (n - 1) * (N - 1) < 2 ^ 31) :
    resampleFastIndex N (n : Int) k = ((k * (N - 1) / (n - 1) : Nat) : Int) :=
  resampleFastIndex_eq N n k hN hn hk hov

theorem div_map_onto (a b i : Nat) (hab : a ≤ b) (hb : 1 ≤ b) (hi : i ≤ a) :
    ∃ k, k ≤ b ∧ k * a / b = i := by
  rcases Nat.eq_zero_or_pos a with ha | ha
  · subst ha
    exact ⟨0, by omega, by simp; omega⟩
  · refine ⟨(i * b + (a - 1)) / a, ?_, ?_⟩
    · have h1 : i * b + (a - 1) < (b + 1) * a := by
        have : i * b ≤ a * b := Nat.mul_le_mul_right _ hi
        have e : (b + 1) * a = a * b + a := by ring
        omega
      have := (Nat.div_lt_iff_lt_mul ha).2 h1
      omega
    · have hlo := Nat.div_mul_le_self (i * b + (a - 1)) a
      have hhi := Nat.lt_div_mul_add (a := i * b + (a - 1)) ha
      apply Nat.div_eq_of_lt_le
      · omega
      · have e : (i + 1) * b = i * b + b := by ring
        omega

theorem fastIndex_map_spec (N n : Nat) (hN : 1 ≤ N) (hn : max N 2 ≤ n)
    (hov : (n - 1) * (N - 1) < 2 ^ 31) :
    (∀ j k, j ≤ k → k < n →
      resampleFastIndex N (n : Int) j ≤ resampleFastIndex N (n : Int) k) ∧
    resampleFastIndex N (n : Int) 0 = 0 ∧
    resampleFastIndex N (n : Int) (n - 1) = ((N - 1 : Nat) : Int) ∧
    (∀ i, i < N → ∃ k, k < n ∧ resampleFastIndex N (n : Int) k = (i : Int)) := by
  have hn2 : 2 ≤ n := le_trans (le_max_right _ _) hn
  have hnN : N ≤ n := le_trans (le_max_left _ _) hn
  refine ⟨fun j k hjk hk => ?_, ?_, ?_, fun i hi => ?_⟩
  · rw [resampleFastIndex_eq_div N n j hN hn2 (by omega) hov,
      resampleFastIndex_eq_div N n k hN hn2 hk hov]
    exact Int.ofNat_le.2 (Nat.div_le_div_right (Nat.mul_le_mul_right _ hjk))
  · rw [resampleFastIndex_eq_div N n 0 hN hn2 (by omega) hov]
    simp
  · rw [resampleFastIndex_eq_div N n (n - 1) hN hn2 (by omega) hov,
      Nat.mul_div_cancel_left _ (by omega : 0 < n - 1)]
  · obtain ⟨k, hk, hki⟩ := div_map_onto (N - 1) (n - 1) i (by omega) (by omega) (by omega)
    refine ⟨k, by omega, ?_⟩
    rw [resampleFastIndex_eq_div N n k hN hn2 (by omega) hov, hki]

set_option maxRecDepth 100000 in
/-- C38: the Fast source index `sample * (samples() - 1) / (samples - 1)`
is computed in `int`.  While `(n - 1) * (N - 1) < 2 ^ 31` the map is
`k ↦ k * (N - 1) / (n - 1)`: non-decreasing on `0 ≤ k < n`, sending `0` to `0`
and `n - 1` to `N - 1`, and onto `{0, ..., N - 1}`.  For `N = 65537` and
`n = 65538` the product overflows: output sample `32767` takes input sample
`32766`, output sample `32768` gets the index `-32767`, and the last output
sample `65537` gets the index `0` instead of `65536`. -/
theorem fast_index_map_overflows_int :
    (∀ N n : Nat, 1 ≤ N → max N 2 ≤ n → (n - 1) * (N - 1) < 2 ^ 31 →
      (∀ j k, j ≤ k → k < n →
        resampleFastIndex N (n : Int) j ≤ resampleFastIndex N (n : Int) k) ∧
      resampleFastIndex N (n : Int) 0 = 0 ∧
      resampleFastIndex N (n : Int) (n - 1) = ((N - 1 : Nat) : Int) ∧
      (∀ i, i < N → ∃ k, k < n ∧ resampleFastIndex N (n : Int) k = (i : Int))) ∧
    (∀ (this packet : AkAudioPacket) (n c k : Nat) (buf : List Byte), 2 ≤ n →
      resampleFastStep this packet (n : Int) c buf k
        = some (memcpyAt buf (packet.sample c k) this.buffer
            (this.constSample c (resampleFastIndex this.caps.samples (n : Int) k))
            (packet.caps.bps / 8))) ∧
    max 65537 2 ≤ 65538 ∧
    resampleFastIndex 65537 65538 32767 = 32766 ∧
    resampleFastIndex 65537 65538 32768 = -32767 ∧
    resampleFastIndex 65537 65538 65537 = 0 := by
  refine ⟨fun N n hN hn hov => fastIndex_map_spec N n hN hn hov,
    fun this packet n c k buf hn => ?_, by decide, by decide, by decide, by decide⟩
  unfold resampleFastStep
  rw [if_neg (by omega)]

/-! ### Support points of the Quadratic method -/

theorem wrap_qint64_of_range (x : Int) (h1 : -(2 ^ 63) ≤ x) (h2 : x < 2 ^ 63) :
    CType.qint64.wrap x = x := by
  simp only [CType.wrap, CType.ofInt, CType.toInt, CType.bits, CType.sizeof, CType.isSigned]
  norm_num
  split <;> omega

theorem interpolate3Det_consecutive (endian : EndianTag) (s : Int) (hs : 0 ≤ s)
    (hmax : s + 2 < 2 ^ 31) :
    interpolate3Det endian .qint64 s (s + 1) (s + 2) = -(s + 3) := by
  have e1 : s + 1 - (s + 2) = -1 := by ring
  have e2 : s - (s + 2) = -2 := by ring
  have e3 : s - (s + 1) = -1 := by ring
  have e4 : (s + 1) * (s + 2) - (s + 2) * (s + 1) = 0 := by ring
  have e5 : s * (s + 2) - (s + 2) * s = 0 := by ring
  have e6 : s * (s + 1) - (s + 1) * s = 0 := by ring
  have w1 : CType.qint32.wrap (-1) = -1 := by decide
  have w2 : CType.qint32.wrap (-2) = -2 := by decide
  have w3 : CType.qint32.wrap 0 = 0 := by decide
  have v1 : CType.qint64.wrap (-1) = -1 := by decide
  have v2 : CType.qint64.wrap (-2) = -2 := by decide
  have v3 : CType.qint64.wrap 0 = 0 := by decide
  have a0 := wrap_qint32_of_range s (by omega) (by omega)
  have a1 := wrap_qint32_of_range (s + 1) (by omega) (by omega)
  have a2 := wrap_qint32_of_range (s + 2) (by omega) (by omega)
  have b0 := wrap_qint64_of_range s (by omega) (by omega)
  have b1 := wrap_qint64_of_range (s + 1) (by omega) (by omega)
  have b2 := wrap_qint64_of_range (s + 2) (by omega) (by omega)
  have fin : ∀ y : Int, y = -(s + 3) → CType.qint64.wrap y = -(s + 3) := by
    intro y hy
    rw [hy]
    exact wrap_qint64_of_range _ (by omega) (by omega)
  cases endian
  · unfold interpolate3Det
    simp only [CType.promote]
    rw [a0, a1, a2, e1, e2, e3, e4, e5, e6, w1, w2, w3, v1, v2, v3]
    exact fin _ (by ring)
  · unfold interpolate3Det
    simp only [CType.promote]
    rw [b0, b1, b2, e1, e2, e3, e4, e5, e6, w1, v1, v1, v2, v2, v3, v3]
    exact fin _ (by ring)
  · unfold interpolate3Det
    simp only [CType.promote]
    rw [b0, b1, b2, e1, e2, e3, e4, e5, e6, w1, v1, v1, v2, v2, v3, v3]
    exact fin _ (by ring)

theorem bySamplesInterpolationFormat_row (h : Host) (f : SampleFormat) :
    ∃ sitype itype optype endian,
      bySamplesInterpolationFormat h f
        = DEFINE_SAMPLE_INTERPOLATION_FUNCTION h sitype itype optype endian ∧
      (optype = .qint64 ∨ optype.isFloat = true) := by
  cases f
  case none => exact ⟨_, _, _, _, rfl, Or.inl rfl⟩
  case s8 => exact ⟨_, _, _, _, rfl, Or.inl rfl⟩
  case u8 => exact ⟨_, _, _, _, rfl, Or.inl rfl⟩
  case s16le => exact ⟨_, _, _, _, rfl, Or.inl rfl⟩
  case s16be => exact ⟨_, _, _, _, rfl, Or.inl rfl⟩
  case u16le => exact ⟨_, _, _, _, rfl, Or.inl rfl⟩
  case u16be => exact ⟨_, _, _, _, rfl, Or.inl rfl⟩
  case s32le => exact ⟨_, _, _, _, rfl, Or.inl rfl⟩
  case s32be => exact ⟨_, _, _, _, rfl, Or.inl rfl⟩
  case u32le => exact ⟨_, _, _, _, rfl, Or.inl rfl⟩
  case u32be => exact ⟨_, _, _, _, rfl, Or.inl rfl⟩
  case s64le => exact ⟨_, _, _, _, rfl, Or.inr rfl⟩
  case s64be => exact ⟨_, _, _, _, rfl, Or.inr rfl⟩
  case u64le => exact ⟨_, _, _, _, rfl, Or.inr rfl⟩
  case u64be => exact ⟨_, _, _, _, rfl, Or.inr rfl⟩
  case fltle => exact ⟨_, _, _, _, rfl, Or.inr rfl⟩
  case fltbe => exact ⟨_, _, _, _, rfl, Or.inr rfl⟩
  case dblle => exact ⟨_, _, _, _, rfl, Or.inr rfl⟩
  case dblbe => exact ⟨_, _, _, _, rfl, Or.inr rfl⟩

theorem interpolate3_some_of_det (h : Host) (endian : EndianTag) (S T : CType)
    (packet : AkAudioPacket) (channel : Nat) (x : Rat) (s1 s2 s3 : Int)
    (hdet : T.isFloat = true ∨ interpolate3Det endian T s1 s2 s3 ≠ 0) :
    ∃ w, interpolate3 h endian S T packet channel x s1 s2 s3 = some w := by
  unfold interpolate3
  simp only []
  split
  · exact ⟨_, rfl⟩
  · rename_i hf
    rcases hdet with hdet | hdet
    · simp [hdet] at hf
    · rw [if_neg hdet]
      split <;> exact ⟨_, rfl⟩

theorem quadratic_some_of_consecutive (h : Host) (format : SampleFormat)
    (packet : AkAudioPacket) (channel : Nat) (x : Rat) (s : Int) (hs : 0 ≤ s)
    (hmax : s + 2 < 2 ^ 31) :
    ∃ bytes, (bySamplesInterpolationFormat h format).quadratic packet channel x
      s (s + 1) (s + 2) = some bytes := by
  obtain ⟨sitype, itype, optype, endian, hrow, hop⟩ := bySamplesInterpolationFormat_row h format
  rw [hrow]
  have hdet : optype.isFloat = true ∨ interpolate3Det endian optype s (s + 1) (s + 2) ≠ 0 := by
    rcases hop with rfl | hop
    · right
      rw [interpolate3Det_consecutive endian s hs hmax]
      omega
    · exact Or.inl hop
  obtain ⟨w, hw⟩ := interpolate3_some_of_det h endian itype optype packet channel
    ((qrealToInt x : Int) : Rat) s (s + 1) (s + 2) hdet
  exact ⟨bytesOfWord h.endian itype.sizeof w, by
    show Option.map _ (interpolate3 h endian itype optype packet channel _ s (s + 1) (s + 2)) = _
    rw [hw]; rfl⟩

/-- C39: on a triple of consecutive indices `(s, s + 1, s + 2)` with `s ≥ 0`
(indices are `int`s, so `s + 2 < 2 ^ 31`) the value `det` of the three-point
interpolator of every integer row of the table is `-(s + 3)`, which is not
zero; the quadratic interpolator registered for any format returns a value
there (no division by zero). -/
theorem quadratic_det_ne_zero_on_consecutive_indices (s : Int) (hs : 0 ≤ s)
    (hmax : s + 2 < 2 ^ 31) :
    (∀ endian : EndianTag, interpolate3Det endian .qint64 s (s + 1) (s + 2) = -(s + 3) ∧
      interpolate3Det endian .qint64 s (s + 1) (s + 2) ≠ 0) ∧
    (∀ (h : Host) (format : SampleFormat) (packet : AkAudioPacket) (channel : Nat) (x : Rat),
      ∃ bytes, (bySamplesInterpolationFormat h format).quadratic packet channel x
        s (s + 1) (s + 2) = some bytes) := by
  refine ⟨fun endian => ⟨interpolate3Det_consecutive endian s hs hmax, ?_⟩,
    fun h format packet channel x => quadratic_some_of_consecutive h format packet channel x s
      hs hmax⟩
  rw [interpolate3Det_consecutive endian s hs hmax]
  omega

/-- Witness of C39 on the indices `(5, 6, 7)`. -/
theorem quadratic_det_ne_zero_on_consecutive_indices_witness :
    (0 : Int) ≤ 5 ∧ (5 : Int) + 2 < 2 ^ 31 ∧
    interpolate3Det .LE .qint64 5 (5 + 1) (5 + 2) = -(5 + 3) :=
  ⟨by decide, by decide,
    ((quadratic_det_ne_zero_on_consecutive_indices 5 (by decide) (by decide)).1 .LE).1⟩

theorem qCeil_eq_qFloor_add_one (x : Rat) (hne : qFloor x ≠ qCeil x) :
    qCeil x = qFloor x + 1 ∧ ((qFloor x : Int) : Rat) < x ∧ x < ((qFloor x : Int) : Rat) + 1 := by
  unfold qFloor qCeil at *
  have h1 := Int.floor_le x
  have h2 := Int.lt_floor_add_one x
  have h3 : ⌊x⌋ ≤ ⌈x⌉ := Int.floor_le_ceil x
  have h4 : ⌈x⌉ ≤ ⌊x⌋ + 1 := Int.ceil_le_floor_add_one x
  have h5 : ((⌊x⌋ : Int) : Rat) ≠ x := by
    intro e
    apply hne
    rw [← e, Int.floor_intCast, Int.ceil_intCast]
  exact ⟨by omega, lt_of_le_of_ne h1 h5, h2⟩

theorem nearer_iff (f : Int) (x : Rat) :
    (((f : Rat) - x) * ((f : Rat) - x) < (((f + 1 : Int) : Rat) - x) * (((f + 1 : Int) : Rat) - x))
      ↔ x - (f : Rat) < ((f + 1 : Int) : Rat) - x := by
  push_cast
  constructor
  · intro h
    nlinarith
  · intro h
    nlinarith

theorem thirdPoint_cases {α : Type} (f N : Int) (cmp : Prop) [Decidable cmp]
    (L : Int → Int → α) (Q : Int → Int → Int → α) (hf0 : 0 ≤ f) (hcN : f + 1 ≤ N - 1)
    (mid : Int) (hmid : mid = if cmp then max (f - 1) 0 else min (f + 1 + 1) (N - 1)) :
    ((mid = f ∨ mid = f + 1) ↔ (cmp ∧ f = 0) ∨ (¬ cmp ∧ f + 1 = N - 1)) ∧
    (¬ (mid = f ∨ mid = f + 1) → 0 ≤ min f mid ∧ min f mid + 2 ≤ N - 1) ∧
    (if (if (if mid < f then f else mid) > f + 1 then f + 1 else if mid < f then f else mid)
          = (if mid < f then mid else f) ∨
        (if (if mid < f then f else mid) > f + 1 then f + 1 else if mid < f then f else mid)
          = (if (if mid < f then f else mid) > f + 1 then (if mid < f then f else mid)
              else f + 1)
      then L (if mid < f then mid else f)
        (if (if mid < f then f else mid) > f + 1 then (if mid < f then f else mid) else f + 1)
      else Q (if mid < f then mid else f)
        (if (if mid < f then f else mid) > f + 1 then f + 1 else if mid < f then f else mid)
        (if (if mid < f then f else mid) > f + 1 then (if mid < f then f else mid) else f + 1))
      = if mid = f ∨ mid = f + 1 then L f (f + 1)
        else Q (min f mid) (min f mid + 1) (min f mid + 2) := by
  by_cases hcmp : cmp
  · rw [if_pos hcmp] at hmid
    by_cases hfz : f = 0
    · have hm : mid = f := by rw [hmid, hfz]; rfl
      subst hm
      refine ⟨by simp [hcmp, hfz], by simp, ?_⟩
      simp
    · have hm : mid = f - 1 := by rw [hmid]; exact max_eq_left (by omega)
      subst hm
      refine ⟨?_, ?_, ?_⟩
      · constructor
        · intro h; omega
        · rintro (⟨_, h⟩ | ⟨h, _⟩)
          · exact absurd h hfz
          · exact absurd hcmp h
      · intro _
        rw [min_eq_right (by omega)]
        omega
      · have c1 : f - 1 < f := by omega
        have c2 : ¬ (f > f + 1) := by omega
        have c3 : ¬ (f = f - 1 ∨ f = f + 1) := by omega
        have c4 : ¬ (f - 1 = f ∨ f - 1 = f + 1) := by omega
        simp only [c1, c2, c3, c4, if_true, if_false]
        rw [min_eq_right (by omega)]
        have e1 : f - 1 + 1 = f := by omega
        have e2 : f - 1 + 2 = f + 1 := by omega
        rw [e1, e2]
  · rw [if_neg hcmp] at hmid
    by_cases hcz : f + 1 = N - 1
    · have hm : mid = f + 1 := by rw [hmid, ← hcz]; exact min_eq_right (by omega)
      subst hm
      refine ⟨by simp [hcmp, hcz], by simp, ?_⟩
      have c1 : ¬ (f + 1 < f) := by omega
      have c2 : ¬ (f + 1 > f + 1) := by omega
      simp only [c1, c2, if_false, or_true, if_true]
    · have hm : mid = f + 1 + 1 := by rw [hmid]; exact min_eq_left (by omega)
      subst hm
      refine ⟨?_, ?_, ?_⟩
      · constructor
        · intro h; omega
        · rintro (⟨h, _⟩ | ⟨_, h⟩)
          · exact absurd h hcmp
          · exact absurd h hcz
      · intro _
        rw [min_eq_left (by omega)]
        omega
      · have c1 : ¬ (f + 1 + 1 < f) := by omega
        have c2 : f + 1 + 1 > f + 1 := by omega
        have c3 : ¬ (f + 1 = f ∨ f + 1 = f + 1 + 1) := by omega
        have c4 : ¬ (f + 1 + 1 = f ∨ f + 1 + 1 = f + 1) := by omega
        simp only [c1, c2, c3, c4, if_true, if_false]
        rw [min_eq_left (by omega)]
        have e2 : f + 2 = f + 1 + 1 := by omega
        rw [e2]

theorem thirdPoint_empty {α : Type} (cmp : Prop) [Decidable cmp]
    (L : Int → Int → α) (Q : Int → Int → Int → α) (f N mid : Int) (hf : f = -1) (hN : N = 0)
    (hmid : mid = if cmp then max (f - 1) 0 else min (f + 1 + 1) (N - 1)) :
    (if (if (if mid < f then f else mid) > f + 1 then f + 1 else if mid < f then f else mid)
          = (if mid < f then mid else f) ∨
        (if (if mid < f then f else mid) > f + 1 then f + 1 else if mid < f then f else mid)
          = (if (if mid < f then f else mid) > f + 1 then (if mid < f then f else mid)
              else f + 1)
      then L (if mid < f then mid else f)
        (if (if mid < f then f else mid) > f + 1 then (if mid < f then f else mid) else f + 1)
      else Q (if mid < f then mid else f)
        (if (if mid < f then f else mid) > f + 1 then f + 1 else if mid < f then f else mid)
        (if (if mid < f then f else mid) > f + 1 then (if mid < f then f else mid) else f + 1))
      = L f (f + 1) := by
  subst hf hN
  by_cases hcmp : cmp
  · rw [if_pos hcmp] at hmid
    have hm : mid = 0 := by rw [hmid]; rfl
    subst hm
    simp
  · rw [if_neg hcmp] at hmid
    have hm : mid = -1 := by rw [hmid]; rfl
    subst hm
    simp

theorem quadraticStep_unfold (h : Host) (this packet : AkAudioPacket) (oSamples : Int)
    (channel : Nat) (buf : List Byte) (sample : Nat) (x : Rat)
    (hpos : resamplePosition this.caps.samples oSamples sample = some x)
    (hni : qFloor x ≠ qCeil x) (f N mid : Int) (hf : f = qFloor x)
    (hN : N = (this.caps.samples : Int))
    (hmid : mid = if x - (f : Rat) < ((f + 1 : Int) : Rat) - x then max (f - 1) 0
      else min (f + 1 + 1) (N - 1))
    (L : Int → Int → Option (List Byte)) (Q : Int → Int → Int → Option (List Byte))
    (hL : L = fun a b => ((bySamplesInterpolationFormat h packet.caps.format).linear this
      channel x a b).map fun bytes =>
        memcpy buf (packet.sample channel sample) (interpolatedData h bytes) 0
          (packet.caps.bps / 8))
    (hQ : Q = fun a b c => ((bySamplesInterpolationFormat h packet.caps.format).quadratic this
      channel x a b c).map fun bytes =>
        memcpy buf (packet.sample channel sample) (interpolatedData h bytes) 0
          (packet.caps.bps / 8)) :
    resampleQuadraticStep h this packet oSamples channel buf sample =
      (if (if (if mid < f then f else mid) > f + 1 then f + 1 else if mid < f then f else mid)
          = (if mid < f then mid else f) ∨
        (if (if mid < f then f else mid) > f + 1 then f + 1 else if mid < f then f else mid)
          = (if (if mid < f then f else mid) > f + 1 then (if mid < f then f else mid)
              else f + 1)
      then L (if mid < f then mid else f)
        (if (if mid < f then f else mid) > f + 1 then (if mid < f then f else mid) else f + 1)
      else Q (if mid < f then mid else f)
        (if (if mid < f then f else mid) > f + 1 then f + 1 else if mid < f then f else mid)
        (if (if mid < f then f else mid) > f + 1 then (if mid < f then f else mid)
          else f + 1)) := by
  obtain ⟨hc, -, -⟩ := qCeil_eq_qFloor_add_one x hni
  have hnear := nearer_iff (qFloor x) x
  unfold resampleQuadraticStep
  rw [hpos]
  simp only [Option.some_bind]
  rw [if_neg hni]
  subst hL hQ
  rw [← hf] at hc hnear ⊢
  rw [hc, ← hN]
  simp only [hnear]
  rw [← hmid]

theorem resamplePosition_natCast (N n k : Nat) (hN : 1 ≤ N) (hn : 2 ≤ n) :
    resamplePosition N (n : Int) k
      = some (((k * (N - 1) : Nat) : Rat) / ((n - 1 : Nat) : Rat)) := by
  unfold resamplePosition
  rw [if_neg (by omega)]
  have h1 : ((N : Int) - 1) = ((N - 1 : Nat) : Int) := by omega
  have h2 : ((n : Int) - 1) = ((n - 1 : Nat) : Int) := by omega
  rw [h1, h2]
  push_cast
  rfl

theorem resamplePosition_bounds (N n k : Nat) (hN : 1 ≤ N) (hn : 2 ≤ n) (hk : k < n) (x : Rat)
    (hpos : resamplePosition N (n : Int) k = some x) :
    0 ≤ x ∧ x ≤ ((N : Int) : Rat) - 1 ∧ qFloor x = ((k * (N - 1) / (n - 1) : Nat) : Int) := by
  rw [resamplePosition_natCast N n k hN hn] at hpos
  obtain rfl := Option.some.inj hpos
  have hd : (0 : Rat) < ((n - 1 : Nat) : Rat) := by
    have : 0 < n - 1 := by omega
    exact_mod_cast this
  refine ⟨div_nonneg (Nat.cast_nonneg _) (le_of_lt hd), ?_, ?_⟩
  · rw [div_le_iff₀ hd]
    have h1 : k * (N - 1) ≤ (N - 1) * (n - 1) := by
      rw [Nat.mul_comm]
      exact Nat.mul_le_mul_left _ (by omega)
    have h2 : (((N : Int) : Rat) - 1) = ((N - 1 : Nat) : Rat) := by
      push_cast [Nat.cast_sub hN]
      ring
    rw [h2]
    exact_mod_cast h1
  · unfold qFloor
    exact Rat.floor_natCast_div_natCast _ _

theorem resamplePosition_empty (n k : Nat) (hn : 2 ≤ n) (hk : k < n) (x : Rat)
    (hpos : resamplePosition 0 (n : Int) k = some x) (hni : qFloor x ≠ qCeil x) :
    qFloor x = -1 := by
  unfold resamplePosition at hpos
  rw [if_neg (by omega)] at hpos
  obtain rfl := Option.some.inj hpos
  obtain ⟨-, h1, h2⟩ := qCeil_eq_qFloor_add_one _ hni
  have hd : (0 : Rat) < (((n : Int) - 1 : Int) : Rat) := by
    have : (0 : Int) < (n : Int) - 1 := by omega
    exact_mod_cast this
  have e : (k : Rat) * ((((0 : Nat) : Int) - 1 : Int) : Rat) / (((n : Int) - 1 : Int) : Rat)
      = -((k : Rat) / (((n : Int) - 1 : Int) : Rat)) := by
    push_cast
    ring
  rw [e] at h1 h2 ⊢
  have hk0 : (0 : Rat) ≤ (k : Rat) / (((n : Int) - 1 : Int) : Rat) :=
    div_nonneg (Nat.cast_nonneg _) (le_of_lt hd)
  have hk1 : (k : Rat) / (((n : Int) - 1 : Int) : Rat) ≤ 1 := by
    rw [div_le_one hd]
    have : (k : Int) ≤ (n : Int) - 1 := by omega
    exact_mod_cast this
  set y := (k : Rat) / (((n : Int) - 1 : Int) : Rat) with hy
  have hlt : ((qFloor (-y) : Int) : Rat) < 0 := by linarith
  have hgt : (-2 : Rat) < ((qFloor (-y) : Int) : Rat) := by linarith
  have a1 : qFloor (-y) < 0 := by exact_mod_cast hlt
  have a2 : (-2 : Int) < qFloor (-y) := by exact_mod_cast hgt
  omega

/-- C35: third-point selection of the Quadratic method.  For an output sample
whose source position `x` is not an integer, with `f = qFloor x` and
`c = qCeil x` in a buffer of `N ≥ 1` samples, the third index is
`max (f - 1) 0` when `x` is strictly nearer to `f` than to `c` and
`min (c + 1) (N - 1)` otherwise; it equals `f` or `c` exactly when `f = 0` in
the first case or `c = N - 1` in the second, and then the step stores the
result of the linear interpolator on `(f, c)`; otherwise the step stores the
result of the quadratic interpolator on three consecutive indices
`(s, s + 1, s + 2)` with `0 ≤ s` and `s + 2 ≤ N - 1`, where `s` is the smaller
of `f` and the third index. -/
theorem quadratic_third_point_selection (h : Host) (this packet : AkAudioPacket) (n : Nat)
    (channel : Nat) (buf : List Byte) (k : Nat) (x : Rat)
    (hN : 1 ≤ this.caps.samples) (hn : 2 ≤ n) (hk : k < n)
    (hpos : resamplePosition this.caps.samples (n : Int) k = some x)
    (hni : qFloor x ≠ qCeil x) :
    ∃ third : Int,
      third = (if x - ((qFloor x : Int) : Rat) < ((qCeil x : Int) : Rat) - x
        then max (qFloor x - 1) 0 else min (qCeil x + 1) ((this.caps.samples : Int) - 1)) ∧
      ((third = qFloor x ∨ third = qCeil x) ↔
        (x - ((qFloor x : Int) : Rat) < ((qCeil x : Int) : Rat) - x ∧ qFloor x = 0) ∨
        (¬ x - ((qFloor x : Int) : Rat) < ((qCeil x : Int) : Rat) - x ∧
          qCeil x = (this.caps.samples : Int) - 1)) ∧
      ((third = qFloor x ∨ third = qCeil x) →
        resampleQuadraticStep h this packet (n : Int) channel buf k
          = ((bySamplesInterpolationFormat h packet.caps.format).linear this channel x
              (qFloor x) (qCeil x)).map fun bytes =>
                memcpy buf (packet.sample channel k) (interpolatedData h bytes) 0
                  (packet.caps.bps / 8)) ∧
      (¬ (third = qFloor x ∨ third = qCeil x) →
        ∃ s : Int, s = min (qFloor x) third ∧ 0 ≤ s ∧ s + 2 ≤ (this.caps.samples : Int) - 1 ∧
          resampleQuadraticStep h this packet (n : Int) channel buf k
            = ((bySamplesInterpolationFormat h packet.caps.format).quadratic this channel x
                s (s + 1) (s + 2)).map fun bytes =>
                  memcpy buf (packet.sample channel k) (interpolatedData h bytes) 0
                    (packet.caps.bps / 8)) := by
  obtain ⟨hc, hfx, hxf⟩ := qCeil_eq_qFloor_add_one x hni
  obtain ⟨h0, hxN, -⟩ := resamplePosition_bounds _ n k hN hn hk x hpos
  have hf0 : 0 ≤ qFloor x := Int.floor_nonneg.2 h0
  have hcN : qFloor x + 1 ≤ (this.caps.samples : Int) - 1 := by
    rw [← hc]
    unfold qCeil
    rw [Int.ceil_le]
    push_cast
    exact hxN
  have hu := quadraticStep_unfold h this packet (n : Int) channel buf k x hpos hni _ _ _
    rfl rfl rfl _ _ rfl rfl
  obtain ⟨k1, k2, k3⟩ := thirdPoint_cases (qFloor x) (this.caps.samples : Int)
    (x - ((qFloor x : Int) : Rat) < ((qFloor x + 1 : Int) : Rat) - x)
    (fun a b => ((bySamplesInterpolationFormat h packet.caps.format).linear this channel x
      a b).map fun bytes =>
        memcpy buf (packet.sample channel k) (interpolatedData h bytes) 0
          (packet.caps.bps / 8))
    (fun a b c => ((bySamplesInterpolationFormat h packet.caps.format).quadratic this channel x
      a b c).map fun bytes =>
        memcpy buf (packet.sample channel k) (interpolatedData h bytes) 0
          (packet.caps.bps / 8))
    hf0 hcN _ rfl
  rw [k3] at hu
  rw [hc]
  refine ⟨_, rfl, k1, fun hl => ?_, fun hq => ?_⟩
  · rw [if_pos hl] at hu
    exact hu
  · rw [if_neg hq] at hu
    exact ⟨_, rfl, (k2 hq).1, (k2 hq).2, hu⟩

theorem resamplePosition_three_five_one :
    resamplePosition (examplePacket .s16le .mono false 3 1 [10, 0, 20, 0, 30, 0]).caps.samples
      ((5 : Nat) : Int) 1 = some (1 / 2) := by
  show resamplePosition 3 5 1 = _
  unfold resamplePosition
  rw [if_neg (by decide)]
  norm_num

/-- Witness of C35: output sample 1 of 5 of a 3-sample buffer, at position `1/2`. -/
theorem quadratic_third_point_selection_witness :
    (1 ≤ (examplePacket .s16le .mono false 3 1 [10, 0, 20, 0, 30, 0]).caps.samples ∧
      2 ≤ 5 ∧ 1 < 5 ∧
      resamplePosition (examplePacket .s16le .mono false 3 1 [10, 0, 20, 0, 30, 0]).caps.samples
        ((5 : Nat) : Int) 1 = some (1 / 2) ∧
      qFloor (1 / 2 : Rat) ≠ qCeil (1 / 2 : Rat)) ∧
    ∃ third : Int,
      third = (if (1 / 2 : Rat) - ((qFloor (1 / 2 : Rat) : Int) : Rat)
            < ((qCeil (1 / 2 : Rat) : Int) : Rat) - (1 / 2 : Rat)
        then max (qFloor (1 / 2 : Rat) - 1) 0
        else min (qCeil (1 / 2 : Rat) + 1)
          (((examplePacket .s16le .mono false 3 1 [10, 0, 20, 0, 30, 0]).caps.samples : Int)
            - 1)) ∧
      ((third = qFloor (1 / 2 : Rat) ∨ third = qCeil (1 / 2 : Rat)) ↔
        ((1 / 2 : Rat) - ((qFloor (1 / 2 : Rat) : Int) : Rat)
            < ((qCeil (1 / 2 : Rat) : Int) : Rat) - (1 / 2 : Rat) ∧ qFloor (1 / 2 : Rat) = 0) ∨
        (¬ (1 / 2 : Rat) - ((qFloor (1 / 2 : Rat) : Int) : Rat)
            < ((qCeil (1 / 2 : Rat) : Int) : Rat) - (1 / 2 : Rat) ∧
          qCeil (1 / 2 : Rat)
            = ((examplePacket .s16le .mono false 3 1 [10, 0, 20, 0, 30, 0]).caps.samples : Int)
              - 1)) ∧
      ((third = qFloor (1 / 2 : Rat) ∨ third = qCeil (1 / 2 : Rat)) →
        resampleQuadraticStep exampleHost
            (examplePacket .s16le .mono false 3 1 [10, 0, 20, 0, 30, 0])
            (examplePacket .s16le .mono false 5 1 []) ((5 : Nat) : Int) 0 [] 1
          = ((bySamplesInterpolationFormat exampleHost
                (examplePacket .s16le .mono false 5 1 []).caps.format).linear
              (examplePacket .s16le .mono false 3 1 [10, 0, 20, 0, 30, 0]) 0 (1 / 2)
              (qFloor (1 / 2 : Rat)) (qCeil (1 / 2 : Rat))).map fun bytes =>
                memcpy [] ((examplePacket .s16le .mono false 5 1 []).sample 0 1)
                  (interpolatedData exampleHost bytes) 0
                  ((examplePacket .s16le .mono false 5 1 []).caps.bps / 8)) ∧
      (¬ (third = qFloor (1 / 2 : Rat) ∨ third = qCeil (1 / 2 : Rat)) →
        ∃ s : Int, s = min (qFloor (1 / 2 : Rat)) third ∧ 0 ≤ s ∧
          s + 2 ≤ ((examplePacket .s16le .mono false 3 1 [10, 0, 20, 0, 30, 0]).caps.samples
            : Int) - 1 ∧
          resampleQuadraticStep exampleHost
              (examplePacket .s16le .mono false 3 1 [10, 0, 20, 0, 30, 0])
              (examplePacket .s16le .mono false 5 1 []) ((5 : Nat) : Int) 0 [] 1
            = ((bySamplesInterpolationFormat exampleHost
                  (examplePacket .s16le .mono false 5 1 []).caps.format).quadratic
                (examplePacket .s16le .mono false 3 1 [10, 0, 20, 0, 30, 0]) 0 (1 / 2)
                s (s + 1) (s + 2)).map fun bytes =>
                  memcpy [] ((examplePacket .s16le .mono false 5 1 []).sample 0 1)
                    (interpolatedData exampleHost bytes) 0
                    ((examplePacket .s16le .mono false 5 1 []).caps.bps / 8)) :=
  have hni : qFloor (1 / 2 : Rat) ≠ qCeil (1 / 2 : Rat) := by
    rw [qFloor_qCeil_half.1, qFloor_qCeil_half.2]
    decide
  ⟨⟨by decide, by decide, by decide, resamplePosition_three_five_one, hni⟩,
    quadratic_third_point_selection exampleHost
      (examplePacket .s16le .mono false 3 1 [10, 0, 20, 0, 30, 0])
      (examplePacket .s16le .mono false 5 1 []) 5 0 [] 1 (1 / 2)
      (by decide) (by decide) (by decide) resamplePosition_three_five_one hni⟩

/-! ### Totality of resampling and metadata -/

theorem interpolate2_some (h : Host) (endian : EndianTag) (S T : CType)
    (packet : AkAudioPacket) (channel : Nat) (x : Rat) (s : Int)
    (hT : T = .qint64 ∨ T.isFloat = true) :
    ∃ w, interpolate2 h endian S T packet channel x s (s + 1) = some w := by
  unfold interpolate2
  simp only []
  split
  · exact ⟨_, rfl⟩
  · rename_i hf
    rcases hT with rfl | hT
    · have e : s + 1 - s = 1 := by ring
      have w1 : CType.qint32.wrap 1 = 1 := by decide
      have w2 : CType.qint64.wrap 1 = 1 := by decide
      simp only [CType.promote]
      rw [e, w1, w2, if_neg (by decide)]
      exact ⟨_, rfl⟩
    · simp [hT] at hf

theorem linear_some_of_consecutive (h : Host) (format : SampleFormat)
    (packet : AkAudioPacket) (channel : Nat) (x : Rat) (s : Int) :
    ∃ bytes, (bySamplesInterpolationFormat h format).linear packet channel x s (s + 1)
      = some bytes := by
  obtain ⟨sitype, itype, optype, endian, hrow, hop⟩ := bySamplesInterpolationFormat_row h format
  rw [hrow]
  obtain ⟨w, hw⟩ := interpolate2_some h endian itype optype packet channel
    ((qrealToInt x : Int) : Rat) s hop
  exact ⟨bytesOfWord h.endian itype.sizeof w, by
    show Option.map _ (interpolate2 h endian itype optype packet channel _ s (s + 1)) = _
    rw [hw]; rfl⟩

theorem resamplePosition_some (N n k : Nat) (hn : 2 ≤ n) :
    ∃ x, resamplePosition N (n : Int) k = some x := by
  unfold resamplePosition
  rw [if_neg (by omega)]
  exact ⟨_, rfl⟩

theorem position_floor_bounds (N n k : Nat) (x : Rat) (hN : 1 ≤ N) (hn : 2 ≤ n) (hk : k < n)
    (hpos : resamplePosition N (n : Int) k = some x) (hni : qFloor x ≠ qCeil x) :
    0 ≤ qFloor x ∧ qFloor x + 1 ≤ (N : Int) - 1 := by
  obtain ⟨hc, -, -⟩ := qCeil_eq_qFloor_add_one x hni
  obtain ⟨h0, hxN, -⟩ := resamplePosition_bounds N n k hN hn hk x hpos
  refine ⟨Int.floor_nonneg.2 h0, ?_⟩
  rw [← hc]
  unfold qCeil
  rw [Int.ceil_le]
  push_cast
  exact hxN

theorem resampleLinearStep_some (h : Host) (this packet : AkAudioPacket) (n : Nat)
    (channel : Nat) (buf : List Byte) (k : Nat) (hn : 2 ≤ n) :
    ∃ b, resampleLinearStep h this packet (n : Int) channel buf k = some b := by
  obtain ⟨x, hx⟩ := resamplePosition_some this.caps.samples n k hn
  unfold resampleLinearStep
  rw [hx]
  simp only [Option.some_bind]
  by_cases hfc : qFloor x = qCeil x
  · rw [if_pos hfc]
    exact ⟨_, rfl⟩
  · rw [if_neg hfc, (qCeil_eq_qFloor_add_one x hfc).1]
    obtain ⟨bytes, hb⟩ := linear_some_of_consecutive h packet.caps.format this channel x
      (qFloor x)
    rw [hb]
    exact ⟨_, rfl⟩

theorem resampleQuadraticStep_some (h : Host) (this packet : AkAudioPacket) (n : Nat)
    (channel : Nat) (buf : List Byte) (k : Nat) (hn : 2 ≤ n) (hk : k < n)
    (hint : this.caps.samples < 2 ^ 31) :
    ∃ b, resampleQuadraticStep h this packet (n : Int) channel buf k = some b := by
  obtain ⟨x, hx⟩ := resamplePosition_some this.caps.samples n k hn
  by_cases hfc : qFloor x = qCeil x
  · unfold resampleQuadraticStep
    rw [hx]
    simp only [Option.some_bind]
    rw [if_pos hfc]
    exact ⟨_, rfl⟩
  · obtain ⟨L, hL⟩ : ∃ L : Int → Int → Option (List Byte), L = fun a b =>
        ((bySamplesInterpolationFormat h packet.caps.format).linear this channel x a b).map
          fun bytes => memcpy buf (packet.sample channel k) (interpolatedData h bytes) 0
            (packet.caps.bps / 8) := ⟨_, rfl⟩
    obtain ⟨Q, hQ⟩ : ∃ Q : Int → Int → Int → Option (List Byte), Q = fun a b c =>
        ((bySamplesInterpolationFormat h packet.caps.format).quadratic this channel x a b
          c).map fun bytes => memcpy buf (packet.sample channel k) (interpolatedData h bytes) 0
            (packet.caps.bps / 8) := ⟨_, rfl⟩
    have hLs : ∀ s, ∃ b, L s (s + 1) = some b := by
      intro s
      obtain ⟨bytes, hb⟩ := linear_some_of_consecutive h packet.caps.format this channel x s
      rw [hL]
      simp only [hb]
      exact ⟨_, rfl⟩
    obtain ⟨mid, hmid⟩ : ∃ mid : Int,
        mid = if x - ((qFloor x : Int) : Rat) < ((qFloor x + 1 : Int) : Rat) - x
          then max (qFloor x - 1) 0
          else min (qFloor x + 1 + 1) ((this.caps.samples : Int) - 1) := ⟨_, rfl⟩
    have hu := quadraticStep_unfold h this packet (n : Int) channel buf k x hx hfc _ _ mid
      rfl rfl hmid L Q hL hQ
    rcases Nat.eq_zero_or_pos this.caps.samples with hN | hN
    · have hf : qFloor x = -1 := by
        rw [hN] at hx
        exact resamplePosition_empty n k hn hk x hx hfc
      rw [thirdPoint_empty (x - ((qFloor x : Int) : Rat) < ((qFloor x + 1 : Int) : Rat) - x)
        L Q (qFloor x) (this.caps.samples : Int) mid hf (by rw [hN]; rfl) hmid] at hu
      rw [hu]
      exact hLs _
    · obtain ⟨hf0, hcN⟩ := position_floor_bounds _ n k x hN hn hk hx hfc
      obtain ⟨-, k2, k3⟩ := thirdPoint_cases (qFloor x) (this.caps.samples : Int)
        (x - ((qFloor x : Int) : Rat) < ((qFloor x + 1 : Int) : Rat) - x) L Q hf0 hcN mid hmid
      rw [k3] at hu
      rw [hu]
      by_cases ht : mid = qFloor x ∨ mid = qFloor x + 1
      · rw [if_pos ht]
        exact hLs _
      · rw [if_neg ht]
        obtain ⟨hs0, hs2⟩ := k2 ht
        obtain ⟨bytes, hb⟩ := quadratic_some_of_consecutive h packet.caps.format this channel x
          _ hs0 (by omega)
        rw [hQ]
        simp only [hb]
        exact ⟨_, rfl⟩

theorem foldlM_total {α β : Type} (f : β → α → Option β) (l : List α)
    (hf : ∀ b a, a ∈ l → ∃ b', f b a = some b') (b : β) :
    ∃ r, l.foldlM f b = some r := by
  induction l generalizing b with
  | nil => exact ⟨b, rfl⟩
  | cons a l ih =>
    obtain ⟨b', hb'⟩ := hf b a (List.mem_cons_self _ _)
    rw [List.foldlM_cons, hb']
    exact ih (fun b a ha => hf b a (List.mem_cons_of_mem _ ha)) b'

theorem resample_some (h : Host) (this packet : AkAudioPacket) (n : Nat)
    (m : ResampleMethod) (hn : 2 ≤ n) (hs : packet.caps.samples = n)
    (hint : this.caps.samples < 2 ^ 31) :
    ∃ buf, resample h this packet (n : Int) m = some buf := by
  cases m
  · exact foldlM_total _ _ (fun b c _ => foldlM_total _ _ (fun b k _ => by
      unfold resampleFastStep
      rw [if_neg (by omega)]
      exact ⟨_, rfl⟩) b) _
  · exact foldlM_total _ _ (fun b c _ => foldlM_total _ _ (fun b k _ =>
      resampleLinearStep_some h this packet n c b k hn) b) _
  · exact foldlM_total _ _ (fun b c _ => foldlM_total _ _ (fun b k hk =>
      resampleQuadraticStep_some h this packet n c b k hn
        (by rw [← hs]; exact List.mem_range.1 hk) hint) b) _

theorem realign_sameMetadata (h : Host) (p : AkAudioPacket) (align : Nat) :
    (p.realign h align).sameMetadata p := by
  unfold AkAudioPacket.realign
  simp only []
  split
  · exact ⟨rfl, rfl, rfl, rfl⟩
  · exact ⟨rfl, rfl, rfl, rfl⟩

/-- C40: metadata is not carried through resampling.  For `n ≥ 2` different
from the sample count (a count that fits an `int`), `scale(n, method)` returns a
buffer with the default metadata, and so does `convertSampleRate` to a different
rate whose rounded count is at least 2, whatever the metadata of the source;
`convertFormat` and `convertLayout` (when they succeed), `convertPlanar`,
`realign` and `pop` (of at least one sample from a non-empty buffer, for the
buffer returned and for the remainder) return buffers with the metadata of the
source. -/
theorem resampling_drops_metadata (h : Host) (p : AkAudioPacket) (n : Nat)
    (method : ResampleMethod) (hn : 2 ≤ n) (hne : n ≠ p.caps.samples)
    (hint : p.caps.samples < 2 ^ 31) :
    (∃ q, p.scale h (n : Int) method = some q ∧ q.hasDefaultMetadata) ∧
    (∀ (rate : Int) (drift : Rat) (count : Nat), rate ≠ p.caps.rate → p.caps.rate ≠ 0 →
      qRound ((p.caps.samples : Rat) * (rate : Rat) / (p.caps.rate : Rat) + drift)
        = (count : Int) → 2 ≤ count →
      ∃ q d, p.convertSampleRate h rate drift method = some (q, d) ∧ q.hasDefaultMetadata) ∧
    (∀ format, (p.convertFormat h format).isValid = true →
      (p.convertFormat h format).sameMetadata p) ∧
    (∀ layout, (p.convertLayout h layout).isValid = true →
      (p.convertLayout h layout).sameMetadata p) ∧
    (∀ planar, (p.convertPlanar h planar).sameMetadata p) ∧
    (∀ align, (p.realign h align).sameMetadata p) ∧
    (∀ m : Int, 1 ≤ m → 1 ≤ p.caps.samples →
      (p.pop h m).1.sameMetadata p ∧ (p.pop h m).2.sameMetadata p) := by
  refine ⟨?_, fun rate drift count hr h0 hq hc => ?_, fun format hv => ?_, fun layout hv => ?_,
    fun planar => ?_, fun align => realign_sameMetadata h p align, fun m hm hN => ?_⟩
  · obtain ⟨buf, hb⟩ := resample_some h p (AkAudioPacket.alloc h (p.caps.setSamples n)) n
      (if n < p.caps.samples then ResampleMethod.Fast else method) hn rfl hint
    refine ⟨{ AkAudioPacket.alloc h (p.caps.setSamples n) with buffer := buf }, ?_,
      rfl, rfl, rfl, rfl⟩
    rw [scale_eq h p n method hne (by omega), hb]
    rfl
  · obtain ⟨buf, hb⟩ := resample_some h p
      (AkAudioPacket.alloc h ((p.caps.setSamples count).setRate rate)) count
      (if count < p.caps.samples then ResampleMethod.Fast else method) hc rfl hint
    refine ⟨{ AkAudioPacket.alloc h ((p.caps.setSamples count).setRate rate) with
        buffer := buf },
      (p.caps.samples : Rat) * (rate : Rat) / (p.caps.rate : Rat) + drift - (count : Rat),
      ?_, rfl, rfl, rfl, rfl⟩
    rw [convertSampleRate_eq h p rate drift method count hr h0 hq (by omega), hb]
    rfl
  · obtain ⟨-, h1, h2, h3, h4⟩ := convertFormat_of_isValid h p format hv
    exact ⟨h1, h2, h4, h3⟩
  · obtain ⟨-, h1, h2, h3, h4⟩ := convertLayout_of_isValid h p layout hv
    exact ⟨h1, h2, h4, h3⟩
  · obtain ⟨-, h1, h2, h3, h4⟩ := convertPlanar_spec h p planar
    exact ⟨h1, h2, h4, h3⟩
  · obtain ⟨k, hk⟩ : ∃ k : Nat, (k : Int) = min (p.caps.samples : Int) m :=
      ⟨(min (p.caps.samples : Int) m).toNat, by omega⟩
    rw [pop_eq h p m k hk (by omega)]
    exact ⟨⟨rfl, rfl, rfl, rfl⟩, ⟨rfl, rfl, rfl, rfl⟩⟩

set_option maxRecDepth 1000000 in
/-- Witness of C40 on the 8-sample ramp, whose metadata are not the defaults. -/
theorem resampling_drops_metadata_witness :
    (2 ≤ 16 ∧ 16 ≠ exampleRamp.caps.samples ∧ exampleRamp.caps.samples < 2 ^ 31) ∧
    exampleRamp.pts = 7 ∧
    (∃ q, exampleRamp.scale exampleHost ((16 : Nat) : Int) .Quadratic = some q ∧
      q.hasDefaultMetadata) ∧
    (exampleRamp.convertFormat exampleHost .u8).isValid = true ∧
    (exampleRamp.convertFormat exampleHost .u8).sameMetadata exampleRamp :=
  ⟨⟨by decide, by decide, by decide⟩, rfl,
    (resampling_drops_metadata exampleHost exampleRamp 16 .Quadratic (by decide) (by decide)
      (by decide)).1,
    by decide,
    (resampling_drops_metadata exampleHost exampleRamp 16 .Quadratic (by decide) (by decide)
      (by decide)).2.2.1 .u8 (by decide)⟩

/-! ### Bounds of the summed wave -/

theorem lessThan_order (h : Host) (T : CType) (hf : T.isFloat = true → h.floatOrder T) :
    (∀ a b, lessThan h T a b = true → lessThan h T b a = false) ∧
    (∀ a b c, lessThan h T a b = true → lessThan h T b c = true → lessThan h T a c = true) := by
  unfold lessThan
  cases hT : T.isFloat
  · simp only [Bool.false_eq_true, if_false, decide_eq_true_eq, decide_eq_false_iff_not]
    exact ⟨fun a b hab => by omega, fun a b c hab hbc => by omega⟩
  · simp only [if_true]
    exact ⟨(hf hT).2.1, (hf hT).2.2⟩

theorem scan_spec (lt : Nat → Nat → Bool) (asym : ∀ a b, lt a b = true → lt b a = false)
    (trans : ∀ a b c, lt a b = true → lt b c = true → lt a c = true)
    (l : List Nat) (s0 : Nat × Nat) :
    (∀ d ∈ l,
      lt d (l.foldl (fun (s : Nat × Nat) data =>
        (if lt data s.1 then data else s.1, if lt s.2 data then data else s.2)) s0).1 = false ∧
      lt (l.foldl (fun (s : Nat × Nat) data =>
        (if lt data s.1 then data else s.1, if lt s.2 data then data else s.2)) s0).2 d
          = false) ∧
    ((l.foldl (fun (s : Nat × Nat) data =>
        (if lt data s.1 then data else s.1, if lt s.2 data then data else s.2)) s0).1 = s0.1 ∨
      lt (l.foldl (fun (s : Nat × Nat) data =>
        (if lt data s.1 then data else s.1, if lt s.2 data then data else s.2)) s0).1 s0.1
          = true) ∧
    ((l.foldl (fun (s : Nat × Nat) data =>
        (if lt data s.1 then data else s.1, if lt s.2 data then data else s.2)) s0).2 = s0.2 ∨
      lt s0.2 (l.foldl (fun (s : Nat × Nat) data =>
        (if lt data s.1 then data else s.1, if lt s.2 data then data else s.2)) s0).2
          = true) ∧
    ((l.foldl (fun (s : Nat × Nat) data =>
        (if lt data s.1 then data else s.1, if lt s.2 data then data else s.2)) s0).1 = s0.1 ∨
      (l.foldl (fun (s : Nat × Nat) data =>
        (if lt data s.1 then data else s.1, if lt s.2 data then data else s.2)) s0).1 ∈ l) ∧
    ((l.foldl (fun (s : Nat × Nat) data =>
        (if lt data s.1 then data else s.1, if lt s.2 data then data else s.2)) s0).2 = s0.2 ∨
      (l.foldl (fun (s : Nat × Nat) data =>
        (if lt data s.1 then data else s.1, if lt s.2 data then data else s.2)) s0).2 ∈ l) := by
  have irr : ∀ a, lt a a = false := by
    intro a
    cases ha : lt a a
    · rfl
    · have := asym a a ha
      rw [ha] at this
      exact this
  induction l generalizing s0 with
  | nil => simp
  | cons d l ih =>
    simp only [List.foldl_cons]
    obtain ⟨i1, i2, i3, i4, i5⟩ := ih
      (if lt d s0.1 then d else s0.1, if lt s0.2 d then d else s0.2)
    obtain ⟨r, hr⟩ : ∃ r, r = l.foldl (fun (s : Nat × Nat) data =>
        (if lt data s.1 then data else s.1, if lt s.2 data then data else s.2))
        (if lt d s0.1 then d else s0.1, if lt s0.2 d then d else s0.2) := ⟨_, rfl⟩
    rw [← hr] at i1 i2 i3 i4 i5 ⊢
    simp only at i2 i3 i4 i5
    have hmin : lt d r.1 = false ∧ (r.1 = s0.1 ∨ lt r.1 s0.1 = true) ∧
        (r.1 = s0.1 ∨ r.1 ∈ d :: l) := by
      by_cases hd : lt d s0.1 = true
      · rw [if_pos hd] at i2 i4
        refine ⟨?_, ?_, ?_⟩
        · rcases i2 with e | e
          · rw [e]; exact irr d
          · exact asym _ _ e
        · rcases i2 with e | e
          · right; rw [e]; exact hd
          · right; exact trans _ _ _ e hd
        · rcases i4 with e | e
          · right; rw [e]; exact List.mem_cons_self _ _
          · right; exact List.mem_cons_of_mem _ e
      · rw [if_neg hd] at i2 i4
        refine ⟨?_, i2, ?_⟩
        · rcases i2 with e | e
          · rw [e]; exact Bool.eq_false_iff.2 hd
          · cases hdr : lt d r.1
            · rfl
            · exact absurd (trans _ _ _ hdr e) hd
        · rcases i4 with e | e
          · left; exact e
          · right; exact List.mem_cons_of_mem _ e
    have hmax : lt r.2 d = false ∧ (r.2 = s0.2 ∨ lt s0.2 r.2 = true) ∧
        (r.2 = s0.2 ∨ r.2 ∈ d :: l) := by
      by_cases hd : lt s0.2 d = true
      · rw [if_pos hd] at i3 i5
        refine ⟨?_, ?_, ?_⟩
        · rcases i3 with e | e
          · rw [e]; exact irr d
          · exact asym _ _ e
        · rcases i3 with e | e
          · right; rw [e]; exact hd
          · right; exact trans _ _ _ hd e
        · rcases i5 with e | e
          · right; rw [e]; exact List.mem_cons_self _ _
          · right; exact List.mem_cons_of_mem _ e
      · rw [if_neg hd] at i3 i5
        refine ⟨?_, i3, ?_⟩
        · rcases i3 with e | e
          · rw [e]; exact Bool.eq_false_iff.2 hd
          · cases hdr : lt r.2 d
            · rfl
            · exact absurd (trans _ _ _ e hdr) hd
        · rcases i5 with e | e
          · left; exact e
          · right; exact List.mem_cons_of_mem _ e
    refine ⟨fun x hx => ?_, hmin.2.1, hmax.2.1, hmin.2.2, hmax.2.2⟩
    rcases List.mem_cons.1 hx with rfl | hx
    · exact ⟨hmin.1, hmax.1⟩
    · exact i1 x hx

theorem wordOfBytes_lt (e : Endian) (bs : List Byte) : wordOfBytes e bs < 256 ^ bs.length := by
  cases e
  · show bs.foldr (fun b acc => b.val + 256 * acc) 0 < _
    induction bs with
    | nil => simp
    | cons b bs ih =>
      simp only [List.foldr_cons, List.length_cons, pow_succ]
      have := b.isLt
      omega
  · show bs.foldl (fun acc b => acc * 256 + b.val) 0 < _
    have gen : ∀ (l : List Byte) (a n : Nat), a < 256 ^ n →
        l.foldl (fun acc b => acc * 256 + b.val) a < 256 ^ (n + l.length) := by
      intro l
      induction l with
      | nil => intro a n ha; simpa using ha
      | cons b l ih =>
        intro a n ha
        simp only [List.foldl_cons, List.length_cons]
        have hb := b.isLt
        have := ih (a * 256 + b.val) (n + 1) (by rw [pow_succ]; omega)
        rw [show n + (l.length + 1) = n + 1 + l.length from by omega]
        exact this
    have := gen bs 0 0 (by simp)
    simpa using this

theorem loadWord_lt (e : Endian) (T : CType) (buf : List Byte) (off i : Nat) :
    loadWord e T buf off i < 2 ^ T.bits := by
  unfold loadWord
  have := wordOfBytes_lt e (readBytes buf (off + i * T.sizeof) T.sizeof)
  rw [length_readBytes] at this
  have e2 : (256 : Nat) ^ T.sizeof = 2 ^ T.bits := by
    unfold CType.bits
    rw [pow_mul]
    norm_num
  rw [← e2]
  exact this

theorem CType.ofInt_lt (T : CType) (x : Int) : T.ofInt x < 2 ^ T.bits := by
  unfold CType.ofInt
  have hpos : (0 : Int) < 2 ^ T.bits := by positivity
  have h1 := Int.emod_nonneg x (ne_of_gt hpos)
  have h2 := Int.emod_lt_of_pos x hpos
  have : ((x % 2 ^ T.bits).toNat : Int) < ((2 ^ T.bits : Nat) : Int) := by
    rw [Int.toNat_of_nonneg h1]
    push_cast
    exact h2
  exact_mod_cast this

theorem CType.toInt_range (T : CType) (hT : T.isFloat = false) (w : Nat) :
    T.min ≤ T.toInt w ∧ T.toInt w ≤ T.max := by
  have hw : w % 2 ^ T.bits < 2 ^ T.bits := Nat.mod_lt _ (by positivity)
  cases T <;> first
    | (exact absurd hT (by decide))
    | (simp only [CType.toInt, CType.min, CType.max, CType.bits, CType.sizeof, CType.isSigned,
        CType.isFloat] at hw ⊢
       norm_num at hw ⊢
       try split
       all_goals omega)

theorem CType.ofInt_toInt (T : CType) (w : Nat) (hw : w < 2 ^ T.bits) :
    T.ofInt (T.toInt w) = w := by
  have hm : w % 2 ^ T.bits = w := Nat.mod_eq_of_lt hw
  unfold CType.ofInt CType.toInt
  rw [hm]
  have key : ∀ y : Int, y % ((2 : Int) ^ T.bits) = (w : Int) → (y % (2 ^ T.bits : Int)).toNat = w := by
    intro y hy
    rw [hy]
    simp
  apply key
  have hwI : (w : Int) < 2 ^ T.bits := by exact_mod_cast hw
  split
  · rw [Int.sub_emod, Int.emod_self, sub_zero, Int.emod_emod_of_dvd _ (dvd_refl _)]
    exact Int.emod_eq_of_lt (by omega) hwI
  · exact Int.emod_eq_of_lt (by omega) hwI

theorem CType.toInt_ofInt_min (T : CType) (hT : T.isFloat = false) :
    T.toInt (T.ofInt T.min) = T.min ∧ T.toInt (T.ofInt T.max) = T.max := by
  cases T <;> first
    | (exact absurd hT (by decide))
    | exact ⟨by decide, by decide⟩

theorem Bound.toWord_limits (T : CType) (hT : T.isFloat = false) :
    Bound.toWord T (.numericMin T) = T.ofInt T.min ∧
    Bound.toWord T (.numericMax T) = T.ofInt T.max := by
  cases T <;> first
    | (exact absurd hT (by decide))
    | exact ⟨rfl, rfl⟩

theorem waveBounds_scan (h : Host) (T : CType) (packet : AkAudioPacket) :
    ∃ s : Nat × Nat,
      s = (((List.range packet.caps.channels ×ˢ List.range packet.caps.samples).map
          fun x => loadWord h.endian T packet.buffer (packet.sample x.1 x.2) 0).foldl
        (fun (s : Nat × Nat) data =>
          (if lessThan h T data s.1 then data else s.1,
            if lessThan h T s.2 data then data else s.2))
        (Bound.toWord T (.numericMax T), Bound.toWord T (.numericMin T))) ∧
      waveBounds h T packet =
        (if lessThan h T
            (Bound.toWord T (if T.isFloat then Bound.negOne else Bound.numericMin T)) s.1
          then Bound.toWord T (if T.isFloat then Bound.negOne else Bound.numericMin T) else s.1,
         if lessThan h T s.2
            (Bound.toWord T (if T.isFloat then Bound.one else Bound.numericMax T))
          then Bound.toWord T (if T.isFloat then Bound.one else Bound.numericMax T) else s.2) := by
  refine ⟨_, rfl, ?_⟩
  have hflat := foldl_product
    (fun (s : Nat × Nat) c k =>
      ((if lessThan h T (loadWord h.endian T packet.buffer (packet.sample c k) 0) s.1
          then loadWord h.endian T packet.buffer (packet.sample c k) 0 else s.1,
        if lessThan h T s.2 (loadWord h.endian T packet.buffer (packet.sample c k) 0)
          then loadWord h.endian T packet.buffer (packet.sample c k) 0 else s.2) : Nat × Nat))
    (List.range packet.caps.channels) (List.range packet.caps.samples)
    (Bound.toWord T (.numericMax T), Bound.toWord T (.numericMin T))
  rw [List.foldl_map, ← hflat]
  unfold waveBounds
  cases T <;> rfl

theorem orderedHost_floatOrder_qreal : orderedHost.floatOrder .qreal := by
  refine ⟨by decide, fun a b hab => ?_, fun a b c hab hbc => ?_⟩
  · have h1 : signMagnitude .qreal a < signMagnitude .qreal b := of_decide_eq_true hab
    exact decide_eq_false (not_lt.2 (le_of_lt h1))
  · have h1 : signMagnitude .qreal a < signMagnitude .qreal b := of_decide_eq_true hab
    have h2 : signMagnitude .qreal b < signMagnitude .qreal c := of_decide_eq_true hbc
    exact decide_eq_true (lt_trans h1 h2)

/-- C32: `waveBounds` returns `(smin, smax)` such that no sample of the buffer is
below `smin` or above `smax`, `smin` is not above the lower bound and `smax` is
not below the upper bound of the valid range (`[-1, 1]` for `float` and `qreal`,
`[MIN, MAX]` of the type otherwise); for an integer type the result is exactly
`(MIN, MAX)` whatever the samples are.  `a ≤ b` is read as "not `b < a`" for the
comparison of the sample type, which for the floating types is assumed to be a
strict order (asymmetric and transitive). -/
theorem waveBounds_bounds_every_sample (h : Host) (T : CType) (packet : AkAudioPacket)
    (hf : T.isFloat = true → h.floatOrder T) :
    (∀ c k, c < packet.caps.channels → k < packet.caps.samples →
      lessThan h T (loadWord h.endian T packet.buffer (packet.sample c k) 0)
        (waveBounds h T packet).1 = false ∧
      lessThan h T (waveBounds h T packet).2
        (loadWord h.endian T packet.buffer (packet.sample c k) 0) = false) ∧
    lessThan h T (Bound.toWord T (if T.isFloat then Bound.negOne else Bound.numericMin T))
      (waveBounds h T packet).1 = false ∧
    lessThan h T (waveBounds h T packet).2
      (Bound.toWord T (if T.isFloat then Bound.one else Bound.numericMax T)) = false ∧
    (T.isFloat = false → waveBounds h T packet = (T.ofInt T.min, T.ofInt T.max)) := by
  obtain ⟨asym, trans⟩ := lessThan_order h T hf
  have irr : ∀ a, lessThan h T a a = false := by
    intro a
    cases ha : lessThan h T a a
    · rfl
    · have := asym a a ha
      rw [ha] at this
      exact this
  obtain ⟨s, hs, hw⟩ := waveBounds_scan h T packet
  obtain ⟨s1, -, -, s4, s5⟩ := scan_spec (lessThan h T) asym trans
    ((List.range packet.caps.channels ×ˢ List.range packet.caps.samples).map
      fun x => loadWord h.endian T packet.buffer (packet.sample x.1 x.2) 0)
    (Bound.toWord T (.numericMax T), Bound.toWord T (.numericMin T))
  rw [← hs] at s1 s4 s5
  rw [hw]
  obtain ⟨lo, hlo⟩ : ∃ lo, lo = Bound.toWord T (if T.isFloat then Bound.negOne
    else Bound.numericMin T) := ⟨_, rfl⟩
  obtain ⟨hi, hhi⟩ : ∃ hi, hi = Bound.toWord T (if T.isFloat then Bound.one
    else Bound.numericMax T) := ⟨_, rfl⟩
  rw [← hlo, ← hhi]
  simp only
  refine ⟨fun c k hc hk => ?_, ?_, ?_, fun hT => ?_⟩
  · obtain ⟨d1, d2⟩ := s1 (loadWord h.endian T packet.buffer (packet.sample c k) 0)
      (List.mem_map.2 ⟨(c, k), List.mem_product.2
        ⟨List.mem_range.2 hc, List.mem_range.2 hk⟩, rfl⟩)
    constructor
    · by_cases hl : lessThan h T lo s.1 = true
      · rw [if_pos hl]
        cases hd : lessThan h T (loadWord h.endian T packet.buffer (packet.sample c k) 0) lo
        · rfl
        · have := trans _ _ _ hd hl
          rw [d1] at this
          exact absurd this (by decide)
      · rw [if_neg hl]
        exact d1
    · by_cases hl : lessThan h T s.2 hi = true
      · rw [if_pos hl]
        cases hd : lessThan h T hi (loadWord h.endian T packet.buffer (packet.sample c k) 0)
        · rfl
        · have := trans _ _ _ hl hd
          rw [d2] at this
          exact absurd this (by decide)
      · rw [if_neg hl]
        exact d2
  · by_cases hl : lessThan h T lo s.1 = true
    · rw [if_pos hl]
      exact irr lo
    · rw [if_neg hl]
      exact Bool.eq_false_iff.2 hl
  · by_cases hl : lessThan h T s.2 hi = true
    · rw [if_pos hl]
      exact irr hi
    · rw [if_neg hl]
      exact Bool.eq_false_iff.2 hl
  · rw [hT] at hlo hhi
    simp only [Bool.false_eq_true, if_false] at hlo hhi
    obtain ⟨b1, b2⟩ := Bound.toWord_limits T hT
    rw [b1] at hlo
    rw [b2] at hhi
    obtain ⟨t1, t2⟩ := CType.toInt_ofInt_min T hT
    have hs1 : s.1 < 2 ^ T.bits := by
      rcases s4 with e | e
      · rw [e]
        show Bound.toWord T (.numericMax T) < _
        rw [b2]
        exact CType.ofInt_lt T _
      · obtain ⟨x, -, hx⟩ := List.mem_map.1 e
        rw [← hx]
        exact loadWord_lt _ _ _ _ _
    have hs2 : s.2 < 2 ^ T.bits := by
      rcases s5 with e | e
      · rw [e]
        show Bound.toWord T (.numericMin T) < _
        rw [b1]
        exact CType.ofInt_lt T _
      · obtain ⟨x, -, hx⟩ := List.mem_map.1 e
        rw [← hx]
        exact loadWord_lt _ _ _ _ _
    have r1 := CType.toInt_range T hT s.1
    have r2 := CType.toInt_range T hT s.2
    have l1 : lessThan h T lo s.1 = decide (T.toInt lo < T.toInt s.1) := by
      unfold lessThan
      rw [hT]
      rfl
    have l2 : lessThan h T s.2 hi = decide (T.toInt s.2 < T.toInt hi) := by
      unfold lessThan
      rw [hT]
      rfl
    rw [l1, l2, hlo, hhi, t1, t2]
    congr 1
    · by_cases hc : T.min < T.toInt s.1
      · rw [if_pos (by simpa using hc)]
      · rw [if_neg (by simpa using hc)]
        have : T.toInt s.1 = T.min := by omega
        rw [← CType.ofInt_toInt T s.1 hs1, this]
    · by_cases hc : T.toInt s.2 < T.max
      · rw [if_pos (by simpa using hc)]
      · rw [if_neg (by simpa using hc)]
        have : T.toInt s.2 = T.max := by omega
        rw [← CType.ofInt_toInt T s.2 hs2, this]

set_option maxRecDepth 1000000 in
/-- Witness of C32 on a stereo `qreal` sum buffer holding `2.0` and `-0.5`, and on
a 16-bit sum buffer. -/
theorem waveBounds_bounds_every_sample_witness :
    (CType.qreal.isFloat = true → orderedHost.floatOrder .qreal) ∧
    waveBounds orderedHost .qreal (examplePacket .dblle .stereo false 1 1
      [0, 0, 0, 0, 0, 0, 0, 0x40, 0, 0, 0, 0, 0, 0, 0xE0, 0xBF])
      = (0xBFF0000000000000, 0x4000000000000000) ∧
    lessThan orderedHost .qreal
      (Bound.toWord .qreal (if CType.qreal.isFloat then Bound.negOne
        else Bound.numericMin .qreal))
      (waveBounds orderedHost .qreal (examplePacket .dblle .stereo false 1 1
        [0, 0, 0, 0, 0, 0, 0, 0x40, 0, 0, 0, 0, 0, 0, 0xE0, 0xBF])).1 = false ∧
    waveBounds exampleHost .qint16 (examplePacket .s16le .stereo false 1 1 [5, 0, 7, 0])
      = (CType.qint16.ofInt CType.qint16.min, CType.qint16.ofInt CType.qint16.max) :=
  ⟨fun _ => orderedHost_floatOrder_qreal, by decide,
    (waveBounds_bounds_every_sample orderedHost .qreal (examplePacket .dblle .stereo false 1 1
      [0, 0, 0, 0, 0, 0, 0, 0x40, 0, 0, 0, 0, 0, 0, 0xE0, 0xBF])
      (fun _ => orderedHost_floatOrder_qreal)).2.1,
    (waveBounds_bounds_every_sample exampleHost .qint16
      (examplePacket .s16le .stereo false 1 1 [5, 0, 7, 0])
      (fun hc => absurd hc (by decide))).2.2.2 rfl⟩

/-! ### Linear interpolation of the host-order integer formats -/

theorem bytesOfWord_little_wordOfBytes (bs : List Byte) :
    bytesOfWord .little bs.length (wordOfBytes .little bs) = bs := by
  induction bs with
  | nil => rfl
  | cons b bs ih =>
    show (List.range (bs.length + 1)).map
      (fun i => (Fin.ofNat (List.foldr (fun b acc => b.val + 256 * acc) 0 (b :: bs) / 256 ^ i)
        : Byte)) = _
    rw [List.range_succ_eq_map, List.map_cons, List.map_map]
    congr 1
    · simp only [List.foldr_cons, pow_zero, Nat.div_one]
      apply Fin.ext
      show (b.val + 256 * _) % 256 = b.val
      have := b.isLt
      omega
    · rw [← ih]
      show _ = (List.range bs.length).map _
      rw [ih]
      apply List.map_congr_left
      intro i _
      simp only [Function.comp, List.foldr_cons]
      congr 1
      rw [pow_succ, Nat.mul_comm (256 ^ i) 256, ← Nat.div_div_eq_div_mul]
      congr 1
      have key : ∀ acc : Nat, (b.val + 256 * acc) / 256 = acc := by
        intro acc
        have := b.isLt
        omega
      exact key _

theorem wordOfBytes_big_eq (bs : List Byte) :
    wordOfBytes .big bs = wordOfBytes .little bs.reverse := by
  show bs.foldl (fun acc b => acc * 256 + b.val) 0
    = bs.reverse.foldr (fun b acc => b.val + 256 * acc) 0
  rw [List.foldr_reverse]
  congr 1
  funext acc b
  omega

theorem bytesOfWord_wordOfBytes (e : Endian) (bs : List Byte) :
    bytesOfWord e bs.length (wordOfBytes e bs) = bs := by
  cases e
  · exact bytesOfWord_little_wordOfBytes bs
  · rw [wordOfBytes_big_eq]
    show (bytesOfWord .little bs.length (wordOfBytes .little bs.reverse)).reverse = bs
    have := bytesOfWord_little_wordOfBytes bs.reverse
    rw [List.length_reverse] at this
    rw [this, List.reverse_reverse]

theorem length_readBytesAt (buf : List Byte) (off : Int) (n : Nat) :
    (readBytesAt buf off n).length = n := by
  simp [readBytesAt]

theorem loadSample_lt (e : Endian) (T : CType) (buf : List Byte) (off : Int) :
    loadSample e T buf off < 2 ^ T.bits := by
  unfold loadSample
  have := wordOfBytes_lt e (readBytesAt buf off T.sizeof)
  rw [length_readBytesAt] at this
  have e2 : (256 : Nat) ^ T.sizeof = 2 ^ T.bits := by
    unfold CType.bits
    rw [pow_mul]
    norm_num
  rw [← e2]
  exact this

theorem readBytes_interpolatedData (h : Host) (bytes : List Byte) (hlen : bytes.length ≤ 8) :
    readBytes (interpolatedData h bytes) 0 bytes.length = bytes := by
  apply ext_getD
  · rw [length_readBytes]
  · intro t ht
    rw [length_readBytes] at ht
    unfold interpolatedData
    rw [getD_readBytes, if_pos ht, getD_writeBytes]
    simp only [List.length_map, List.length_range, Nat.zero_add]
    rw [if_pos (by omega)]
    simp

theorem CType.toInt_range64 (S : CType) (hS : S.isFloat = false) (hbits : S.bits ≤ 32)
    (w : Nat) : -(2 ^ 63) ≤ S.toInt w ∧ S.toInt w < 2 ^ 63 := by
  obtain ⟨h1, h2⟩ := CType.toInt_range S hS w
  cases S <;> first
    | (exact absurd hS (by decide))
    | (exact absurd hbits (by decide))
    | (simp only [CType.min, CType.max, CType.bits, CType.sizeof, CType.isSigned,
        CType.isFloat] at h1 h2
       norm_num at h1 h2
       omega)

theorem interpolate2_hostOrder (h : Host) (endian : EndianTag) (S : CType)
    (packet : AkAudioPacket) (channel : Nat) (s : Int)
    (hS : S.isFloat = false) (hbits : S.bits ≤ 32)
    (hfrom : ∀ w, mixChannelsFromEndian h endian S w = w)
    (hto : ∀ w, mixChannelsToEndian h endian .qint64 w = w) :
    interpolate2 h endian S .qint64 packet channel ((s : Int) : Rat) s (s + 1)
      = some (loadSample h.endian S packet.buffer (packet.constSample channel s)) := by
  obtain ⟨v, hv⟩ : ∃ v, v = loadSample h.endian S packet.buffer (packet.constSample channel s) :=
    ⟨_, rfl⟩
  have hvlt : v < 2 ^ S.bits := by rw [hv]; exact loadSample_lt _ _ _ _
  obtain ⟨r1, r2⟩ := CType.toInt_range64 S hS hbits v
  have e1 : s + 1 - s = 1 := by ring
  have w1 : CType.qint32.wrap 1 = 1 := by decide
  have w2 : CType.qint64.wrap 1 = 1 := by decide
  have w0 : CType.qint64.wrap 0 = 0 := by decide
  have wc := wrap_qint64_of_range (S.toInt v) r1 r2
  have q0 : qrealToInt 0 = 0 := by simpa using qrealToInt_intCast 0
  have hq : CType.qint64.isFloat = false := rfl
  have hp : CType.qint64.promote = CType.qint64 := rfl
  have fin : CType.qint64.toInt (CType.qint64.ofInt (S.toInt v)) = S.toInt v := wc
  unfold interpolate2
  simp only [hfrom, hto, hS, hq, hp, Bool.or_self, Bool.false_eq_true, if_false,
    sub_self, e1, w1, w2, w0, q0, ← hv, wc, zero_mul, mul_one, zero_add, Int.tdiv_one]
  rw [if_neg (by decide), fin, CType.ofInt_toInt S v hvlt]

theorem hostOrder32_row (h : Host) (format : SampleFormat) (hf : format.hostOrder32 h) :
    ∃ S tag, bySamplesInterpolationFormat h format
        = DEFINE_SAMPLE_INTERPOLATION_FUNCTION h format S .qint64 tag ∧
      S.isFloat = false ∧ S.bits ≤ 32 ∧ S.sizeof = format.bps / 8 ∧
      (∀ w, mixChannelsFromEndian h tag S w = w) ∧
      (∀ w, mixChannelsToEndian h tag .qint64 w = w) := by
  unfold SampleFormat.hostOrder32 at hf
  cases he : h.endian
  · rw [he] at hf
    rcases hf with rfl | rfl | rfl | rfl | rfl | rfl
    · exact ⟨.qint8, .native, rfl, rfl, by decide, rfl, fun _ => rfl, fun _ => rfl⟩
    · exact ⟨.quint8, .native, rfl, rfl, by decide, rfl, fun _ => rfl, fun _ => rfl⟩
    · exact ⟨.qint16, .LE, rfl, rfl, by decide, rfl,
        fun _ => by simp [mixChannelsFromEndian, qFromLittleEndian, he],
        fun _ => by simp [mixChannelsToEndian, qToLittleEndian, he]⟩
    · exact ⟨.quint16, .LE, rfl, rfl, by decide, rfl,
        fun _ => by simp [mixChannelsFromEndian, qFromLittleEndian, he],
        fun _ => by simp [mixChannelsToEndian, qToLittleEndian, he]⟩
    · exact ⟨.qint32, .LE, rfl, rfl, by decide, rfl,
        fun _ => by simp [mixChannelsFromEndian, qFromLittleEndian, he],
        fun _ => by simp [mixChannelsToEndian, qToLittleEndian, he]⟩
    · exact ⟨.quint32, .LE, rfl, rfl, by decide, rfl,
        fun _ => by simp [mixChannelsFromEndian, qFromLittleEndian, he],
        fun _ => by simp [mixChannelsToEndian, qToLittleEndian, he]⟩
  · rw [he] at hf
    rcases hf with rfl | rfl | rfl | rfl | rfl | rfl
    · exact ⟨.qint8, .native, rfl, rfl, by decide, rfl, fun _ => rfl, fun _ => rfl⟩
    · exact ⟨.quint8, .native, rfl, rfl, by decide, rfl, fun _ => rfl, fun _ => rfl⟩
    · exact ⟨.qint16, .BE, rfl, rfl, by decide, rfl,
        fun _ => by simp [mixChannelsFromEndian, qFromBigEndian, he],
        fun _ => by simp [mixChannelsToEndian, qToBigEndian, he]⟩
    · exact ⟨.quint16, .BE, rfl, rfl, by decide, rfl,
        fun _ => by simp [mixChannelsFromEndian, qFromBigEndian, he],
        fun _ => by simp [mixChannelsToEndian, qToBigEndian, he]⟩
    · exact ⟨.qint32, .BE, rfl, rfl, by decide, rfl,
        fun _ => by simp [mixChannelsFromEndian, qFromBigEndian, he],
        fun _ => by simp [mixChannelsToEndian, qToBigEndian, he]⟩
    · exact ⟨.quint32, .BE, rfl, rfl, by decide, rfl,
        fun _ => by simp [mixChannelsFromEndian, qFromBigEndian, he],
        fun _ => by simp [mixChannelsToEndian, qToBigEndian, he]⟩

theorem linear_hostOrder (h : Host) (format : SampleFormat) (hf : format.hostOrder32 h)
    (packet : AkAudioPacket) (channel : Nat) (x : Rat) (s : Int) (hx : qrealToInt x = s) :
    (bySamplesInterpolationFormat h format).linear packet channel x s (s + 1)
      = some (readBytesAt packet.buffer (packet.constSample channel s) (format.bps / 8)) := by
  obtain ⟨S, tag, hrow, hS, hbits, hsz, hfrom, hto⟩ := hostOrder32_row h format hf
  rw [hrow]
  show Option.map _ (interpolate2 h tag S .qint64 packet channel ((qrealToInt x : Int) : Rat)
    s (s + 1)) = _
  rw [hx, interpolate2_hostOrder h tag S packet channel s hS hbits hfrom hto]
  show some (bytesOfWord h.endian S.sizeof (wordOfBytes h.endian
    (readBytesAt packet.buffer (packet.constSample channel s) S.sizeof))) = _
  have hl := length_readBytesAt packet.buffer (packet.constSample channel s) S.sizeof
  have := bytesOfWord_wordOfBytes h.endian
    (readBytesAt packet.buffer (packet.constSample channel s) S.sizeof)
  rw [hl] at this
  rw [this, hsz]

theorem resampleLinearStep_hostOrder (h : Host) (this packet : AkAudioPacket) (n : Nat)
    (channel : Nat) (buf : List Byte) (k : Nat)
    (hf : packet.caps.format.hostOrder32 h)
    (hN : 1 ≤ this.caps.samples) (hn : 2 ≤ n) (hk : k < n) :
    resampleLinearStep h this packet (n : Int) channel buf k
      = some (memcpyAt buf (packet.sample channel k) this.buffer
          (this.constSample channel ((k * (this.caps.samples - 1) / (n - 1) : Nat) : Int))
          (packet.caps.bps / 8)) := by
  obtain ⟨x, hx⟩ := resamplePosition_some this.caps.samples n k hn
  obtain ⟨h0, -, hfl⟩ := resamplePosition_bounds _ n k hN hn hk x hx
  unfold resampleLinearStep
  rw [hx]
  simp only [Option.some_bind]
  by_cases hfc : qFloor x = qCeil x
  · rw [if_pos hfc, hfl]
  · rw [if_neg hfc, (qCeil_eq_qFloor_add_one x hfc).1]
    have hq : qrealToInt x = qFloor x := by
      unfold qrealToInt qFloor
      rw [if_pos h0]
    rw [linear_hostOrder h packet.caps.format hf this channel x (qFloor x) hq, hfl]
    simp only [Option.map_some']
    have hlen : (readBytesAt this.buffer (this.constSample channel
        ((k * (this.caps.samples - 1) / (n - 1) : Nat) : Int))
        (packet.caps.format.bps / 8)).length = packet.caps.bps / 8 := length_readBytesAt _ _ _
    have h8 : packet.caps.bps / 8 ≤ 8 := by
      show packet.caps.format.bps / 8 ≤ 8
      cases packet.caps.format <;> decide
    have := readBytes_interpolatedData h _ (by rw [hlen]; exact h8)
    rw [hlen] at this
    unfold memcpy memcpyAt
    rw [this]
    rfl

theorem foldlM_congr {α β : Type} (f g : β → α → Option β) (l : List α)
    (hfg : ∀ b a, a ∈ l → f b a = g b a) (b : β) : l.foldlM f b = l.foldlM g b := by
  induction l generalizing b with
  | nil => rfl
  | cons a l ih =>
    rw [List.foldlM_cons, List.foldlM_cons, hfg b a (List.mem_cons_self _ _)]
    cases g b a with
    | none => rfl
    | some b' => exact ih (fun b a ha => hfg b a (List.mem_cons_of_mem _ ha)) b'

theorem resample_linear_eq_fast (h : Host) (this packet : AkAudioPacket) (n : Nat)
    (hf : packet.caps.format.hostOrder32 h) (hs : packet.caps.samples = n)
    (hN : 1 ≤ this.caps.samples) (hn : 2 ≤ n)
    (hov : (n - 1) * (this.caps.samples - 1) < 2 ^ 31) :
    resample h this packet (n : Int) .Linear = resample h this packet (n : Int) .Fast := by
  show resampleLoop packet _ = resampleLoop packet _
  unfold resampleLoop
  apply foldlM_congr
  intro buf c _
  apply foldlM_congr
  intro buf k hk
  have hk' : k < n := by rw [← hs]; exact List.mem_range.1 hk
  rw [resampleLinearStep_hostOrder h this packet n c buf k hf hN hn hk']
  unfold resampleFastStep
  rw [if_neg (by omega)]
  simp only
  rw [resampleFastIndex_eq_div _ _ _ hN hn hk' hov]

theorem scale_linear_eq_fast_of_hostOrder (h : Host) (p : AkAudioPacket) (n : Nat)
    (hf : p.caps.format.hostOrder32 h) (hN : 1 ≤ p.caps.samples) (hn : p.caps.samples < n)
    (hov : (n - 1) * (p.caps.samples - 1) < 2 ^ 31) :
    p.scale h (n : Int) .Linear = p.scale h (n : Int) .Fast := by
  rw [scale_eq h p n .Linear (by omega) (by omega), scale_eq h p n .Fast (by omega) (by omega),
    if_neg (by omega), if_neg (by omega),
    resample_linear_eq_fast h p (AkAudioPacket.alloc h (p.caps.setSamples n)) n hf rfl hN
      (by omega) hov]

theorem resample_linear_writes (h : Host) (this packet : AkAudioPacket) (n : Nat)
    (hf : packet.caps.format.hostOrder32 h) (hs : packet.caps.samples = n)
    (hlen : packet.buffer.length = packet.caps.frameSize)
    (hN : 1 ≤ this.caps.samples) (hn : 2 ≤ n) :
    ∃ buf, resample h this packet (n : Int) .Linear = some buf ∧
      ∀ c k, c < packet.caps.channels → k < n →
        readBytes buf (packet.sample c k) (packet.caps.bps / 8)
          = readBytesAt this.buffer
              (this.constSample c ((k * (this.caps.samples - 1) / (n - 1) : Nat) : Int))
              (packet.caps.bps / 8) := by
  obtain ⟨buf, hb1, -, hb3⟩ := resampleLoop_writes packet
    (resampleLinearStep h this packet (n : Int))
    (fun c k => readBytesAt this.buffer
      (this.constSample c ((k * (this.caps.samples - 1) / (n - 1) : Nat) : Int))
      (packet.caps.bps / 8))
    hlen (fun c k => length_readBytesAt _ _ _)
    (fun c buf k _ hk =>
      resampleLinearStep_hostOrder h this packet n c buf k hf hN hn (by omega))
  exact ⟨buf, hb1, fun c k hc hk => hb3 c k hc (by omega)⟩

theorem resample_fast_writes (h : Host) (this packet : AkAudioPacket) (n : Nat)
    (hs : packet.caps.samples = n)
    (hlen : packet.buffer.length = packet.caps.frameSize) (hn : 2 ≤ n) :
    ∃ buf, resample h this packet (n : Int) .Fast = some buf ∧
      ∀ c k, c < packet.caps.channels → k < n →
        readBytes buf (packet.sample c k) (packet.caps.bps / 8)
          = readBytesAt this.buffer
              (this.constSample c (resampleFastIndex this.caps.samples (n : Int) k))
              (packet.caps.bps / 8) := by
  obtain ⟨buf, hb1, -, hb3⟩ := resampleLoop_writes packet
    (resampleFastStep this packet (n : Int))
    (fun c k => readBytesAt this.buffer
      (this.constSample c (resampleFastIndex this.caps.samples (n : Int) k))
      (packet.caps.bps / 8))
    hlen (fun c k => length_readBytesAt _ _ _)
    (fun c buf k _ _ => by
      unfold resampleFastStep
      rw [if_neg (by omega)]
      rfl)
  exact ⟨buf, hb1, fun c k hc hk => hb3 c k hc (by omega)⟩

set_option maxRecDepth 1000000 in
theorem exampleLongPacket_last_sample :
    readBytesAt exampleLongPacket.buffer (exampleLongPacket.constSample 0 65536) 1 = [1] ∧
    readBytesAt exampleLongPacket.buffer (exampleLongPacket.constSample 0 0) 1 = [0] := by
  have c1 : exampleLongPacket.constSample 0 65536 = ((65536 : Nat) : Int) := by decide
  have c2 : exampleLongPacket.constSample 0 0 = ((0 : Nat) : Int) := by decide
  rw [c1, c2, readBytesAt_natCast, readBytesAt_natCast]
  have hb : exampleLongPacket.buffer = List.replicate 65536 (0 : Byte) ++ [1] := rfl
  have r1 : ∀ (buf : List Byte) (off : Nat), readBytes buf off 1 = [buf.getD (off + 0) 0] :=
    fun _ _ => rfl
  rw [r1, r1, hb]
  constructor
  · rw [List.getD_append_right _ _ _ _ (by rw [List.length_replicate])]
    rw [List.length_replicate]
    rfl
  · rw [List.getD_append _ _ _ _ (by rw [List.length_replicate]; decide)]
    rw [List.getD_eq_getElem?_getD, List.getElem?_replicate]
    rfl

set_option maxRecDepth 1000000 in
/-- C37: `scale(n, Linear)` and `scale(n, Fast)` return different buffers for a
65537-sample `s8` buffer (65536 zeros, then 1) scaled to 65538 samples.  The `int` product
`65537 * 65536` of the Fast index overflows, so the last output sample of `Fast` is input
sample 0 (value 0), while that of `Linear`, whose position is computed in `qreal`, is the
last input sample (value 1). -/
theorem scale_linear_differs_from_fast_on_long_buffer :
    exampleLongPacket.caps.format.hostOrder32 exampleHost ∧
    1 ≤ exampleLongPacket.caps.samples ∧ exampleLongPacket.caps.samples < 65538 ∧
    (∃ a b, exampleLongPacket.scale exampleHost ((65538 : Nat) : Int) .Linear = some a ∧
      exampleLongPacket.scale exampleHost ((65538 : Nat) : Int) .Fast = some b ∧
      readBytes a.buffer 65537 1 = [1] ∧ readBytes b.buffer 65537 1 = [0]) ∧
    exampleLongPacket.scale exampleHost ((65538 : Nat) : Int) .Linear
      ≠ exampleLongPacket.scale exampleHost ((65538 : Nat) : Int) .Fast := by
  have hfmt : exampleLongPacket.caps.format.hostOrder32 exampleHost := Or.inl rfl
  obtain ⟨bufL, hL1, hL2⟩ := resample_linear_writes exampleHost exampleLongPacket
    (AkAudioPacket.alloc exampleHost (exampleLongPacket.caps.setSamples 65538)) 65538
    hfmt rfl (AkAudioPacket.length_alloc _ _) (by decide) (by decide)
  obtain ⟨bufF, hF1, hF2⟩ := resample_fast_writes exampleHost exampleLongPacket
    (AkAudioPacket.alloc exampleHost (exampleLongPacket.caps.setSamples 65538)) 65538
    rfl (AkAudioPacket.length_alloc _ _) (by decide)
  have hoff : (AkAudioPacket.alloc exampleHost
      (exampleLongPacket.caps.setSamples 65538)).sample 0 65537 = 65537 := by decide
  have hb : (AkAudioPacket.alloc exampleHost
      (exampleLongPacket.caps.setSamples 65538)).caps.bps / 8 = 1 := by decide
  have hch : 0 < (AkAudioPacket.alloc exampleHost
      (exampleLongPacket.caps.setSamples 65538)).caps.channels := by decide
  have eL := hL2 0 65537 hch (by decide)
  have eF := hF2 0 65537 hch (by decide)
  rw [hoff, hb] at eL eF
  have iL : ((65537 * (exampleLongPacket.caps.samples - 1) / (65538 - 1) : Nat) : Int)
      = 65536 := by decide
  have iF : resampleFastIndex exampleLongPacket.caps.samples ((65538 : Nat) : Int) 65537
      = 0 := by decide
  rw [iL, exampleLongPacket_last_sample.1] at eL
  rw [iF, exampleLongPacket_last_sample.2] at eF
  have sL : exampleLongPacket.scale exampleHost ((65538 : Nat) : Int) .Linear
      = some { AkAudioPacket.alloc exampleHost (exampleLongPacket.caps.setSamples 65538) with
          buffer := bufL } := by
    rw [scale_eq exampleHost exampleLongPacket 65538 .Linear (by decide) (by decide),
      if_neg (by decide), hL1]
    rfl
  have sF : exampleLongPacket.scale exampleHost ((65538 : Nat) : Int) .Fast
      = some { AkAudioPacket.alloc exampleHost (exampleLongPacket.caps.setSamples 65538) with
          buffer := bufF } := by
    rw [scale_eq exampleHost exampleLongPacket 65538 .Fast (by decide) (by decide),
      ite_self, hF1]
    rfl
  refine ⟨hfmt, by decide, by decide, ⟨_, _, sL, sF, eL, eF⟩, ?_⟩
  rw [sL, sF]
  intro e
  have e2 : bufL = bufF := by
    have := Option.some.inj e
    exact congrArg AkAudioPacket.buffer this
  rw [e2, eF] at eL
  exact absurd eL (by decide)

/-! ### Truncated positions and the three-point interpolator -/

set_option maxRecDepth 1000000 in
theorem interpolate3_constant_example :
    interpolate3 exampleHost .LE .qint16 .qint64
        (examplePacket .s16le .mono false 3 1 [2, 1, 2, 1, 2, 1]) 0 ((0 : Int) : Rat) 0 1 2
      = some 0 := by
  have hdet : interpolate3Det .LE .qint64 0 1 2 = -3 := by decide
  have m0 : mixChannelsFromEndian exampleHost .LE .qint16
      (loadSample exampleHost.endian .qint16
        (examplePacket .s16le .mono false 3 1 [2, 1, 2, 1, 2, 1]).buffer
        ((examplePacket .s16le .mono false 3 1 [2, 1, 2, 1, 2, 1]).constSample 0 0))
      = 258 := by decide
  have m1 : mixChannelsFromEndian exampleHost .LE .qint16
      (loadSample exampleHost.endian .qint16
        (examplePacket .s16le .mono false 3 1 [2, 1, 2, 1, 2, 1]).buffer
        ((examplePacket .s16le .mono false 3 1 [2, 1, 2, 1, 2, 1]).constSample 0 1))
      = 258 := by decide
  have m2 : mixChannelsFromEndian exampleHost .LE .qint16
      (loadSample exampleHost.endian .qint16
        (examplePacket .s16le .mono false 3 1 [2, 1, 2, 1, 2, 1]).buffer
        ((examplePacket .s16le .mono false 3 1 [2, 1, 2, 1, 2, 1]).constSample 0 2))
      = 258 := by decide
  have hcoef : interpolate3Coef .LE .qint16 .qint64 258 258 258 0 1 2 = (0, 0, 0) := by decide
  have hval : (((0 : Int) : Rat) * ((0 : Int) : Rat) * ((0 : Int) : Rat)
      + ((0 : Int) : Rat) * ((0 : Int) : Rat) + ((0 : Int) : Rat)) / ((-3 : Int) : Rat)
      = ((0 : Int) : Rat) := by norm_num
  simp only [interpolate3, m0, m1, m2, hdet, hcoef]
  rw [hval, qrealToInt_intCast]
  rfl

set_option maxRecDepth 1000000 in
theorem interpolate3_ramp_example :
    interpolate3 exampleHost .LE .qint16 .qint64
        (examplePacket .s16le .mono false 3 1 [10, 0, 20, 0, 30, 0]) 0 ((0 : Int) : Rat) 0 1 2
      = some (CType.qint16.ofInt (-3)) ∧
    interpolate3 exampleHost .LE .qint16 .qint64
        (examplePacket .s16le .mono false 3 1 [10, 0, 20, 0, 30, 0]) 0 ((1 : Int) : Rat) 0 1 2
      = some (CType.qint16.ofInt 0) := by
  have hdet : interpolate3Det .LE .qint64 0 1 2 = -3 := by decide
  have m0 : mixChannelsFromEndian exampleHost .LE .qint16
      (loadSample exampleHost.endian .qint16
        (examplePacket .s16le .mono false 3 1 [10, 0, 20, 0, 30, 0]).buffer
        ((examplePacket .s16le .mono false 3 1 [10, 0, 20, 0, 30, 0]).constSample 0 0))
      = 10 := by decide
  have m1 : mixChannelsFromEndian exampleHost .LE .qint16
      (loadSample exampleHost.endian .qint16
        (examplePacket .s16le .mono false 3 1 [10, 0, 20, 0, 30, 0]).buffer
        ((examplePacket .s16le .mono false 3 1 [10, 0, 20, 0, 30, 0]).constSample 0 1))
      = 20 := by decide
  have m2 : mixChannelsFromEndian exampleHost .LE .qint16
      (loadSample exampleHost.endian .qint16
        (examplePacket .s16le .mono false 3 1 [10, 0, 20, 0, 30, 0]).buffer
        ((examplePacket .s16le .mono false 3 1 [10, 0, 20, 0, 30, 0]).constSample 0 2))
      = 30 := by decide
  have hcoef : interpolate3Coef .LE .qint16 .qint64 10 20 30 0 1 2 = (10, -20, 10) := by decide
  have hval0 : (((10 : Int) : Rat) * ((0 : Int) : Rat) * ((0 : Int) : Rat)
      + ((-20 : Int) : Rat) * ((0 : Int) : Rat) + ((10 : Int) : Rat)) / ((-3 : Int) : Rat)
      = (-10 : Rat) / 3 := by norm_num
  have hval1 : (((10 : Int) : Rat) * ((1 : Int) : Rat) * ((1 : Int) : Rat)
      + ((-20 : Int) : Rat) * ((1 : Int) : Rat) + ((10 : Int) : Rat)) / ((-3 : Int) : Rat)
      = ((0 : Int) : Rat) := by norm_num
  have hq : qrealToInt ((-10 : Rat) / 3) = -3 := by
    unfold qrealToInt
    rw [if_neg (by norm_num), Int.ceil_eq_iff]
    norm_num
  constructor
  · simp only [interpolate3, m0, m1, m2, hdet, hcoef]
    rw [hval0, hq]
    rfl
  · simp only [interpolate3, m0, m1, m2, hdet, hcoef]
    rw [hval1, qrealToInt_intCast]
    rfl

set_option maxRecDepth 1000000 in
/-- C34: the three-point interpolator does not evaluate the
polynomial through its support points.  `sample21`, `sample22`, `sample23` are
copies of the indices, not their squares, so on the support `(0, 1, 2)` the
computed `det` is `-3` and the coefficients of a constant signal are all zero.
For three `s16le` samples of value `258` the interpolator returns `0` at
`x = 0`, where the polynomial through the points has the value `258`; for the
samples `10, 20, 30` it returns `-3` at `x = 0` (the first support point, of
value `10`) and `0` at `x = 1` (the second, of value `20`).  Through the table
the same call stores the bytes `00 00` for the constant signal. -/
theorem quadratic_interpolator_misses_support_points :
    (examplePacket .s16le .mono false 3 1 [2, 1, 2, 1, 2, 1]).sampleValue .little .qint16 0 0
      = 258 ∧
    (examplePacket .s16le .mono false 3 1 [2, 1, 2, 1, 2, 1]).sampleValue .little .qint16 0 1
      = 258 ∧
    (examplePacket .s16le .mono false 3 1 [2, 1, 2, 1, 2, 1]).sampleValue .little .qint16 0 2
      = 258 ∧
    interpolate3Det .LE .qint64 0 1 2 = -3 ∧
    interpolate3Coef .LE .qint16 .qint64 258 258 258 0 1 2 = (0, 0, 0) ∧
    interpolate3 exampleHost .LE .qint16 .qint64
        (examplePacket .s16le .mono false 3 1 [2, 1, 2, 1, 2, 1]) 0 ((0 : Int) : Rat) 0 1 2
      = some 0 ∧
    interpolate3 exampleHost .LE .qint16 .qint64
        (examplePacket .s16le .mono false 3 1 [10, 0, 20, 0, 30, 0]) 0 ((0 : Int) : Rat) 0 1 2
      = some (CType.qint16.ofInt (-3)) ∧
    interpolate3 exampleHost .LE .qint16 .qint64
        (examplePacket .s16le .mono false 3 1 [10, 0, 20, 0, 30, 0]) 0 ((1 : Int) : Rat) 0 1 2
      = some (CType.qint16.ofInt 0) ∧
    (bySamplesInterpolationFormat exampleHost .s16le).quadratic
        (examplePacket .s16le .mono false 3 1 [2, 1, 2, 1, 2, 1]) 0 (1 / 2) 0 1 2
      = some [0, 0] := by
  refine ⟨by decide, by decide, by decide, by decide, by decide, interpolate3_constant_example,
    interpolate3_ramp_example.1, interpolate3_ramp_example.2, ?_⟩
  show Option.map _ (interpolate3 exampleHost .LE .qint16 .qint64 _ 0
    ((qrealToInt (1 / 2) : Int) : Rat) 0 1 2) = _
  rw [qrealToInt_half, interpolate3_constant_example]
  rfl

set_option maxRecDepth 1000000 in
/-- C33: the interpolators are registered through lambdas that
declare `int isample`, so the fractional position is truncated before the
linear interpolator sees it and the term `(x - s1) * (v2 - v1)` is always zero.
For the integer formats of at most 32 bits in host byte order every step of the
Linear method stores a byte copy of the input sample at the floor of the
position.  Scaling the two `s16le` samples `10, 20` to 3 samples gives
`10, 10, 20`: the middle sample, at position `1/2`, is `v1 = 10`, where the
formula evaluated at `1/2` gives `15` and `(x - s1) * |v2 - v1| = 5 ≥ 1`. -/
theorem linear_interpolator_truncates_position :
    (∀ (h : Host) (this packet : AkAudioPacket) (n channel k : Nat) (buf : List Byte),
      packet.caps.format.hostOrder32 h → 1 ≤ this.caps.samples → 2 ≤ n → k < n →
      resampleLinearStep h this packet (n : Int) channel buf k
        = some (memcpyAt buf (packet.sample channel k) this.buffer
            (this.constSample channel ((k * (this.caps.samples - 1) / (n - 1) : Nat) : Int))
            (packet.caps.bps / 8))) ∧
    (examplePacket .s16le .mono false 2 1 [10, 0, 20, 0]).sampleValue .little .qint16 0 0 = 10 ∧
    (examplePacket .s16le .mono false 2 1 [10, 0, 20, 0]).sampleValue .little .qint16 0 1 = 20 ∧
    resamplePosition 2 3 1 = some (1 / 2) ∧
    (((1 / 2 : Rat) - 0) * (20 - 10) + 10 * (1 - 0)) / (1 - 0) = 15 ∧
    (bySamplesInterpolationFormat exampleHost .s16le).linear
        (examplePacket .s16le .mono false 2 1 [10, 0, 20, 0]) 0 (1 / 2) 0 1 = some [10, 0] ∧
    (examplePacket .s16le .mono false 2 1 [10, 0, 20, 0]).scale exampleHost 3 .Linear
      = some ⟨⟨.s16le, .mono, false, 8000, 3, 1⟩, [10, 0, 10, 0, 20, 0], 0, AkFrac.empty,
          -1, -1⟩ := by
  have hfmt : SampleFormat.s16le.hostOrder32 exampleHost := Or.inr (Or.inr (Or.inl rfl))
  refine ⟨fun h this packet n channel k buf hf hN hn hk =>
      resampleLinearStep_hostOrder h this packet n channel buf k hf hN hn hk,
    by decide, by decide, ?_, by norm_num, ?_, ?_⟩
  · have := resamplePosition_example 1
    simpa using this
  · rw [show (1 : Int) = 0 + 1 from rfl,
      linear_hostOrder exampleHost .s16le hfmt _ 0 (1 / 2) 0 qrealToInt_half]
    decide
  · show (examplePacket .s16le .mono false 2 1 [10, 0, 20, 0]).scale exampleHost
      ((3 : Nat) : Int) .Linear = _
    rw [scale_linear_eq_fast_of_hostOrder exampleHost _ 3 hfmt (by decide) (by decide)
      (by decide)]
    decide

/-! ### The divisor of the channel mixer -/

end Webcamoid
